import Mathlib

/-!
# LoRa serial drivers: framing and request/response correlation

A shallow embedding of the framing and dispatch code of
`drivers/net/lora/wimod.c` (IMST WiMOD HCI: SLIP escaping, CRC trailer,
keyed dispatch of decoded packets, the synchronous request), of the text
reassemblers and command paths of `mm002.c` and `usi.c`, of the line
reassembler of `rn2483.c` and of the status decoding of `sx128x.c`, followed
by theorems about them.

Conventions of the embedding

* An octet (`u8`) is a `Nat`; a C buffer together with its length is a
  `List Nat` (the length is `List.length`).
* `int` values are `Int`; error codes are the negated errno constants.
* Calls into code outside the driver (the serial transport, the allocator)
  are arguments of the embedded function: `rets k` is the value returned by
  the `k`-th `serdev_device_write` of a call, `kzalloc n` tells whether an
  allocation of `n` octets succeeds.
* Where a function has an effect that the C code does not return (octets
  written to the transport, packets handed to `wimod_process_packet`,
  stores into `rx_buf` as pairs of first index and number of octets),
  the embedded function returns a log of it next to the C return value.
* A `struct completion` is its counter `done`: `complete` adds one,
  `completion_done` tests it against zero, a successful wait takes one off,
  `reinit_completion` sets it to zero.
-/

/-! ## Part 1: definitions -/

/-- Modelled from the spec: the errno constant `ENOMEM` (12 in `errno-base.h`, a
header outside the driver), returned negated when the escaped output does
not fit the buffer. -/
def ENOMEM : Int := 12

/-- Modelled from the spec: the errno constant `EINVAL` (22 in `errno-base.h`, a
header outside the driver), returned negated when the payload exceeds the
protocol maximum. -/
def EINVAL : Int := 22

/-- The C expression `~crc` stored into a `u16` (wimod.c:214 and 423): all 16
bits complemented, the bits above them dropped by the conversion. -/
def u16_not (x : Nat) : Nat := 0xffff - x % 0x10000

/-- Modelled from the spec: one bit of the reflected CRC-16/CCITT division
(polynomial 0x8408) from which the 256-entry table `crc_ccitt_table` of
`lib/crc-ccitt.c` is generated; that file is outside the driver. -/
def crc_ccitt_table_step (x : Nat) : Nat :=
  if x % 2 = 1 then (x >>> 1) ^^^ 0x8408 else x >>> 1

/-- Modelled from the spec: entry `i` of `crc_ccitt_table` (CRC-16/CCITT,
the variant whose residual is 0x0F47 after the final complement). -/
def crc_ccitt_table (i : Nat) : Nat :=
  crc_ccitt_table_step^[8] i

/-- Modelled from the spec: `crc_ccitt_byte` of `linux/crc-ccitt.h`, one octet of
the table driven CRC-16/CCITT: `(crc >> 8) ^ crc_ccitt_table[(crc ^ c) & 0xff]`. -/
def crc_ccitt_byte (crc c : Nat) : Nat :=
  (crc >>> 8) ^^^ crc_ccitt_table ((crc ^^^ c) &&& 0xff)

/-- Modelled from the spec: `crc_ccitt` of `lib/crc-ccitt.c`, the CRC-16/CCITT of
a buffer from a given initial value, `crc_ccitt_byte` folded over the octets. -/
def crc_ccitt (crc : Nat) (buffer : List Nat) : Nat :=
  buffer.foldl crc_ccitt_byte crc

namespace Wimod

/-- The C macro `WIMOD_HCI_PAYLOAD_MAX` (wimod.c:16). -/
def WIMOD_HCI_PAYLOAD_MAX : Nat := 300

/-- The C macro `WIMOD_HCI_PACKET_MAX` (wimod.c:17), the size of `rx_buf` and of
the frame buffer of `wimod_hci_send`. -/
def WIMOD_HCI_PACKET_MAX : Nat := 1 + (2 + WIMOD_HCI_PAYLOAD_MAX + 2) * 2 + 1

/-- The C macro `SLIP_END`, octal 0300 (wimod.c:28). -/
def SLIP_END : Nat := 0o300

/-- The C macro `SLIP_ESC`, octal 0333 (wimod.c:29). -/
def SLIP_ESC : Nat := 0o333

/-- The C macro `SLIP_ESC_END`, octal 0334 (wimod.c:30). -/
def SLIP_ESC_END : Nat := 0o334

/-- The C macro `SLIP_ESC_ESC`, octal 0335 (wimod.c:31). -/
def SLIP_ESC_ESC : Nat := 0o335

/-- The `for` loop of `slip_write_data` (wimod.c:100-123) and the tail of the
function (wimod.c:125-132).  The loop state is kept as lists:
`out = buf[0 .. count)` (so `count = out.length`),
`run = data[last_idx + 1 .. i)` (so `n = run.length` at wimod.c:105 and 125),
and the list argument is `data[i .. data_len)`.
The result is the C return value and the octets stored in `buf` so far. -/
def slip_write_loop (buf_len : Int) (out run : List Nat) : List Nat → Int × List Nat
  | [] =>
    if (out.length : Int) + (run.length : Int) > buf_len then (-ENOMEM, out)
    else (((out ++ run).length : Int), out ++ run)
  | b :: rest =>
    if b ≠ SLIP_END ∧ b ≠ SLIP_ESC then
      slip_write_loop buf_len out (run ++ [b]) rest
    else if (out.length : Int) + (run.length : Int) + 2 > buf_len then (-ENOMEM, out)
    else
      let out1 := out ++ run ++ [SLIP_ESC]
      let out2 :=
        if b = SLIP_END then out1 ++ [SLIP_ESC_END]
        else if b = SLIP_ESC then out1 ++ [SLIP_ESC_ESC]
        else out1
      slip_write_loop buf_len out2 [] rest

/-- The function `slip_write_data(buf, buf_len, data, data_len)` (wimod.c:94-133):
the pair of its return value (the count, or `-ENOMEM`) and the octets it
stored at `buf[0 ..]`. -/
def slip_write_data (buf_len : Int) (data : List Nat) : Int × List Nat :=
  slip_write_loop buf_len [] [] data

/-- The wake-up loop of `wimod_hci_send` (wimod.c:202-208): `slip_send_end` is
called for `i = 0 .. 29`, each a one-octet `serdev_device_write`; the first
non-zero return value ends the function.  The second argument counts the
iterations left; the log collects the buffers passed to the transport. -/
def wimod_hci_send_wakeup (rets : Nat → Int) :
    Nat → Nat → List (List Nat) → Option Int × List (List Nat)
  | _, 0, log => (none, log)
  | i, n + 1, log =>
    let ret := rets i
    if ret ≠ 0 then (some ret, log ++ [[SLIP_END]])
    else wimod_hci_send_wakeup rets (i + 1) n (log ++ [[SLIP_END]])

/-- The frame assembly of `wimod_hci_send` (wimod.c:210-278): the checksum, then
the stack buffer `buf` filled by four `slip_write_data` calls between two
`SLIP_END` octets.  `sizeof(buf) - buf_len` is the room passed to each call. The
checksum octets `(u8 *)&crc` are the little-endian pair (`cpu_to_le16s`). -/
def wimod_hci_send_buf (dst_id msg_id : Nat) (payload : List Nat) : Except Int (List Nat) :=
  let crc0 := crc_ccitt_byte 0xffff dst_id
  let crc1 := crc_ccitt_byte crc0 msg_id
  let crc2 := if payload.length > 0 then crc_ccitt crc1 payload else crc1
  let crc := u16_not crc2
  let buf0 := [SLIP_END]
  let r1 := slip_write_data ((WIMOD_HCI_PACKET_MAX : Int) - (buf0.length : Int)) [dst_id]
  if r1.1 < 0 then .error r1.1 else
  let buf1 := buf0 ++ r1.2
  let r2 := slip_write_data ((WIMOD_HCI_PACKET_MAX : Int) - (buf1.length : Int)) [msg_id]
  if r2.1 < 0 then .error r2.1 else
  let buf2 := buf1 ++ r2.2
  let r3 :=
    if payload.length > 0 then
      slip_write_data ((WIMOD_HCI_PACKET_MAX : Int) - (buf2.length : Int)) payload
    else (0, [])
  if r3.1 < 0 then .error r3.1 else
  let buf3 := buf2 ++ r3.2
  let r4 := slip_write_data ((WIMOD_HCI_PACKET_MAX : Int) - (buf3.length : Int))
    [crc &&& 0xff, crc >>> 8]
  if r4.1 < 0 then .error r4.1 else
  let buf4 := buf3 ++ r4.2
  .ok (buf4 ++ [SLIP_END])

/-- The function `wimod_hci_send(sdev, dst_id, msg_id, payload, payload_len, timeout)`
(wimod.c:190-287), with `payload_len = payload.length`.  The result is the C
return value and the log of the buffers passed to `serdev_device_write`, in
order; write number 30 (the 31st) is the frame. -/
def wimod_hci_send (rets : Nat → Int) (dst_id msg_id : Nat) (payload : List Nat) :
    Int × List (List Nat) :=
  if payload.length > WIMOD_HCI_PAYLOAD_MAX then (-EINVAL, [])
  else
    match wimod_hci_send_wakeup rets 0 30 [] with
    | (some ret, log) => (ret, log)
    | (none, log) =>
      match wimod_hci_send_buf dst_id msg_id payload with
      | .error ret => (ret, log)
      | .ok buf => (rets 30, log ++ [buf])

/-- Modelled from the spec: `struct completion` of the kernel, the "result slot"
signal of a pending request: `done` counts the signals not yet consumed. -/
structure completion where
  done : Nat
deriving DecidableEq

/-- Modelled from the spec: `completion_done`, true when the completion has been
signalled and not yet consumed. -/
def completion_done (x : completion) : Bool := x.done != 0

/-- Modelled from the spec: `complete`, signals the completion once. -/
def complete (x : completion) : completion := { done := x.done + 1 }

/-- The C struct `wimod_hci_packet_completion` (wimod.c:154-159) with the key of
its embedded `struct wimod_hci_packet_dispatcher` (wimod.c:146-152).  `payload`
is `none` for a NULL pointer.  The `dispatchee` of every dispatcher the driver
registers is `wimod_hci_packet_dispatch_completion` (wimod.c:313). -/
structure wimod_hci_packet_completion where
  dst_id : Nat
  msg_id : Nat
  comp : completion
  payload : Option (List Nat)
  payload_len : Int
deriving DecidableEq

/-- The function `wimod_hci_add_dispatcher` (wimod.c:161-165): `list_add_tail_rcu`
puts the entry at the end of `packet_dispatchers`, so the list is in order of
registration. -/
def wimod_hci_add_dispatcher (packet_dispatchers : List wimod_hci_packet_completion)
    (entry : wimod_hci_packet_completion) : List wimod_hci_packet_completion :=
  packet_dispatchers ++ [entry]

/-- The function `wimod_hci_remove_dispatcher` (wimod.c:167-171): `list_del_rcu`
unlinks the entry; an entry is identified by its position in the list. -/
def wimod_hci_remove_dispatcher (packet_dispatchers : List wimod_hci_packet_completion)
    (entry : Nat) : List wimod_hci_packet_completion :=
  packet_dispatchers.eraseIdx entry

/-- The function `wimod_hci_packet_dispatch_completion(data, len, d)`
(wimod.c:173-188).  `kzalloc n` tells whether `kzalloc(n, GFP_KERNEL)` returns
a buffer; the copy `memcpy(payload, data + 2, len - 2)` is made only then. -/
def wimod_hci_packet_dispatch_completion (kzalloc : Int → Bool) (data : List Nat) (len : Int)
    (disp : wimod_hci_packet_completion) : wimod_hci_packet_completion :=
  if completion_done disp.comp then disp
  else
    let payload_len := len - 2
    let payload :=
      if kzalloc payload_len then some ((data.drop 2).take (len - 2).toNat) else none
    { disp with payload_len := payload_len, payload := payload, comp := complete disp.comp }

/-- The `list_for_each_entry` loop of `wimod_process_packet` (wimod.c:429-434):
the first entry whose key equals `(data[0], data[1])` is invoked with
`len - 2` and the walk stops.  The result is the list after the walk and the
positions of the entries whose `dispatchee` was called (`idx` is the position
of the head of the list argument). -/
def wimod_dispatch_loop (kzalloc : Int → Bool) (data : List Nat) (len : Int) (idx : Nat) :
    List wimod_hci_packet_completion → List wimod_hci_packet_completion × List Nat
  | [] => ([], [])
  | e :: es =>
    if some e.dst_id = data.get? 0 ∧ some e.msg_id = data.get? 1 then
      (wimod_hci_packet_dispatch_completion kzalloc data (len - 2) e :: es, [idx])
    else
      let r := wimod_dispatch_loop kzalloc data len (idx + 1) es
      (e :: r.1, r.2)

/-- The function `wimod_process_packet(sdev, data, len)` (wimod.c:410-435), with
`len = data.length`: the dispatcher list after the call and the positions of
the dispatchers invoked.  The function is `void`. -/
def wimod_process_packet (kzalloc : Int → Bool)
    (packet_dispatchers : List wimod_hci_packet_completion) (data : List Nat) :
    List wimod_hci_packet_completion × List Nat :=
  let len : Int := (data.length : Int)
  if len < 4 then (packet_dispatchers, [])
  else
    let crc := u16_not (crc_ccitt 0xffff data)
    if crc ≠ 0x0f47 then (packet_dispatchers, [])
    else wimod_dispatch_loop kzalloc data len 0 packet_dispatchers

/-- The C struct `wimod_device` (wimod.c:19-26).  `rx_buf` holds the octets
`rx_buf[0 .. rx_len)` of the C array, so `rx_len = rx_buf.length`; the octets of
the array at and after `rx_len` are never read. -/
structure wimod_device where
  rx_buf : List Nat
  rx_esc : Bool
  packet_dispatchers : List wimod_hci_packet_completion
deriving DecidableEq

/-- What a call of `wimod_receive_buf` leaves behind: the device, the C return
value (the number of octets consumed) and the packets handed to
`wimod_process_packet`, in order. -/
structure wimod_receive_result where
  dev : wimod_device
  ret : Nat
  packets : List (List Nat)
deriving DecidableEq

/-- The `while` loop of `wimod_receive_buf` (wimod.c:445-484).  The loop state is
kept as lists: `run = data[0 .. i)` (so `i = run.length`), the list argument
is `data[i .. count)`, and `len` is the C variable `len`.  The loop condition
`i < min(count, sizeof(rx_buf) - rx_len)` fails when the list argument is empty
(`i = count`) or when `run.length < WIMOD_HCI_PACKET_MAX - rx_len` fails.  The
guard keeps `rx_len <= sizeof(rx_buf)`, so the unsigned subtraction of the C
code does not wrap. -/
def wimod_receive_loop (kzalloc : Int → Bool) (w : wimod_device) (len : Nat)
    (packets : List (List Nat)) (run : List Nat) : List Nat → wimod_receive_result
  | [] => ⟨w, len, packets⟩
  | b :: rest =>
    if ¬ (run.length < WIMOD_HCI_PACKET_MAX - w.rx_buf.length) then ⟨w, len, packets⟩
    else if w.rx_esc then
      let rx_buf :=
        if b = SLIP_ESC_END then w.rx_buf ++ [SLIP_END]
        else if b = SLIP_ESC_ESC then w.rx_buf ++ [SLIP_ESC]
        else w.rx_buf
      wimod_receive_loop kzalloc ⟨rx_buf, false, w.packet_dispatchers⟩
        (len + (run.length + 1)) packets [] rest
    else if b ≠ SLIP_END ∧ b ≠ SLIP_ESC then
      wimod_receive_loop kzalloc w len packets (run ++ [b]) rest
    else
      let rx_buf := if run.length > 0 then w.rx_buf ++ run else w.rx_buf
      if b = SLIP_END ∧ rx_buf.length > 0 then
        let r := wimod_process_packet kzalloc w.packet_dispatchers rx_buf
        wimod_receive_loop kzalloc ⟨[], w.rx_esc, r.1⟩
          (len + (run.length + 1)) (packets ++ [rx_buf]) [] rest
      else if b = SLIP_ESC then
        wimod_receive_loop kzalloc ⟨rx_buf, true, w.packet_dispatchers⟩
          (len + (run.length + 1)) packets [] rest
      else
        wimod_receive_loop kzalloc ⟨rx_buf, w.rx_esc, w.packet_dispatchers⟩
          (len + (run.length + 1)) packets [] rest

/-- The function `wimod_receive_buf(sdev, data, count)` (wimod.c:437-489), with
`count = data.length`. -/
def wimod_receive_buf (kzalloc : Int → Bool) (w : wimod_device) (data : List Nat) :
    wimod_receive_result :=
  wimod_receive_loop kzalloc w 0 [] [] data

/-- The escaping rule in the words of the specification: each 0xC0 becomes the
pair 0xDB 0xDC, each 0xDB becomes the pair 0xDB 0xDD, every other octet is
left unchanged. -/
def esc : List Nat → List Nat
  | [] => []
  | b :: bs =>
    if b = 0xC0 then 0xDB :: 0xDC :: esc bs
    else if b = 0xDB then 0xDB :: 0xDD :: esc bs
    else b :: esc bs

/-- The delivery of a byte stream in chunks, in the words of the specification:
each chunk is passed to `wimod_receive_buf` behind the octets that the call
before reported as not consumed.  The state is the device, the octets not yet
consumed and the packets handed to `wimod_process_packet` so far. -/
def wimod_feed_chunks (kzalloc : Int → Bool) :
    wimod_device → List Nat → List (List Nat) → List (List Nat) →
      wimod_device × List Nat × List (List Nat)
  | w, pending, packets, [] => (w, pending, packets)
  | w, pending, packets, chunk :: chunks =>
    let r := wimod_receive_buf kzalloc w (pending ++ chunk)
    wimod_feed_chunks kzalloc r.dev ((pending ++ chunk).drop r.ret) (packets ++ r.packets) chunks

/-- The frame in the words of the specification. -/
def encode (d m : Nat) (p : List Nat) : List Nat :=
  let crc := u16_not (crc_ccitt 0xffff (d :: m :: p))
  [0xC0] ++ esc (d :: m :: p ++ [crc &&& 0xFF, crc >>> 8]) ++ [0xC0]

/-- The body of the `while` loop of `wimod_receive_buf` (wimod.c:446-483) as a
function of the loop state and the octet `data[i]`: the device after the
iteration, the amount added to `len`, the packets handed to
`wimod_process_packet` and the new `data[0 .. i)`.  It repeats the branches of
`wimod_receive_loop` and serves to unfold that loop one iteration at a time. -/
def wimod_receive_step (kzalloc : Int → Bool) (w : wimod_device) (run : List Nat) (b : Nat) :
    wimod_device × Nat × List (List Nat) × List Nat :=
  if w.rx_esc then
    let rx_buf :=
      if b = SLIP_ESC_END then w.rx_buf ++ [SLIP_END]
      else if b = SLIP_ESC_ESC then w.rx_buf ++ [SLIP_ESC]
      else w.rx_buf
    (⟨rx_buf, false, w.packet_dispatchers⟩, run.length + 1, [], [])
  else if b ≠ SLIP_END ∧ b ≠ SLIP_ESC then
    (w, 0, [], run ++ [b])
  else
    let rx_buf := if run.length > 0 then w.rx_buf ++ run else w.rx_buf
    if b = SLIP_END ∧ rx_buf.length > 0 then
      (⟨[], w.rx_esc, (wimod_process_packet kzalloc w.packet_dispatchers rx_buf).1⟩,
        run.length + 1, [rx_buf], [])
    else if b = SLIP_ESC then
      (⟨rx_buf, true, w.packet_dispatchers⟩, run.length + 1, [], [])
    else
      (⟨rx_buf, w.rx_esc, w.packet_dispatchers⟩, run.length + 1, [], [])

end Wimod

/-- Modelled from the spec: the errno constant `ETIMEDOUT` (110 in `errno.h`, a
header outside the drivers), returned negated when no qualifying frame arrives
within the deadline. -/
def ETIMEDOUT : Int := 110

/-- Modelled from the spec: the errno constant `EOPNOTSUPP` (95 in `errno.h`, a
header outside the drivers), returned negated for a status byte that reports a
failure to execute. -/
def EOPNOTSUPP : Int := 95

/-- The kernel helper `strstarts(str, pfx)`, `strncmp(str, pfx, strlen(pfx)) == 0`,
for a literal `pfx` without NUL: the first `strlen(pfx)` octets of `str` are
those of `pfx`.  Every call in the drivers is guarded by a length test that
keeps the octets read inside `rx_buf[0 .. rx_len)`. -/
def strstarts (str pfx : List Nat) : Bool :=
  str.take pfx.length = pfx

/-- The test `strncmp(&rx_buf[rx_len - n], lit, n) == 0` for a literal `lit` of
`n` octets without NUL: the last `n` octets of `rx_buf[0 .. rx_len)` are those
of `lit`. -/
def strends (buf lit : List Nat) : Bool :=
  buf.drop (buf.length - lit.length) = lit

/-- The reading of a `char *` as a C string: the octets up to the first NUL. -/
def cstr (s : List Nat) : List Nat :=
  s.takeWhile (fun c => c ≠ 0)

/-- One event on a serial link, seen from the receive buffer of a text driver:
the transport delivers a chunk, or a command hands the buffer back
(`rx_len = 0; reinit_completion(...)`, mm002.c:43-44, usi.c:61-62). -/
inductive link_event where
  | receive (chunk : List Nat)
  | hand_off
deriving DecidableEq

namespace Wimod

/-- Modelled from the spec: `reinit_completion`, the re-arming of a completion
by its consumer: no signal is pending afterwards. -/
def reinit_completion (_x : completion) : completion := { done := 0 }

/-- Modelled from the spec: `wait_for_completion_timeout`, the wait of a
consumer on its result slot: a pending signal is consumed and the wait
succeeds, otherwise the deadline passes and the slot is left empty.  The
result is the completion after the wait and whether the wait succeeded (the
C function then returns a non-zero number of jiffies). -/
def wait_for_completion_timeout (x : completion) : completion × Bool :=
  if x.done = 0 then (x, false) else ({ done := x.done - 1 }, true)

/-- The C macro `DEVMGMT_ID` (wimod.c:135). -/
def DEVMGMT_ID : Nat := 0x01

/-- The C macro `DEVMGMT_STATUS_OK` (wimod.c:144). -/
def DEVMGMT_STATUS_OK : Nat := 0x00

/-- The function `wimod_hci_devmgmt_status` (wimod.c:289-298). -/
def wimod_hci_devmgmt_status (status : Nat) : Int :=
  if status = DEVMGMT_STATUS_OK then 0 else -EINVAL

/-- The receive path while a request is pending: every packet that
`wimod_receive_buf` completes is passed to `wimod_process_packet`
(wimod.c:475), here for the packets `rx` in order of arrival. -/
def wimod_rx (kzalloc : Int → Bool) (packet_dispatchers : List wimod_hci_packet_completion)
    (rx : List (List Nat)) : List wimod_hci_packet_completion :=
  rx.foldl (fun reg pkt => (wimod_process_packet kzalloc reg pkt).1) packet_dispatchers

/-- What a call of `wimod_hci_devmgmt_send_sync` leaves behind: the C return
value (`none` when the function dereferences a NULL `packet.payload` at
wimod.c:334 and does not return), the dispatcher list, and the values stored
through `rsp_payload` and `rsp_payload_len`, if any. -/
structure wimod_sync_result where
  ret : Option Int
  packet_dispatchers : List wimod_hci_packet_completion
  rsp : Option (List Nat × Int)
deriving DecidableEq

/-- The function `wimod_hci_devmgmt_send_sync` (wimod.c:300-342).  `rsp_payload`
and `rsp_payload_len` tell whether the two pointers are non-NULL.  `rx` lists
the packets that the receive path dispatches between the registration of
`packet.disp` and its removal, i.e. during the transmission and, when it
succeeds, until `wait_for_completion_timeout` returns. -/
def wimod_hci_devmgmt_send_sync (kzalloc : Int → Bool) (rets : Nat → Int)
    (rx : List (List Nat)) (packet_dispatchers : List wimod_hci_packet_completion)
    (req_msg_id : Nat) (req_payload : List Nat) (rsp_msg_id : Nat)
    (rsp_payload rsp_payload_len : Bool) : wimod_sync_result :=
  if rsp_payload = true ∧ rsp_payload_len = false then
    ⟨some (-EINVAL), packet_dispatchers, none⟩
  else
    let packet0 : wimod_hci_packet_completion := ⟨DEVMGMT_ID, rsp_msg_id, ⟨0⟩, none, 0⟩
    let entry := packet_dispatchers.length
    let reg1 := wimod_hci_add_dispatcher packet_dispatchers packet0
    let ret := (wimod_hci_send rets DEVMGMT_ID req_msg_id req_payload).1
    let reg2 := wimod_rx kzalloc reg1 rx
    let packet := reg2.getD entry packet0
    let reg3 := wimod_hci_remove_dispatcher reg2 entry
    if ret ≠ 0 then ⟨some ret, reg3, none⟩
    else if (wait_for_completion_timeout packet.comp).2 = false then
      ⟨some (-ETIMEDOUT), reg3, none⟩
    else if packet.payload_len < 1 then ⟨some (-EINVAL), reg3, none⟩
    else
      match packet.payload with
      | none => ⟨none, reg3, none⟩
      | some payload =>
        let ret := wimod_hci_devmgmt_status (payload.headD 0)
        if ret ≠ 0 ∨ rsp_payload = false then ⟨some ret, reg3, none⟩
        else ⟨some ret, reg3, some (payload, packet.payload_len)⟩

/-- The stores into `rx_buf` made by one iteration of the loop of
`wimod_receive_buf`, each as the pair of its first index and its number of
octets: `rx_buf[rx_len++] = ...` (wimod.c:450, 453) and
`memcpy(&rx_buf[rx_len], data, i)` (wimod.c:471). -/
def wimod_receive_step_writes (w : wimod_device) (run : List Nat) (b : Nat) :
    List (Nat × Nat) :=
  if w.rx_esc then
    if b = SLIP_ESC_END ∨ b = SLIP_ESC_ESC then [(w.rx_buf.length, 1)] else []
  else if b ≠ SLIP_END ∧ b ≠ SLIP_ESC then []
  else if run.length > 0 then [(w.rx_buf.length, run.length)] else []

/-- The stores into `rx_buf` made by a run of the loop of `wimod_receive_buf`,
iteration by iteration, along `wimod_receive_loop`. -/
def wimod_receive_writes (kzalloc : Int → Bool) (w : wimod_device) (run : List Nat) :
    List Nat → List (Nat × Nat)
  | [] => []
  | b :: rest =>
    if ¬ (run.length < WIMOD_HCI_PACKET_MAX - w.rx_buf.length) then []
    else
      wimod_receive_step_writes w run b ++
        wimod_receive_writes kzalloc (wimod_receive_step kzalloc w run b).1
          (wimod_receive_step kzalloc w run b).2.2.2 rest

/-- A sequence of `wimod_receive_buf` calls with arbitrary chunks: the device
after the last call and all the stores into `rx_buf` on the way. -/
def wimod_run (kzalloc : Int → Bool) :
    wimod_device → List (List Nat) → wimod_device × List (Nat × Nat)
  | w, [] => (w, [])
  | w, chunk :: chunks =>
    let r := wimod_run kzalloc (wimod_receive_buf kzalloc w chunk).dev chunks
    (r.1, wimod_receive_writes kzalloc w [] chunk ++ r.2)

end Wimod

namespace Mm002

/-- The literal "\r\n" (carriage return, line feed). -/
def CRLF : List Nat := [13, 10]

/-- The literal "\r\nOK\r\n" of mm002.c:139. -/
def OK_TAIL : List Nat := [13, 10, 79, 75, 13, 10]

/-- The literal "\r\nERROR\r\n" of mm002.c:140. -/
def ERROR_TAIL : List Nat := [13, 10, 69, 82, 82, 79, 82, 13, 10]

/-- The literal "\r\n+DEBUG: START," of mm002.c:134, 16 octets. -/
def RESET_BANNER : List Nat :=
  [13, 10, 43, 68, 69, 66, 85, 71, 58, 32, 83, 84, 65, 82, 84, 44]

/-- The size of `rx_buf` (mm002.c:19), `sizeof(mmdev->rx_buf)`. -/
def RX_BUF_SIZE : Nat := 4096

/-- The C struct `mm002_device` (mm002.c:16-23).  `rx_buf` holds the octets
`rx_buf[0 .. rx_len)` of the C array, so `rx_len = rx_buf.length`. -/
structure mm002_device where
  rx_buf : List Nat
  resp_recv_comp : Wimod.completion
deriving DecidableEq

/-- What a call of `mm002_receive_buf` leaves behind: the device, the C return
value, the arguments of the calls of `mm002_handle_reset` (the octets from
`rx_buf + 16` to the NUL stored at `rx_len - 1`), and the stores into `rx_buf`,
each as the pair of its first index and its number of octets. -/
structure mm002_receive_result where
  dev : mm002_device
  ret : Nat
  resets : List (List Nat)
  writes : List (Nat × Nat)
deriving DecidableEq

/-- The second half of `mm002_receive_buf` (mm002.c:126-151), the tests on the
buffer after the chunk has been appended: `comp` is `resp_recv_comp`, `buf1`
is `rx_buf[0 .. rx_len)` after the append, `len` the C variable `len` and `w1`
the stores made so far.  In order: the leading NUL dropped from a
three-octet buffer, the reset banner, the terminal tokens. -/
def mm002_scan (comp : Wimod.completion) (buf1 : List Nat) (len : Nat)
    (w1 : List (Nat × Nat)) : mm002_receive_result :=
  let nul := buf1.length > 2 ∧ strends buf1 CRLF ∧ buf1.length = 3 ∧ buf1.get? 0 = some 0
  let buf2 := if nul then buf1.drop 1 else buf1
  let w2 := if nul then w1 ++ [(0, buf1.length - 1)] else w1
  let banner := buf2.length > 16 ∧ buf2.get? (buf2.length - 1) = some 10 ∧
    strstarts buf2 RESET_BANNER
  let resets := if banner then [(buf2.drop 16).take (buf2.length - 1 - 16)] else []
  let buf3 := if banner then [] else buf2
  let w3 := if banner then w2 ++ [(buf2.length - 1, 1)] else w2
  if (buf3.length ≥ 6 ∧ strends buf3 OK_TAIL) ∨ (buf3.length ≥ 9 ∧ strends buf3 ERROR_TAIL) then
    let buf4 := buf3.take (buf3.length - 2)
    let crlf := strstarts buf4 CRLF
    let buf5 := if crlf then buf4.drop 2 else buf4
    let w4 := if crlf then w3 ++ [(0, buf4.length - 2)] else w3
    ⟨⟨buf5, Wimod.complete comp⟩, len, resets, w4 ++ [(buf5.length, 1)]⟩
  else ⟨⟨buf3, comp⟩, len, resets, w3⟩

/-- The function `mm002_receive_buf(sdev, data, count)` (mm002.c:99-152), with
`count = data.length`: the two guards, the append of at most
`sizeof(rx_buf) - 1 - rx_len` octets, then `mm002_scan`.  The room is computed
with `rx_len <= sizeof(rx_buf) - 1`, which every call preserves. -/
def mm002_receive_buf (m : mm002_device) (data : List Nat) : mm002_receive_result :=
  if Wimod.completion_done m.resp_recv_comp then ⟨m, 0, [], []⟩
  else if m.rx_buf.length = RX_BUF_SIZE - 1 then ⟨m, 0, [], []⟩
  else
    let i := min data.length (RX_BUF_SIZE - 1 - m.rx_buf.length)
    let buf1 := if i > 0 then m.rx_buf ++ data.take i else m.rx_buf
    let w1 := if i > 0 then [(m.rx_buf.length, i)] else []
    let len := if i > 0 then i else 0
    mm002_scan m.resp_recv_comp buf1 len w1

/-- The hand-off at the end of `mm002_send_command` (mm002.c:43-44):
`rx_len = 0; reinit_completion(&mmdev->resp_recv_comp)`. -/
def mm002_hand_off (m : mm002_device) : mm002_device :=
  ⟨[], Wimod.reinit_completion m.resp_recv_comp⟩

/-- A sequence of deliveries and hand-offs on an MM002 link: the device at the
end and all the stores into `rx_buf` on the way. -/
def mm002_run : mm002_device → List link_event → mm002_device × List (Nat × Nat)
  | m, [] => (m, [])
  | m, link_event.receive chunk :: events =>
    let r := mm002_run (mm002_receive_buf m chunk).dev events
    (r.1, (mm002_receive_buf m chunk).writes ++ r.2)
  | m, link_event.hand_off :: events => mm002_run (mm002_hand_off m) events

end Mm002

namespace Usi

/-- The literal "\r# " of usi.c:170, the prompt marker. -/
def PROMPT : List Nat := [13, 35, 32]

/-- The literal "+RCV" of usi.c:174. -/
def RCV_EVENT : List Nat := [43, 82, 67, 86]

/-- The literal "+TX: " of usi.c:179. -/
def TX_EVENT : List Nat := [43, 84, 88, 58, 32]

/-- The size of `rx_buf` (usi.c:20), `sizeof(usidev->rx_buf)`. -/
def RX_BUF_SIZE : Nat := 4096

/-- The C struct `usi_device` (usi.c:15-25), without the fields `serdev` and
`mode` that reception does not touch.  `rx_buf` holds the octets
`rx_buf[0 .. rx_len)` of the C array, so `rx_len = rx_buf.length`. -/
structure usi_device where
  rx_buf : List Nat
  prompt_recv_comp : Wimod.completion
  tx_event_recv_comp : Wimod.completion
deriving DecidableEq

/-- What a call of `usi_receive_buf` leaves behind: the device, the C return
value, the texts logged as receive events (`rx_buf + 4`) and as transmit
events (`rx_buf + 5`), up to the NUL stored at `rx_len - 2`, and the stores
into `rx_buf`, each as the pair of its first index and its number of octets. -/
structure usi_receive_result where
  dev : usi_device
  ret : Nat
  rcv_events : List (List Nat)
  tx_events : List (List Nat)
  writes : List (Nat × Nat)
deriving DecidableEq

/-- The second half of `usi_receive_buf` (usi.c:170-186), the tests on the
buffer after the chunk has been appended: `buf1` is `rx_buf[0 .. rx_len)`
after the append, `len` the C variable `len` and `w1` the stores made so far.
In order: the prompt marker, a receive event, a transmit event. -/
def usi_scan (prompt_recv_comp tx_event_recv_comp : Wimod.completion) (buf1 : List Nat)
    (len : Nat) (w1 : List (Nat × Nat)) : usi_receive_result :=
  if buf1.length ≥ 3 ∧ strends buf1 PROMPT then
    ⟨⟨buf1.take (buf1.length - 3), Wimod.complete prompt_recv_comp, tx_event_recv_comp⟩,
      len, [], [], w1 ++ [(buf1.length - 3, 1)]⟩
  else if buf1.length > 7 ∧ strstarts buf1 RCV_EVENT ∧ strends buf1 Mm002.CRLF then
    ⟨⟨[], prompt_recv_comp, tx_event_recv_comp⟩,
      len, [(buf1.drop 4).take (buf1.length - 2 - 4)], [], w1 ++ [(buf1.length - 2, 1)]⟩
  else if buf1.length > 6 ∧ strstarts buf1 TX_EVENT ∧ strends buf1 Mm002.CRLF then
    ⟨⟨buf1.set (buf1.length - 2) 0, prompt_recv_comp, Wimod.complete tx_event_recv_comp⟩,
      len, [], [(buf1.drop 5).take (buf1.length - 2 - 5)], w1 ++ [(buf1.length - 2, 1)]⟩
  else ⟨⟨buf1, prompt_recv_comp, tx_event_recv_comp⟩, len, [], [], w1⟩

/-- The function `usi_receive_buf(sdev, data, count)` (usi.c:141-187), with
`count = data.length`: the two guards, the append of at most
`sizeof(rx_buf) - 1 - rx_len` octets, then `usi_scan`.  The room is computed
with `rx_len <= sizeof(rx_buf) - 1`, which every call preserves. -/
def usi_receive_buf (u : usi_device) (data : List Nat) : usi_receive_result :=
  if Wimod.completion_done u.prompt_recv_comp ∨ Wimod.completion_done u.tx_event_recv_comp then
    ⟨u, 0, [], [], []⟩
  else if u.rx_buf.length = RX_BUF_SIZE - 1 then ⟨u, 0, [], [], []⟩
  else
    let i := min data.length (RX_BUF_SIZE - 1 - u.rx_buf.length)
    let buf1 := if i > 0 then u.rx_buf ++ data.take i else u.rx_buf
    let w1 := if i > 0 then [(u.rx_buf.length, i)] else []
    let len := if i > 0 then i else 0
    usi_scan u.prompt_recv_comp u.tx_event_recv_comp buf1 len w1

/-- The hand-off at the end of `usi_send_command` (usi.c:61-62):
`rx_len = 0; reinit_completion(&usidev->prompt_recv_comp)`. -/
def usi_hand_off (u : usi_device) : usi_device :=
  ⟨[], Wimod.reinit_completion u.prompt_recv_comp, u.tx_event_recv_comp⟩

/-- A sequence of deliveries and hand-offs on a USI link: the device at the end
and all the stores into `rx_buf` on the way. -/
def usi_run : usi_device → List link_event → usi_device × List (Nat × Nat)
  | u, [] => (u, [])
  | u, link_event.receive chunk :: events =>
    let r := usi_run (usi_receive_buf u chunk).dev events
    (r.1, (usi_receive_buf u chunk).writes ++ r.2)
  | u, link_event.hand_off :: events => usi_run (usi_hand_off u) events

end Usi

namespace Sx128x

/-- Modelled from the spec: the kernel macro `GENMASK(h, l)` of `linux/bits.h`, a
header outside the drivers: the bits `l .. h` set, here the status-byte field
that carries the command status. -/
def GENMASK (h l : Nat) : Nat := (2 ^ (h + 1) - 1) - (2 ^ l - 1)

/-- The C macro `SX128X_STATUS_COMMAND_MASK` (sx128x.c:31). -/
def SX128X_STATUS_COMMAND_MASK : Nat := GENMASK 4 2

/-- The C macro `SX128X_STATUS_COMMAND_TIMEOUT` (sx128x.c:32). -/
def SX128X_STATUS_COMMAND_TIMEOUT : Nat := 0x3 <<< 2

/-- The C macro `SX128X_STATUS_COMMAND_PROCESSING_ERROR` (sx128x.c:33). -/
def SX128X_STATUS_COMMAND_PROCESSING_ERROR : Nat := 0x4 <<< 2

/-- The C macro `SX128X_STATUS_COMMAND_FAILURE_TO_EXECUTE` (sx128x.c:34). -/
def SX128X_STATUS_COMMAND_FAILURE_TO_EXECUTE : Nat := 0x5 <<< 2

/-- The function `sx128x_status_to_errno(sxdev, status)` (sx128x.c:303-317); the
`switch` is on `status & GENMASK(4, 2)`. -/
def sx128x_status_to_errno (status : Nat) : Int :=
  if status &&& GENMASK 4 2 = SX128X_STATUS_COMMAND_TIMEOUT then -ETIMEDOUT
  else if status &&& GENMASK 4 2 = SX128X_STATUS_COMMAND_PROCESSING_ERROR then -EINVAL
  else if status &&& GENMASK 4 2 = SX128X_STATUS_COMMAND_FAILURE_TO_EXECUTE then -EOPNOTSUPP
  else 0

end Sx128x

namespace Mm002

/-- The delivery of a byte stream in chunks, in the words of the specification:
each chunk is passed to `mm002_receive_buf` behind the octets that the call
before reported as not consumed.  The state is the device and the octets not
yet consumed. -/
def mm002_feed_chunks : mm002_device → List Nat → List (List Nat) → mm002_device × List Nat
  | m, pending, [] => (m, pending)
  | m, pending, chunk :: chunks =>
    let r := mm002_receive_buf m (pending ++ chunk)
    mm002_feed_chunks r.dev ((pending ++ chunk).drop r.ret) chunks

/-- What a call of `mm002_send_command` leaves behind: the device, the C return
value, the string stored through `data` (`none` when nothing is stored or
`kstrdup` gives NULL) and the octets passed to `serdev_device_write_buf`. -/
structure mm002_command_result where
  dev : mm002_device
  ret : Int
  data : Option (List Nat)
  written : List Nat
deriving DecidableEq

/-- The function `mm002_send_command(mmdev, cmd, data, timeout)` (mm002.c:25-47).
`cmd` is a C string, `data` tells whether the pointer `data` is not NULL and
`kstrdup` whether the copy succeeds.  `rx` lists the chunks that
`mm002_receive_buf` is called with between the write of the command and the
end of the wait; the wait succeeds when a signal is pending then.  The string
at `rx_buf` is read up to its first NUL, the one stored at `rx_buf[rx_len]`
when the frame was completed. -/
def mm002_send_command (kstrdup : Bool) (rx : List (List Nat)) (m : mm002_device)
    (cmd : List Nat) (data : Bool) : mm002_command_result :=
  let written := cstr cmd ++ CRLF
  let m1 := rx.foldl (fun d chunk => (mm002_receive_buf d chunk).dev) m
  let timeout := Wimod.wait_for_completion_timeout m1.resp_recv_comp
  if timeout.2 = false then ⟨m1, -ETIMEDOUT, none, written⟩
  else
    let resp := cstr m1.rx_buf
    ⟨⟨[], Wimod.reinit_completion timeout.1⟩, 0,
      if data = true ∧ kstrdup = true then some resp else none, written⟩

end Mm002

namespace Usi

/-- The function `usi_cmd_ok(resp)` (usi.c:27-33).  `resp` is the C string, the
octets before its terminating NUL, so `strlen(resp) = resp.length`. -/
def usi_cmd_ok (resp : List Nat) : Bool :=
  let len := resp.length
  (len = 4 ∧ resp = [79, 75, 13, 10]) ∨ (len ≥ 6 ∧ resp.drop (len - 6) = Mm002.OK_TAIL)

/-- The store `resp[strlen(resp) - 6] = 0` that `usi_cmd_read_reg` (usi.c:115-120)
and `usi_probe` (usi.c:234-235, 247-248) make on a response that `usi_cmd_ok`
accepts: the index of the store, relative to the start of the response
buffer; `none` when the response is rejected and nothing is stored. -/
def usi_cmd_ok_cut (resp : List Nat) : Option Int :=
  if usi_cmd_ok resp then some ((resp.length : Int) - 6) else none

end Usi

namespace Rn2483

/-- The receive state of the C struct `rn2483_device` (declared in `rn2483.h`):
`buf` is `none` for a NULL pointer, else the size of the allocation and the
octets `buf[0 .. buflen)`; `saw_cr` is the flag of the same name. -/
structure rn2483_device where
  buf : Option (Nat × List Nat)
  saw_cr : Bool
deriving DecidableEq

/-- The octets `buf[0 .. buflen)` held for the line being received; none while
`buf` is NULL. -/
def buffered (r : rn2483_device) : List Nat :=
  match r.buf with
  | none => []
  | some (_, buf) => buf

/-- What a call of `rn2483_receive_buf` leaves behind: the device, the C return
value, the lines handed to `rn2483_receive_line` (the `len` octets at `sz`)
and the stores into the line buffer, each as the size of the allocation, the
first index and the number of octets. -/
structure rn2483_receive_result where
  dev : rn2483_device
  ret : Nat
  lines : List (List Nat)
  writes : List (Nat × Int × Nat)
deriving DecidableEq

/-- The `for` loop of `rn2483_receive_buf` (rn2483.c:112-127) and the tail of the
function (rn2483.c:129-131).  `size` is the size of the allocation,
`buf = buf[0 .. buflen)`, `run = data[0 .. i)` and the list argument is
`data[i .. count)`.  At a line end the index `buflen + i - 1` is kept as an
integer: it is negative only when `buflen = 0` and `i = 0`.
`rn2483_receive_line` waits until the line has been read; it is the log of
the line here. -/
def rn2483_receive_loop (size : Nat) (buf : List Nat) (saw_cr : Bool) (run : List Nat) :
    List Nat → rn2483_receive_result
  | [] =>
    ⟨⟨some (size, buf ++ run), saw_cr⟩, run.length, [],
      [(size, (buf.length : Int), run.length)]⟩
  | b :: rest =>
    if b = 13 then rn2483_receive_loop size buf true (run ++ [b]) rest
    else if b = 10 ∧ saw_cr = true then
      let i := run.length
      let buf1 := if i > 1 then buf ++ run.take (i - 1) else buf
      let w1 := if i > 1 then [(size, (buf.length : Int), i - 1)] else []
      let len : Int := (buf.length : Int) + (i : Int) - 1
      ⟨⟨none, false⟩, i + 1, [buf1.take len.toNat], w1 ++ [(size, len, 1)]⟩
    else rn2483_receive_loop size buf false (run ++ [b]) rest

/-- The function `rn2483_receive_buf(serdev, data, count)` (rn2483.c:92-132), with
`count = data.length`.  `kmalloc n` tells whether `devm_kmalloc` of `n` octets
returns a buffer. -/
def rn2483_receive_buf (kmalloc : Nat → Bool) (r : rn2483_device) (data : List Nat) :
    rn2483_receive_result :=
  match r.buf with
  | none =>
    if kmalloc data.length then rn2483_receive_loop data.length [] r.saw_cr [] data
    else ⟨r, 0, [], []⟩
  | some (_, buf) =>
    if kmalloc (buf.length + data.length) then
      rn2483_receive_loop (buf.length + data.length) buf r.saw_cr [] data
    else ⟨r, 0, [], []⟩

/-- Modelled from the spec: the caller of `rn2483_receive_buf` (the serial core,
outside the drivers) offers the octets again that a call reported as not
consumed, until none is left or a call consumes none.  The first argument
bounds the number of calls.  The result is the device, the octets left and
the lines and stores of all the calls. -/
def rn2483_drain (kmalloc : Nat → Bool) :
    Nat → rn2483_device → List Nat →
      rn2483_device × List Nat × List (List Nat) × List (Nat × Int × Nat)
  | 0, r, data => (r, data, [], [])
  | fuel + 1, r, data =>
    if data = [] then (r, [], [], [])
    else
      let res := rn2483_receive_buf kmalloc r data
      if res.ret = 0 then (res.dev, data, res.lines, res.writes)
      else
        let next := rn2483_drain kmalloc fuel res.dev (data.drop res.ret)
        (next.1, next.2.1, res.lines ++ next.2.2.1, res.writes ++ next.2.2.2)

/-- The delivery of a byte stream in chunks: each chunk is offered behind the
octets left from the chunk before, with as many calls as it has octets, and
one more. -/
def rn2483_feed_chunks (kmalloc : Nat → Bool) :
    rn2483_device → List Nat → List (List Nat) →
      rn2483_device × List Nat × List (List Nat) × List (Nat × Int × Nat)
  | r, pending, [] => (r, pending, [], [])
  | r, pending, chunk :: chunks =>
    let d := rn2483_drain kmalloc ((pending ++ chunk).length + 1) r (pending ++ chunk)
    let next := rn2483_feed_chunks kmalloc d.1 d.2.1 chunks
    (next.1, next.2.1, d.2.2.1 ++ next.2.2.1, d.2.2.2 ++ next.2.2.2)

/-- The lines of a byte stream in the words of the specification: the segments
that precede each successive pair "\r\n", without the pair.  `acc` is the
segment read so far; a line feed that follows a carriage return closes it. -/
def crlf_lines (acc : List Nat) : List Nat → List (List Nat)
  | [] => []
  | b :: rest =>
    if b = 10 ∧ acc.getLast? = some 13 then acc.dropLast :: crlf_lines [] rest
    else crlf_lines (acc ++ [b]) rest

end Rn2483

/-! ## Part 2: theorems -/

/-! ### The CRC-16/CCITT model -/

/-- The first two rows of the modelled table are those of `crc_ccitt_table` in
`lib/crc-ccitt.c`, and so is its last entry. -/
theorem crc_ccitt_table_rows :
    (List.range 16).map crc_ccitt_table =
      [0x0000, 0x1189, 0x2312, 0x329b, 0x4624, 0x57ad, 0x6536, 0x74bf,
        0x8c48, 0x9dc1, 0xaf5a, 0xbed3, 0xca6c, 0xdbe5, 0xe97e, 0xf8f7] ∧
    crc_ccitt_table 255 = 0x0f78 := by
  decide

theorem crc_ccitt_table_step_lt (x : Nat) (h : x < 0x10000) :
    crc_ccitt_table_step x < 0x10000 := by
  unfold crc_ccitt_table_step
  have h1 : x >>> 1 < 2 ^ 16 := by
    rw [Nat.shiftRight_eq_div_pow]; omega
  split
  · exact Nat.xor_lt_two_pow h1 (by norm_num)
  · simpa using h1

theorem crc_ccitt_table_lt (i : Nat) (h : i < 0x10000) : crc_ccitt_table i < 0x10000 := by
  unfold crc_ccitt_table
  simp only [Function.iterate_succ, Function.iterate_zero, Function.comp_apply, id_eq]
  repeat apply crc_ccitt_table_step_lt
  exact h

theorem and_ff_lt (x : Nat) : x &&& 0xff < 0x100 := by
  have := Nat.and_pow_two_sub_one_eq_mod x 8
  norm_num at this
  omega

theorem crc_ccitt_byte_lt (crc c : Nat) (h : crc < 0x10000) :
    crc_ccitt_byte crc c < 0x10000 := by
  unfold crc_ccitt_byte
  have h1 : crc >>> 8 < 2 ^ 16 := by
    rw [Nat.shiftRight_eq_div_pow]; omega
  have h2 : crc_ccitt_table ((crc ^^^ c) &&& 0xff) < 2 ^ 16 :=
    crc_ccitt_table_lt _ (by have := and_ff_lt (crc ^^^ c); omega)
  exact Nat.xor_lt_two_pow h1 h2

theorem crc_ccitt_lt (buffer : List Nat) :
    ∀ crc, crc < 0x10000 → crc_ccitt crc buffer < 0x10000 := by
  induction buffer with
  | nil => intro crc h; simpa [crc_ccitt] using h
  | cons b bs ih =>
    intro crc h
    have := ih (crc_ccitt_byte crc b) (crc_ccitt_byte_lt crc b h)
    simpa [crc_ccitt] using this

theorem crc_ccitt_append (crc : Nat) (xs ys : List Nat) :
    crc_ccitt crc (xs ++ ys) = crc_ccitt (crc_ccitt crc xs) ys := by
  simp [crc_ccitt, List.foldl_append]

theorem crc_ccitt_cons (crc b : Nat) (xs : List Nat) :
    crc_ccitt crc (b :: xs) = crc_ccitt (crc_ccitt_byte crc b) xs := by
  simp [crc_ccitt]

theorem testBit_u16_not (s i : Nat) (h : s < 0x10000) :
    (u16_not s).testBit i = (decide (i < 16) && !s.testBit i) := by
  have hs : s % 0x10000 = s := Nat.mod_eq_of_lt h
  have : u16_not s = 2 ^ 16 - (s + 1) := by unfold u16_not; rw [hs]; omega
  rw [this]
  exact Nat.testBit_two_pow_sub_succ (by simpa using h) i

theorem crc_idx_lo (s : Nat) (h : s < 0x10000) :
    (s ^^^ (u16_not s &&& 0xff)) &&& 0xff = 0xff := by
  apply Nat.eq_of_testBit_eq
  intro i
  have h255 : (0xff : Nat) = 2 ^ 8 - 1 := by norm_num
  rw [h255]
  simp only [Nat.testBit_and, Nat.testBit_xor, testBit_u16_not s i h,
    Nat.testBit_two_pow_sub_one]
  by_cases hi : i < 8
  · have : i < 16 := by omega
    cases s.testBit i <;> simp [hi, this]
  · simp [hi]

theorem crc_step_lo (s : Nat) (h : s < 0x10000) :
    crc_ccitt_byte s (u16_not s &&& 0xff) = (s >>> 8) ^^^ 0x0f78 := by
  unfold crc_ccitt_byte
  rw [crc_idx_lo s h]
  have : crc_ccitt_table 0xff = 0x0f78 := by decide
  rw [this]

theorem bit_0f78 (i : Nat) (hi : i < 8) :
    (0x0f78 : Nat).testBit i = !(0x87 : Nat).testBit i := by
  interval_cases i <;> decide

theorem crc_idx_hi (s : Nat) (h : s < 0x10000) :
    (((s >>> 8) ^^^ 0x0f78) ^^^ (u16_not s >>> 8)) &&& 0xff = 0x87 := by
  apply Nat.eq_of_testBit_eq
  intro i
  have h255 : (0xff : Nat) = 2 ^ 8 - 1 := by norm_num
  rw [h255]
  simp only [Nat.testBit_and, Nat.testBit_xor, Nat.testBit_shiftRight, testBit_u16_not s _ h,
    Nat.testBit_two_pow_sub_one]
  by_cases hi : i < 8
  · have : 8 + i < 16 := by omega
    rw [bit_0f78 i hi]
    cases s.testBit (8 + i) <;> cases (0x87 : Nat).testBit i <;> simp [hi, this]
  · have h87 : (0x87 : Nat).testBit i = false :=
      Nat.testBit_lt_two_pow (lt_of_lt_of_le (by norm_num : 0x87 < 2 ^ 8)
        (Nat.pow_le_pow_right (by norm_num) (by omega)))
    simp [hi, h87]

theorem crc_hi_shift (s : Nat) (h : s < 0x10000) :
    ((s >>> 8) ^^^ 0x0f78) >>> 8 = 0x0f := by
  apply Nat.eq_of_testBit_eq
  intro i
  simp only [Nat.testBit_shiftRight, Nat.testBit_xor]
  have hs : s.testBit (8 + (8 + i)) = false :=
    Nat.testBit_lt_two_pow (lt_of_lt_of_le (show s < 2 ^ 16 by simpa using h)
        (Nat.pow_le_pow_right (by norm_num) (by omega)))
  rw [hs]
  have : (0x0f78 : Nat).testBit (8 + i) = ((0x0f78 : Nat) >>> 8).testBit i := by
    rw [Nat.testBit_shiftRight]
  rw [this]
  simp

/-- Feeding a CRC state its own complement, low octet first, always leaves the
state 0xF0B8. -/
theorem crc_ccitt_residual_step (s : Nat) (h : s < 0x10000) :
    crc_ccitt_byte (crc_ccitt_byte s (u16_not s &&& 0xff)) (u16_not s >>> 8) = 0xf0b8 := by
  rw [crc_step_lo s h]
  unfold crc_ccitt_byte
  rw [crc_idx_hi s h, crc_hi_shift s h]
  decide

/-- The residual of a buffer followed by its complemented checksum, for any
initial value below 2^16. -/
theorem crc_ccitt_residual (init : Nat) (h : init < 0x10000) (xs : List Nat) :
    u16_not (crc_ccitt init
      (xs ++ [u16_not (crc_ccitt init xs) &&& 0xff, u16_not (crc_ccitt init xs) >>> 8]))
      = 0x0f47 := by
  rw [crc_ccitt_append, crc_ccitt_cons, crc_ccitt_cons]
  rw [crc_ccitt_residual_step _ (crc_ccitt_lt xs init h)]
  decide

namespace Wimod

/-! ### SLIP escaping: `slip_write_data` -/

theorem esc_cons_end (bs : List Nat) : esc (0xC0 :: bs) = 0xDB :: 0xDC :: esc bs := by
  simp [esc]

theorem esc_cons_esc (bs : List Nat) : esc (0xDB :: bs) = 0xDB :: 0xDD :: esc bs := by
  simp [esc]

theorem esc_cons_plain (b : Nat) (bs : List Nat) (h1 : b ≠ 0xC0) (h2 : b ≠ 0xDB) :
    esc (b :: bs) = b :: esc bs := by
  simp [esc, h1, h2]

theorem esc_append (xs ys : List Nat) : esc (xs ++ ys) = esc xs ++ esc ys := by
  induction xs with
  | nil => rfl
  | cons b bs ih =>
    by_cases h1 : b = 0xC0
    · subst h1
      simp [esc_cons_end, ih]
    · by_cases h2 : b = 0xDB
      · subst h2
        simp [esc_cons_esc, ih]
      · simp [esc_cons_plain b _ h1 h2, ih]

theorem esc_length (xs : List Nat) :
    (esc xs).length = xs.length + xs.countP (fun b => b = 0xC0 ∨ b = 0xDB) := by
  induction xs with
  | nil => rfl
  | cons b bs ih =>
    by_cases h1 : b = 0xC0
    · subst h1
      simp [esc, ih, List.countP_cons]
      omega
    · by_cases h2 : b = 0xDB
      · subst h2
        simp [esc, ih, List.countP_cons]
        omega
      · simp [esc, ih, List.countP_cons, h1, h2]
        omega

theorem esc_length_le (xs : List Nat) : (esc xs).length ≤ 2 * xs.length := by
  rw [esc_length]
  have := List.countP_le_length (fun b => decide (b = 0xC0 ∨ b = 0xDB)) (l := xs)
  omega

theorem length_le_esc_length (xs : List Nat) : xs.length ≤ (esc xs).length := by
  rw [esc_length]
  omega

/-- The loop of `slip_write_data` with enough room appends the escaped form. -/
theorem slip_write_loop_ok (buf_len : Int) (data : List Nat) :
    ∀ out run : List Nat, (∀ b ∈ run, b ≠ 0xC0 ∧ b ≠ 0xDB) →
      ((out.length + run.length + (esc data).length : Nat) : Int) ≤ buf_len →
      slip_write_loop buf_len out run data =
        (((out.length + run.length + (esc data).length : Nat) : Int), out ++ run ++ esc data) := by
  induction data with
  | nil =>
    intro out run _ hroom
    simp only [esc, List.length_nil, Nat.add_zero] at hroom ⊢
    simp only [slip_write_loop]
    rw [if_neg (by push_cast at hroom; omega)]
    simp
  | cons b bs ih =>
    intro out run hrun hroom
    by_cases h1 : b = 0xC0
    · subst h1
      have hroom2 : ((out.length + run.length + (2 + (esc bs).length) : Nat) : Int) ≤ buf_len := by
        rw [esc_cons_end] at hroom
        simp only [List.length_cons] at hroom
        push_cast at hroom ⊢
        omega
      simp only [slip_write_loop, SLIP_END, SLIP_ESC, SLIP_ESC_END, SLIP_ESC_ESC]
      rw [if_neg (by decide)]
      rw [if_neg (by push_cast at hroom2; omega)]
      simp only [if_true]
      rw [ih _ [] (by simp) (by simp; push_cast at hroom2; omega)]
      simp [esc]
      omega
    · by_cases h2 : b = 0xDB
      · subst h2
        have hroom2 : ((out.length + run.length + (2 + (esc bs).length) : Nat) : Int) ≤ buf_len := by
          rw [esc_cons_esc] at hroom
          simp only [List.length_cons] at hroom
          push_cast at hroom ⊢
          omega
        simp only [slip_write_loop, SLIP_END, SLIP_ESC, SLIP_ESC_END, SLIP_ESC_ESC]
        rw [if_neg (by decide)]
        rw [if_neg (by push_cast at hroom2; omega)]
        rw [if_neg (by decide)]
        simp only [if_true]
        rw [ih _ [] (by simp) (by simp; push_cast at hroom2; omega)]
        simp [esc]
        omega
      · have hroom2 : ((out.length + run.length + (1 + (esc bs).length) : Nat) : Int) ≤ buf_len := by
          rw [esc_cons_plain b bs h1 h2] at hroom
          simp only [List.length_cons] at hroom
          push_cast at hroom ⊢
          omega
        simp only [slip_write_loop, SLIP_END, SLIP_ESC]
        rw [if_pos ⟨h1, h2⟩]
        rw [ih out (run ++ [b]) (by
          intro c hc
          rcases List.mem_append.mp hc with hc | hc
          · exact hrun c hc
          · simp at hc; subst hc; exact ⟨h1, h2⟩) (by simp; push_cast at hroom2; omega)]
        simp [esc, h1, h2]
        omega

/-- The loop of `slip_write_data` without enough room returns `-ENOMEM`. -/
theorem slip_write_loop_nomem (buf_len : Int) (data : List Nat) :
    ∀ out run : List Nat,
      buf_len < ((out.length + run.length + (esc data).length : Nat) : Int) →
      (slip_write_loop buf_len out run data).1 = -ENOMEM := by
  induction data with
  | nil =>
    intro out run hroom
    simp only [esc, List.length_nil, Nat.add_zero] at hroom
    simp only [slip_write_loop]
    rw [if_pos (by push_cast at hroom; omega)]
  | cons b bs ih =>
    intro out run hroom
    by_cases hb : b = 0xC0 ∨ b = 0xDB
    · have hlen : (esc (b :: bs)).length = 2 + (esc bs).length := by
        rcases hb with hb | hb <;> subst hb <;> simp [esc] <;> omega
      rw [hlen] at hroom
      simp only [slip_write_loop, SLIP_END, SLIP_ESC, SLIP_ESC_END, SLIP_ESC_ESC]
      rw [if_neg (by omega)]
      by_cases hfit : (out.length : Int) + (run.length : Int) + 2 > buf_len
      · rw [if_pos hfit]
      · rw [if_neg hfit]
        apply ih
        rcases hb with hb | hb <;> subst hb <;> simp <;> push_cast at hroom <;> omega
    · have h1 : b ≠ 0xC0 := fun h => hb (Or.inl h)
      have h2 : b ≠ 0xDB := fun h => hb (Or.inr h)
      have hlen : (esc (b :: bs)).length = 1 + (esc bs).length := by
        simp [esc, h1, h2]; omega
      rw [hlen] at hroom
      simp only [slip_write_loop, SLIP_END, SLIP_ESC]
      rw [if_pos ⟨h1, h2⟩]
      apply ih
      simp; push_cast at hroom; omega

theorem slip_write_data_ok (buf_len : Int) (data : List Nat)
    (hroom : ((esc data).length : Int) ≤ buf_len) :
    slip_write_data buf_len data = (((esc data).length : Int), esc data) := by
  unfold slip_write_data
  rw [slip_write_loop_ok buf_len data [] [] (by simp) (by simpa using hroom)]
  simp

theorem slip_write_data_nomem (buf_len : Int) (data : List Nat)
    (hroom : buf_len < ((esc data).length : Int)) :
    (slip_write_data buf_len data).1 = -ENOMEM := by
  unfold slip_write_data
  exact slip_write_loop_nomem buf_len data [] [] (by simpa using hroom)


/-! ### The encoder: `wimod_hci_send` -/

theorem wimod_hci_send_buf_eq (d m : Nat) (p : List Nat) (hp : p.length ≤ 300) :
    wimod_hci_send_buf d m p = .ok (encode d m p) := by
  have hmax : WIMOD_HCI_PACKET_MAX = 610 := by decide
  have hcrc : (if p.length > 0 then crc_ccitt (crc_ccitt_byte (crc_ccitt_byte 0xffff d) m) p
      else crc_ccitt_byte (crc_ccitt_byte 0xffff d) m) = crc_ccitt 0xffff (d :: m :: p) := by
    cases p <;> simp [crc_ccitt]
  have hd := esc_length_le [d]
  have hm := esc_length_le [m]
  have hpl := esc_length_le p
  have hc := esc_length_le [u16_not (crc_ccitt 0xffff (d :: m :: p)) &&& 0xff,
    u16_not (crc_ccitt 0xffff (d :: m :: p)) >>> 8]
  simp only [List.length_cons, List.length_nil] at hd hm hc
  have hnn : ∀ xs : List Nat, ¬ (((esc xs).length : Int) < 0) := fun xs => by omega
  unfold wimod_hci_send_buf
  simp only [hcrc, hmax]
  rw [slip_write_data_ok _ [d] (by simp only [List.length_cons, List.length_nil]; omega)]
  simp only [hnn, if_false]
  rw [slip_write_data_ok _ [m] (by
    simp only [List.length_cons, List.length_nil, List.length_append]; omega)]
  simp only [hnn, if_false]
  have hr3 : ∀ room : Int, 604 ≤ room →
      (if p.length > 0 then slip_write_data room p else ((0 : Int), ([] : List Nat)))
        = (((esc p).length : Int), esc p) := by
    intro room hroom
    by_cases h0 : p.length > 0
    · rw [if_pos h0, slip_write_data_ok _ p (by omega)]
    · have : p = [] := List.length_eq_zero.mp (by omega)
      subst this
      simp [esc]
  rw [hr3 _ (by simp only [List.length_cons, List.length_nil, List.length_append]; omega)]
  simp only [hnn, if_false]
  rw [slip_write_data_ok _ _ (by
    simp only [List.length_cons, List.length_nil, List.length_append]; omega)]
  simp only [hnn, if_false]
  have hsplit : ∀ tl : List Nat,
      esc (d :: m :: p ++ tl) = esc [d] ++ (esc [m] ++ (esc p ++ esc tl)) := by
    intro tl
    have : d :: m :: p ++ tl = [d] ++ ([m] ++ (p ++ tl)) := by simp
    rw [this, esc_append, esc_append, esc_append]
  simp only [encode, hsplit, SLIP_END]
  simp

theorem wimod_hci_send_wakeup_ok (rets : Nat → Int) :
    ∀ (n i : Nat) (log : List (List Nat)), (∀ k, i ≤ k → k < i + n → rets k = 0) →
      wimod_hci_send_wakeup rets i n log = (none, log ++ List.replicate n [SLIP_END]) := by
  intro n
  induction n with
  | zero => intro i log _; simp [wimod_hci_send_wakeup]
  | succ n ih =>
    intro i log h
    simp only [wimod_hci_send_wakeup]
    rw [if_neg (by simp [h i (le_refl i) (by omega)])]
    rw [ih (i + 1) _ (fun k hk1 hk2 => h k (by omega) (by omega))]
    simp [List.replicate_succ]

theorem wimod_hci_send_wakeup_fail (rets : Nat → Int) :
    ∀ (n i : Nat) (log : List (List Nat)) (ret : Int) (log2 : List (List Nat)),
      wimod_hci_send_wakeup rets i n log = (some ret, log2) →
      ∃ k, k < n ∧ ret = rets (i + k) ∧ log2 = log ++ List.replicate (k + 1) [SLIP_END] := by
  intro n
  induction n with
  | zero => intro i log ret log2 h; simp [wimod_hci_send_wakeup] at h
  | succ n ih =>
    intro i log ret log2 h
    simp only [wimod_hci_send_wakeup] at h
    by_cases hr : rets i ≠ 0
    · rw [if_pos hr] at h
      simp only [Prod.mk.injEq, Option.some.injEq] at h
      refine ⟨0, by omega, by simp [h.1], ?_⟩
      simp [← h.2]
    · rw [if_neg hr] at h
      obtain ⟨k, hk1, hk2, hk3⟩ := ih _ _ _ _ h
      refine ⟨k + 1, by omega, ?_, ?_⟩
      · rw [hk2]; congr 1; omega
      · rw [hk3]
        simp [List.replicate_succ]

theorem wimod_hci_send_wakeup_none (rets : Nat → Int) :
    ∀ (n i : Nat) (log log2 : List (List Nat)),
      wimod_hci_send_wakeup rets i n log = (none, log2) →
      log2 = log ++ List.replicate n [SLIP_END] := by
  intro n
  induction n with
  | zero => intro i log log2 h; simp [wimod_hci_send_wakeup] at h; simp [h]
  | succ n ih =>
    intro i log log2 h
    simp only [wimod_hci_send_wakeup] at h
    by_cases hr : rets i ≠ 0
    · rw [if_pos hr] at h
      simp at h
    · rw [if_neg hr] at h
      rw [ih _ _ _ h]
      simp [List.replicate_succ]


/-- Every buffer that `wimod_hci_send` passes to the transport: the wake-up
delimiters at positions 0 .. 29 and the frame at position 30. -/
theorem wimod_hci_send_log (rets : Nat → Int) (d m : Nat) (p : List Nat)
    (hp : p.length ≤ 300) (k : Nat) (buf : List Nat)
    (h : (wimod_hci_send rets d m p).2.get? k = some buf) :
    (k < 30 ∧ buf = [0xC0]) ∨ (k = 30 ∧ buf = encode d m p) := by
  unfold wimod_hci_send at h
  rw [if_neg (by simp only [WIMOD_HCI_PAYLOAD_MAX]; omega)] at h
  rw [wimod_hci_send_buf_eq d m p hp] at h
  rcases hw : wimod_hci_send_wakeup rets 0 30 [] with ⟨o, log⟩
  rw [hw] at h
  cases o with
  | some ret =>
    obtain ⟨j, hj1, _, hj3⟩ := wimod_hci_send_wakeup_fail rets 30 0 [] ret log hw
    simp only at h
    rw [hj3] at h
    simp only [List.nil_append, List.get?_eq_getElem?] at h
    rw [List.getElem?_replicate] at h
    split at h
    · left
      simp only [Option.some.injEq] at h
      exact ⟨by omega, by rw [← h]; rfl⟩
    · cases h
  | none =>
    have hlog := wimod_hci_send_wakeup_none rets 30 0 [] log hw
    simp only at h
    rw [hlog] at h
    simp only [List.nil_append, List.get?_eq_getElem?] at h
    by_cases hk : k < 30
    · left
      rw [List.getElem?_append_left (by simpa using hk), List.getElem?_replicate] at h
      rw [if_pos hk] at h
      simp only [Option.some.injEq] at h
      exact ⟨hk, by rw [← h]; rfl⟩
    · right
      rw [List.getElem?_append_right (by simpa using hk)] at h
      simp only [List.length_replicate] at h
      by_cases hk2 : k = 30
      · subst hk2
        simp only [Nat.sub_self, List.getElem?_cons_zero, Option.some.injEq] at h
        exact ⟨rfl, h.symm⟩
      · have : k - 30 = (k - 31) + 1 := by omega
        rw [this] at h
        simp at h

/-- The result of `wimod_hci_send` when every wake-up write succeeds. -/
theorem wimod_hci_send_ok (rets : Nat → Int) (d m : Nat) (p : List Nat)
    (hp : p.length ≤ 300) (hw : ∀ k < 30, rets k = 0) :
    wimod_hci_send rets d m p = (rets 30, List.replicate 30 [0xC0] ++ [encode d m p]) := by
  unfold wimod_hci_send
  rw [if_neg (by simp only [WIMOD_HCI_PAYLOAD_MAX]; omega)]
  rw [wimod_hci_send_buf_eq d m p hp]
  rw [wimod_hci_send_wakeup_ok rets 30 0 [] (fun k _ hk => hw k (by omega))]
  simp [SLIP_END]


/-! ### The reassembler: `wimod_receive_buf` -/

theorem run_append_eq (buf run : List Nat) :
    (if run.length > 0 then buf ++ run else buf) = buf ++ run := by
  cases run <;> simp

/-- One step of the loop on an octet that is neither `SLIP_END` nor `SLIP_ESC`. -/
theorem wimod_receive_loop_plain (kz : Int → Bool) (buf : List Nat)
    (reg : List wimod_hci_packet_completion) (len : Nat) (pk : List (List Nat))
    (run : List Nat) (b : Nat) (rest : List Nat)
    (hroom : buf.length + run.length < 610) (h1 : b ≠ 0xC0) (h2 : b ≠ 0xDB) :
    wimod_receive_loop kz ⟨buf, false, reg⟩ len pk run (b :: rest) =
      wimod_receive_loop kz ⟨buf, false, reg⟩ len pk (run ++ [b]) rest := by
  have hmax : WIMOD_HCI_PACKET_MAX = 610 := by decide
  rw [wimod_receive_loop]
  simp only [hmax, SLIP_END, SLIP_ESC]
  rw [if_neg (by omega)]
  simp [h1, h2]

/-- One step of the loop on `SLIP_END` with something accumulated. -/
theorem wimod_receive_loop_end (kz : Int → Bool) (buf : List Nat)
    (reg : List wimod_hci_packet_completion) (len : Nat) (pk : List (List Nat))
    (run : List Nat) (rest : List Nat)
    (hroom : buf.length + run.length < 610) (hne : buf ++ run ≠ []) :
    wimod_receive_loop kz ⟨buf, false, reg⟩ len pk run (0xC0 :: rest) =
      wimod_receive_loop kz ⟨[], false, (wimod_process_packet kz reg (buf ++ run)).1⟩
        (len + (run.length + 1)) (pk ++ [buf ++ run]) [] rest := by
  have hmax : WIMOD_HCI_PACKET_MAX = 610 := by decide
  rw [wimod_receive_loop]
  simp only [hmax, SLIP_END, SLIP_ESC, run_append_eq]
  rw [if_neg (by omega)]
  have hpos : (buf ++ run).length > 0 := List.length_pos.mpr hne
  rw [if_neg (by decide)]
  rw [if_neg (by decide)]
  rw [if_pos ⟨trivial, hpos⟩]

/-- One step of the loop on `SLIP_END` with nothing accumulated. -/
theorem wimod_receive_loop_end_empty (kz : Int → Bool)
    (reg : List wimod_hci_packet_completion) (len : Nat) (pk : List (List Nat))
    (rest : List Nat) :
    wimod_receive_loop kz ⟨[], false, reg⟩ len pk [] (0xC0 :: rest) =
      wimod_receive_loop kz ⟨[], false, reg⟩ (len + 1) pk [] rest := by
  have hmax : WIMOD_HCI_PACKET_MAX = 610 := by decide
  rw [wimod_receive_loop]
  simp [hmax, SLIP_END, SLIP_ESC]

/-- Two steps of the loop on an escape pair. -/
theorem wimod_receive_loop_pair (kz : Int → Bool) (buf : List Nat)
    (reg : List wimod_hci_packet_completion) (len : Nat) (pk : List (List Nat))
    (run : List Nat) (c : Nat) (rest : List Nat)
    (hroom : buf.length + run.length < 610) :
    wimod_receive_loop kz ⟨buf, false, reg⟩ len pk run (0xDB :: c :: rest) =
      wimod_receive_loop kz
        ⟨(if c = 0xDC then buf ++ run ++ [0xC0] else if c = 0xDD then buf ++ run ++ [0xDB]
          else buf ++ run), false, reg⟩
        (len + (run.length + 1) + 1) pk [] rest := by
  have hmax : WIMOD_HCI_PACKET_MAX = 610 := by decide
  rw [wimod_receive_loop]
  simp only [hmax, SLIP_END, SLIP_ESC, run_append_eq]
  rw [if_neg (by omega)]
  simp only [Bool.false_eq_true, if_false]
  rw [if_neg (by decide)]
  rw [if_neg (by simp)]
  simp only [if_true]
  rw [wimod_receive_loop]
  simp only [hmax, SLIP_END, SLIP_ESC, SLIP_ESC_END, SLIP_ESC_ESC]
  rw [if_neg (by simp only [List.length_append, List.length_nil]; omega)]
  simp

/-- Decoding lemma: the loop, on the escaped form of `xs` followed by a
delimiter, hands the accumulated octets followed by `xs` to
`wimod_process_packet` and goes on with an empty buffer. -/
theorem wimod_receive_loop_esc (kz : Int → Bool) (xs : List Nat) :
    ∀ (buf : List Nat) (reg : List wimod_hci_packet_completion) (len : Nat)
      (pk : List (List Nat)) (run tail : List Nat),
      buf.length + run.length + xs.length < 610 →
      buf ++ run ++ xs ≠ [] →
      wimod_receive_loop kz ⟨buf, false, reg⟩ len pk run (esc xs ++ 0xC0 :: tail) =
        wimod_receive_loop kz
          ⟨[], false, (wimod_process_packet kz reg (buf ++ run ++ xs)).1⟩
          (len + (run.length + (esc xs).length + 1)) (pk ++ [buf ++ run ++ xs]) [] tail := by
  induction xs with
  | nil =>
    intro buf reg len pk run tail hroom hne
    simp only [List.append_nil, List.length_nil, Nat.add_zero] at hroom hne
    simp only [esc, List.nil_append, List.append_nil, List.length_nil, Nat.add_zero]
    exact wimod_receive_loop_end kz buf reg len pk run tail hroom hne
  | cons b bs ih =>
    intro buf reg len pk run tail hroom hne
    simp only [List.length_cons] at hroom
    by_cases h1 : b = 0xC0
    · subst h1
      rw [esc_cons_end]
      simp only [List.cons_append]
      rw [wimod_receive_loop_pair kz buf reg len pk run _ _ (by omega)]
      simp only [if_true]
      rw [ih (buf ++ run ++ [0xC0]) reg _ pk [] tail
        (by simp only [List.length_append, List.length_cons, List.length_nil]; omega) (by simp)]
      simp only [List.append_nil, List.length_nil, List.length_cons, List.append_assoc,
        List.singleton_append]
      congr 1
      omega
    · by_cases h2 : b = 0xDB
      · subst h2
        rw [esc_cons_esc]
        simp only [List.cons_append]
        rw [wimod_receive_loop_pair kz buf reg len pk run _ _ (by omega)]
        rw [if_neg (by decide)]
        simp only [if_true]
        rw [ih (buf ++ run ++ [0xDB]) reg _ pk [] tail
          (by simp only [List.length_append, List.length_cons, List.length_nil]; omega)
          (by simp)]
        simp only [List.append_nil, List.length_nil, List.length_cons, List.append_assoc,
          List.singleton_append]
        congr 1
        omega
      · rw [esc_cons_plain b bs h1 h2]
        simp only [List.cons_append]
        rw [wimod_receive_loop_plain kz buf reg len pk run b _ (by omega) h1 h2]
        rw [ih buf reg len pk (run ++ [b]) tail
          (by simp only [List.length_append, List.length_cons, List.length_nil]; omega)
          (by simp)]
        simp only [List.length_append, List.length_cons, List.length_nil, List.append_assoc,
          List.singleton_append]
        congr 1
        omega

/-- The decoder on a whole frame `0xC0, esc body, 0xC0`, from an empty buffer. -/
theorem wimod_receive_buf_frame (kz : Int → Bool) (reg : List wimod_hci_packet_completion)
    (body : List Nat) (hne : body ≠ []) (hlen : body.length < 610) :
    wimod_receive_buf kz ⟨[], false, reg⟩ ([0xC0] ++ esc body ++ [0xC0]) =
      ⟨⟨[], false, (wimod_process_packet kz reg body).1⟩,
        ([0xC0] ++ esc body ++ [0xC0]).length, [body]⟩ := by
  unfold wimod_receive_buf
  simp only [List.singleton_append, List.cons_append, List.nil_append]
  rw [wimod_receive_loop_end_empty]
  rw [wimod_receive_loop_esc kz body [] reg _ [] [] [] (by simpa using hlen) (by simpa using hne)]
  simp [wimod_receive_loop]
  omega


/-! ### Dispatch: `wimod_process_packet` -/

theorem wimod_dispatch_loop_none (kz : Int → Bool) (data : List Nat) (len : Int) :
    ∀ (reg : List wimod_hci_packet_completion) (idx : Nat),
      (∀ e ∈ reg, ¬ (some e.dst_id = data.get? 0 ∧ some e.msg_id = data.get? 1)) →
      wimod_dispatch_loop kz data len idx reg = (reg, []) := by
  intro reg
  induction reg with
  | nil => intro idx _; rfl
  | cons e es ih =>
    intro idx h
    rw [wimod_dispatch_loop]
    rw [if_neg (h e (List.mem_cons_self e es))]
    simp only
    rw [ih (idx + 1) (fun x hx => h x (List.mem_cons_of_mem e hx))]

theorem wimod_dispatch_loop_first (kz : Int → Bool) (data : List Nat) (len : Int) :
    ∀ (pre : List wimod_hci_packet_completion) (e : wimod_hci_packet_completion)
      (post : List wimod_hci_packet_completion) (idx : Nat),
      (∀ x ∈ pre, ¬ (some x.dst_id = data.get? 0 ∧ some x.msg_id = data.get? 1)) →
      (some e.dst_id = data.get? 0 ∧ some e.msg_id = data.get? 1) →
      wimod_dispatch_loop kz data len idx (pre ++ e :: post) =
        (pre ++ wimod_hci_packet_dispatch_completion kz data (len - 2) e :: post,
          [idx + pre.length]) := by
  intro pre
  induction pre with
  | nil =>
    intro e post idx _ he
    simp only [List.nil_append, List.length_nil, Nat.add_zero]
    rw [wimod_dispatch_loop, if_pos he]
  | cons x xs ih =>
    intro e post idx h he
    simp only [List.cons_append]
    rw [wimod_dispatch_loop]
    rw [if_neg (h x (List.mem_cons_self x xs))]
    simp only
    rw [ih e post (idx + 1) (fun y hy => h y (List.mem_cons_of_mem x hy)) he]
    simp only [List.length_cons]
    congr 2
    omega

theorem wimod_dispatch_loop_idx_ge (kz : Int → Bool) (data : List Nat) (len : Int) :
    ∀ (reg : List wimod_hci_packet_completion) (idx k : Nat),
      k ∈ (wimod_dispatch_loop kz data len idx reg).2 → idx ≤ k := by
  intro reg
  induction reg with
  | nil => intro idx k h; simp [wimod_dispatch_loop] at h
  | cons e es ih =>
    intro idx k h
    rw [wimod_dispatch_loop] at h
    split at h
    · simp only [List.mem_singleton] at h
      omega
    · have := ih (idx + 1) k h
      omega

theorem wimod_dispatch_loop_other (kz : Int → Bool) (data : List Nat) (len : Int) :
    ∀ (reg : List wimod_hci_packet_completion) (idx i : Nat) (x : wimod_hci_packet_completion),
      reg.get? i = some x →
      ¬ (some x.dst_id = data.get? 0 ∧ some x.msg_id = data.get? 1) →
      (wimod_dispatch_loop kz data len idx reg).1.get? i = some x ∧
        idx + i ∉ (wimod_dispatch_loop kz data len idx reg).2 := by
  intro reg
  induction reg with
  | nil => intro idx i x h; simp at h
  | cons e es ih =>
    intro idx i x hi hx
    rw [wimod_dispatch_loop]
    by_cases he : some e.dst_id = data.get? 0 ∧ some e.msg_id = data.get? 1
    · rw [if_pos he]
      cases i with
      | zero =>
        simp only [List.get?_cons_zero, Option.some.injEq] at hi
        subst hi
        exact absurd he hx
      | succ j =>
        simp only [List.get?_cons_succ] at hi
        refine ⟨by simpa using hi, ?_⟩
        simp only [List.mem_singleton]
        omega
    · rw [if_neg he]
      cases i with
      | zero =>
        simp only [List.get?_cons_zero, Option.some.injEq] at hi
        subst hi
        refine ⟨by simp, ?_⟩
        intro hmem
        have := wimod_dispatch_loop_idx_ge kz data len es (idx + 1) _ hmem
        omega
      | succ j =>
        simp only [List.get?_cons_succ] at hi
        obtain ⟨h1, h2⟩ := ih (idx + 1) j x hi hx
        refine ⟨by simpa using h1, ?_⟩
        have : idx + (j + 1) = idx + 1 + j := by omega
        rw [this]
        exact h2

/-- A packet that passes both tests of `wimod_process_packet` reaches the walk
over the dispatcher list. -/
theorem wimod_process_packet_valid (kz : Int → Bool)
    (reg : List wimod_hci_packet_completion) (data : List Nat)
    (hlen : 4 ≤ data.length) (hcrc : u16_not (crc_ccitt 0xffff data) = 0x0f47) :
    wimod_process_packet kz reg data =
      wimod_dispatch_loop kz data (data.length : Int) 0 reg := by
  unfold wimod_process_packet
  simp only
  rw [if_neg (by omega), if_neg (by simp [hcrc])]

/-- A packet that fails one of the tests of `wimod_process_packet` is dropped. -/
theorem wimod_process_packet_drop (kz : Int → Bool)
    (reg : List wimod_hci_packet_completion) (data : List Nat)
    (h : data.length < 4 ∨ u16_not (crc_ccitt 0xffff data) ≠ 0x0f47) :
    wimod_process_packet kz reg data = (reg, []) := by
  unfold wimod_process_packet
  simp only
  by_cases hlen : ((data.length : Int) < 4)
  · rw [if_pos hlen]
  · rw [if_neg hlen]
    rcases h with h | h
    · omega
    · rw [if_pos h]

/-- The body of an encoded frame: header, payload and checksum trailer. -/
theorem encode_eq (d m : Nat) (p : List Nat) :
    encode d m p = [0xC0] ++ esc (d :: m :: p ++
      [u16_not (crc_ccitt 0xffff (d :: m :: p)) &&& 0xff,
        u16_not (crc_ccitt 0xffff (d :: m :: p)) >>> 8]) ++ [0xC0] := rfl

theorem body_crc_ok (d m : Nat) (p : List Nat) :
    u16_not (crc_ccitt 0xffff (d :: m :: p ++
      [u16_not (crc_ccitt 0xffff (d :: m :: p)) &&& 0xff,
        u16_not (crc_ccitt 0xffff (d :: m :: p)) >>> 8])) = 0x0f47 :=
  crc_ccitt_residual 0xffff (by norm_num) (d :: m :: p)

/-- What the fresh dispatcher of a pending request stores when the allocation
succeeds. -/
theorem dispatch_completion_fresh (kz : Int → Bool) (data : List Nat) (len : Int)
    (e : wimod_hci_packet_completion) (hfresh : completion_done e.comp = false)
    (halloc : kz (len - 2) = true) :
    wimod_hci_packet_dispatch_completion kz data len e =
      { e with payload_len := len - 2,
               payload := some ((data.drop 2).take (len - 2).toNat),
               comp := complete e.comp } := by
  unfold wimod_hci_packet_dispatch_completion
  simp [hfresh, halloc]


/-! ### Delivery in chunks -/

/-- The loop unfolds into its body, `wimod_receive_step`. -/
theorem wimod_receive_loop_cons (kz : Int → Bool) (w : wimod_device) (len : Nat)
    (pk : List (List Nat)) (run : List Nat) (b : Nat) (rest : List Nat) :
    wimod_receive_loop kz w len pk run (b :: rest) =
      if ¬ (run.length < WIMOD_HCI_PACKET_MAX - w.rx_buf.length) then ⟨w, len, pk⟩
      else
        wimod_receive_loop kz (wimod_receive_step kz w run b).1
          (len + (wimod_receive_step kz w run b).2.1)
          (pk ++ (wimod_receive_step kz w run b).2.2.1)
          (wimod_receive_step kz w run b).2.2.2 rest := by
  rw [wimod_receive_loop]
  unfold wimod_receive_step
  by_cases hstop : ¬ (run.length < WIMOD_HCI_PACKET_MAX - w.rx_buf.length)
  · rw [if_pos hstop, if_pos hstop]
  · rw [if_neg hstop, if_neg hstop]
    by_cases hesc : w.rx_esc = true
    · simp only [hesc, if_true, List.append_nil]
    · by_cases hplain : b ≠ SLIP_END ∧ b ≠ SLIP_ESC
      · simp only [hesc, if_pos hplain, Bool.false_eq_true, if_false, Nat.add_zero,
          List.append_nil]
      · simp only [hesc, if_neg hplain, Bool.false_eq_true, if_false, run_append_eq]
        by_cases hend : b = SLIP_END ∧ (w.rx_buf ++ run).length > 0
        · simp only [if_pos hend]
        · simp only [if_neg hend]
          by_cases hb : b = SLIP_ESC
          · simp only [if_pos hb, List.append_nil]
          · simp only [if_neg hb, List.append_nil]

/-- The two shapes of an iteration: it either extends the scanned run by a
plain octet, or consumes the run and the octet. -/
theorem wimod_receive_step_cases (kz : Int → Bool) (w : wimod_device) (run : List Nat)
    (b : Nat) :
    (w.rx_esc = false ∧ b ≠ 0xC0 ∧ b ≠ 0xDB ∧
      wimod_receive_step kz w run b = (w, 0, [], run ++ [b])) ∨
    ((wimod_receive_step kz w run b).2.1 = run.length + 1 ∧
      (wimod_receive_step kz w run b).2.2.2 = []) := by
  unfold wimod_receive_step
  by_cases hesc : w.rx_esc = true
  · right
    simp [hesc]
  · by_cases hplain : b ≠ SLIP_END ∧ b ≠ SLIP_ESC
    · left
      refine ⟨Bool.eq_false_iff.mpr hesc, hplain.1, hplain.2, ?_⟩
      simp only [hesc, if_pos hplain, Bool.false_eq_true, if_false]
    · right
      simp only [hesc, if_neg hplain, Bool.false_eq_true, if_false, run_append_eq]
      by_cases hend : b = SLIP_END ∧ (w.rx_buf ++ run).length > 0
      · simp only [if_pos hend, and_self]
      · simp only [if_neg hend]
        by_cases hb : b = SLIP_ESC
        · simp only [if_pos hb, and_self]
        · simp only [if_neg hb, and_self]

/-- The return value of the loop lies between the count at entry and the count
at entry plus the octets at hand. -/
theorem wimod_receive_loop_ret (kz : Int → Bool) (rest : List Nat) :
    ∀ (w : wimod_device) (len : Nat) (pk : List (List Nat)) (run : List Nat),
      len ≤ (wimod_receive_loop kz w len pk run rest).ret ∧
      (wimod_receive_loop kz w len pk run rest).ret ≤ len + run.length + rest.length := by
  induction rest with
  | nil => intro w len pk run; simp [wimod_receive_loop]
  | cons b bs ih =>
    intro w len pk run
    rw [wimod_receive_loop_cons]
    by_cases hstop : ¬ (run.length < WIMOD_HCI_PACKET_MAX - w.rx_buf.length)
    · rw [if_pos hstop]
      simp only [List.length_cons]
      omega
    · rw [if_neg hstop]
      rcases wimod_receive_step_cases kz w run b with ⟨_, _, _, hs⟩ | ⟨hc, hr⟩
      · rw [hs]
        have := ih w (len + 0) (pk ++ []) (run ++ [b])
        simp only [List.length_append, List.length_cons, List.length_nil] at this ⊢
        omega
      · have := ih (wimod_receive_step kz w run b).1 (len + (wimod_receive_step kz w run b).2.1)
          (pk ++ (wimod_receive_step kz w run b).2.2.1) (wimod_receive_step kz w run b).2.2.2
        rw [hr, hc] at this
        rw [hr, hc]
        simp only [List.length_cons, List.length_nil] at this ⊢
        omega

/-- The accumulators `len` and `packets` of the loop only collect. -/
theorem wimod_receive_loop_acc (kz : Int → Bool) (rest : List Nat) :
    ∀ (w : wimod_device) (len : Nat) (pk : List (List Nat)) (run : List Nat),
      wimod_receive_loop kz w len pk run rest =
        ⟨(wimod_receive_loop kz w 0 [] run rest).dev,
          len + (wimod_receive_loop kz w 0 [] run rest).ret,
          pk ++ (wimod_receive_loop kz w 0 [] run rest).packets⟩ := by
  induction rest with
  | nil => intro w len pk run; simp [wimod_receive_loop]
  | cons b bs ih =>
    intro w len pk run
    rw [wimod_receive_loop_cons, wimod_receive_loop_cons kz w 0 []]
    by_cases hstop : ¬ (run.length < WIMOD_HCI_PACKET_MAX - w.rx_buf.length)
    · rw [if_pos hstop, if_pos hstop]
      simp
    · rw [if_neg hstop, if_neg hstop]
      rw [ih _ (len + _) (pk ++ _), ih _ (0 + _) ([] ++ _)]
      simp [Nat.add_assoc]

/-- Octets scanned as a plain run can be scanned again. -/
theorem wimod_receive_loop_rescan (kz : Int → Bool) (run : List Nat) :
    ∀ (w : wimod_device) (len : Nat) (pk : List (List Nat)) (r0 ys : List Nat),
      (∀ b ∈ run, b ≠ 0xC0 ∧ b ≠ 0xDB) → (run ≠ [] → w.rx_esc = false) →
      r0.length + run.length ≤ WIMOD_HCI_PACKET_MAX - w.rx_buf.length →
      wimod_receive_loop kz w len pk r0 (run ++ ys) =
        wimod_receive_loop kz w len pk (r0 ++ run) ys := by
  induction run with
  | nil => intro w len pk r0 ys _ _ _; simp
  | cons b bs ih =>
    intro w len pk r0 ys hplain hesc hroom
    have hb := hplain b (List.mem_cons_self b bs)
    have he : w.rx_esc = false := hesc (by simp)
    simp only [List.length_cons] at hroom
    simp only [List.cons_append]
    rw [wimod_receive_loop_cons]
    rw [if_neg (by omega)]
    have hs : wimod_receive_step kz w r0 b = (w, 0, [], r0 ++ [b]) := by
      unfold wimod_receive_step
      simp [he, SLIP_END, SLIP_ESC, hb.1, hb.2]
    rw [hs]
    simp only [Nat.add_zero, List.append_nil]
    rw [ih w len pk (r0 ++ [b]) ys (fun c hc => hplain c (List.mem_cons_of_mem b hc))
      (fun _ => he) (by simp only [List.length_append, List.length_cons, List.length_nil]; omega)]
    simp

/-- Splitting lemma: running the loop on `rest ++ ys` is running it on `rest`
and then, from the state reached, on the octets of `run ++ rest` that were not
consumed followed by `ys`. -/
theorem wimod_receive_loop_split (kz : Int → Bool) (rest : List Nat) :
    ∀ (w : wimod_device) (len : Nat) (pk : List (List Nat)) (run ys : List Nat),
      (∀ b ∈ run, b ≠ 0xC0 ∧ b ≠ 0xDB) → (run ≠ [] → w.rx_esc = false) →
      run.length ≤ WIMOD_HCI_PACKET_MAX - w.rx_buf.length →
      wimod_receive_loop kz w len pk run (rest ++ ys) =
        wimod_receive_loop kz (wimod_receive_loop kz w len pk run rest).dev
          (wimod_receive_loop kz w len pk run rest).ret
          (wimod_receive_loop kz w len pk run rest).packets []
          ((run ++ rest).drop ((wimod_receive_loop kz w len pk run rest).ret - len) ++ ys) := by
  induction rest with
  | nil =>
    intro w len pk run ys hplain hesc hroom
    simp only [wimod_receive_loop, List.nil_append, List.append_nil, Nat.sub_self, List.drop_zero]
    rw [wimod_receive_loop_rescan kz run w len pk [] ys hplain hesc (by simpa using hroom)]
    simp
  | cons b bs ih =>
    intro w len pk run ys hplain hesc hroom
    simp only [List.cons_append]
    rw [wimod_receive_loop_cons, wimod_receive_loop_cons kz w len pk run b bs]
    by_cases hstop : ¬ (run.length < WIMOD_HCI_PACKET_MAX - w.rx_buf.length)
    · rw [if_pos hstop, if_pos hstop]
      simp only [Nat.sub_self, List.drop_zero]
      rw [List.append_assoc]
      rw [wimod_receive_loop_rescan kz run w len pk [] _ hplain hesc (by simpa using hroom)]
      simp only [List.nil_append, List.cons_append]
      rw [wimod_receive_loop_cons, if_pos hstop]
    · rw [if_neg hstop, if_neg hstop]
      rcases wimod_receive_step_cases kz w run b with ⟨he, hb1, hb2, hs⟩ | ⟨hc, hr⟩
      · rw [hs]
        simp only [Nat.add_zero, List.append_nil]
        rw [ih w len pk (run ++ [b]) ys
          (by
            intro c hc
            rcases List.mem_append.mp hc with hc | hc
            · exact hplain c hc
            · simp only [List.mem_singleton] at hc
              subst hc
              exact ⟨hb1, hb2⟩)
          (fun _ => he)
          (by simp only [List.length_append, List.length_cons, List.length_nil]; omega)]
        simp
      · rw [hr, hc]
        rw [ih _ _ _ [] ys (by simp) (by simp) (by simp)]
        have hret := (wimod_receive_loop_ret kz bs (wimod_receive_step kz w run b).1
          (len + (run.length + 1)) (pk ++ (wimod_receive_step kz w run b).2.2.1) []).1
        congr 2
        simp only [List.nil_append]
        have hsub : (wimod_receive_loop kz (wimod_receive_step kz w run b).1
            (len + (run.length + 1)) (pk ++ (wimod_receive_step kz w run b).2.2.1) [] bs).ret - len
            = (run ++ [b]).length + ((wimod_receive_loop kz (wimod_receive_step kz w run b).1
            (len + (run.length + 1)) (pk ++ (wimod_receive_step kz w run b).2.2.1) [] bs).ret
              - (len + (run.length + 1))) := by
          simp only [List.length_append, List.length_cons, List.length_nil]
          omega
        rw [hsub]
        have hcat : run ++ b :: bs = (run ++ [b]) ++ bs := by simp
        rw [hcat, ← List.drop_drop, List.drop_left]

/-- Splitting lemma for `wimod_receive_buf`. -/
theorem wimod_receive_buf_split (kz : Int → Bool) (w : wimod_device) (xs ys : List Nat) :
    wimod_receive_buf kz w (xs ++ ys) =
      ⟨(wimod_receive_buf kz (wimod_receive_buf kz w xs).dev
          (xs.drop (wimod_receive_buf kz w xs).ret ++ ys)).dev,
        (wimod_receive_buf kz w xs).ret +
          (wimod_receive_buf kz (wimod_receive_buf kz w xs).dev
            (xs.drop (wimod_receive_buf kz w xs).ret ++ ys)).ret,
        (wimod_receive_buf kz w xs).packets ++
          (wimod_receive_buf kz (wimod_receive_buf kz w xs).dev
            (xs.drop (wimod_receive_buf kz w xs).ret ++ ys)).packets⟩ := by
  unfold wimod_receive_buf
  rw [wimod_receive_loop_split kz xs w 0 [] [] ys (by simp) (by simp) (by simp)]
  rw [wimod_receive_loop_acc]
  simp

/-- After a call, the octets it did not consume are not consumed by a second
call either, which changes nothing. -/
theorem wimod_receive_buf_idle (kz : Int → Bool) (w : wimod_device) (xs : List Nat) :
    wimod_receive_buf kz (wimod_receive_buf kz w xs).dev
      (xs.drop (wimod_receive_buf kz w xs).ret) = ⟨(wimod_receive_buf kz w xs).dev, 0, []⟩ := by
  have h := wimod_receive_buf_split kz w xs []
  simp only [List.append_nil] at h
  generalize wimod_receive_buf kz w xs = r1 at h
  generalize wimod_receive_buf kz r1.dev (xs.drop r1.ret) = r2 at h
  cases r1 with
  | mk d1 n1 p1 =>
    cases r2 with
    | mk d2 n2 p2 =>
      simp only [wimod_receive_result.mk.injEq] at h
      obtain ⟨h1, h2, h3⟩ := h
      have hn : n2 = 0 := by omega
      have hp : p2 = [] := by
        have := congrArg List.length h3
        simp only [List.length_append] at this
        exact List.length_eq_zero.mp (by omega)
      simp [h1, hn, hp]

/-- Delivery in chunks reaches the state of a single delivery of the whole
stream, provided the octets pending at the start are ones a call would leave
alone. -/
theorem wimod_feed_chunks_eq (kz : Int → Bool) (chunks : List (List Nat)) :
    ∀ (w : wimod_device) (pending : List Nat) (pk : List (List Nat)),
      wimod_receive_buf kz w pending = ⟨w, 0, []⟩ →
      wimod_feed_chunks kz w pending pk chunks =
        ((wimod_receive_buf kz w (pending ++ chunks.flatten)).dev,
          (pending ++ chunks.flatten).drop (wimod_receive_buf kz w (pending ++ chunks.flatten)).ret,
          pk ++ (wimod_receive_buf kz w (pending ++ chunks.flatten)).packets) := by
  induction chunks with
  | nil =>
    intro w pending pk hidle
    simp [wimod_feed_chunks, hidle]
  | cons c cs ih =>
    intro w pending pk hidle
    simp only [wimod_feed_chunks, List.flatten_cons]
    rw [ih _ _ _ (wimod_receive_buf_idle kz w (pending ++ c))]
    have hsplit := wimod_receive_buf_split kz w (pending ++ c) cs.flatten
    have hret : (wimod_receive_buf kz w (pending ++ c)).ret ≤ (pending ++ c).length := by
      have := (wimod_receive_loop_ret kz (pending ++ c) w 0 [] []).2
      simpa [wimod_receive_buf] using this
    rw [← List.append_assoc pending c cs.flatten, hsplit]
    simp only [Prod.mk.injEq, List.append_assoc, true_and, and_true]
    rw [← List.drop_drop]
    congr 1
    rw [← List.append_assoc, List.drop_append_of_le_length hret]


/-! ### The claims -/

theorem esc_interior (xs : List Nat) :
    ∀ i : Nat, (esc xs).get? i ≠ some 0xC0 ∧
      ((esc xs).get? i = some 0xDB →
        (esc xs).get? (i + 1) = some 0xDC ∨ (esc xs).get? (i + 1) = some 0xDD) := by
  induction xs with
  | nil => intro i; simp [esc]
  | cons b bs ih =>
    intro i
    by_cases h1 : b = 0xC0
    · subst h1
      rw [esc_cons_end]
      match i with
      | 0 => simp
      | 1 => simp
      | j + 2 => simpa using ih j
    · by_cases h2 : b = 0xDB
      · subst h2
        rw [esc_cons_esc]
        match i with
        | 0 => simp
        | 1 => simp
        | j + 2 => simpa using ih j
      · rw [esc_cons_plain b bs h1 h2]
        match i with
        | 0 => simp [h1, h2]
        | j + 1 => simpa using ih j

theorem sent_frame_eq (rets : Nat → Int) (d m : Nat) (p frame : List Nat)
    (hp : p.length ≤ 300) (hframe : (wimod_hci_send rets d m p).2.get? 30 = some frame) :
    frame = encode d m p := by
  rcases wimod_hci_send_log rets d m p hp 30 frame hframe with ⟨h, _⟩ | ⟨_, h⟩
  · omega
  · exact h

/-- What `wimod_receive_buf` does with a whole frame of the encoder, whatever
the dispatcher list. -/
theorem wimod_receive_buf_encode (kz : Int → Bool) (reg : List wimod_hci_packet_completion)
    (d m : Nat) (p : List Nat) (hp : p.length ≤ 300) :
    wimod_receive_buf kz ⟨[], false, reg⟩ (encode d m p) =
      ⟨⟨[], false, (wimod_process_packet kz reg (d :: m :: p ++
          [u16_not (crc_ccitt 0xffff (d :: m :: p)) &&& 0xff,
            u16_not (crc_ccitt 0xffff (d :: m :: p)) >>> 8])).1⟩,
        (encode d m p).length,
        [d :: m :: p ++ [u16_not (crc_ccitt 0xffff (d :: m :: p)) &&& 0xff,
            u16_not (crc_ccitt 0xffff (d :: m :: p)) >>> 8]]⟩ := by
  rw [encode_eq]
  exact wimod_receive_buf_frame kz reg _ (by simp)
    (by simp only [List.length_cons, List.length_append, List.length_nil]; omega)

/-- Between its two delimiters, a frame `0xC0, esc body, 0xC0` has no 0xC0, and
each 0xDB in it starts an escape pair. -/
theorem framed_interior (body : List Nat) :
    ([0xC0] ++ esc body ++ [0xC0]).head? = some 0xC0 ∧
    ([0xC0] ++ esc body ++ [0xC0]).getLast? = some 0xC0 ∧
    ∀ i, 0 < i → i + 1 < ([0xC0] ++ esc body ++ [0xC0]).length →
      ([0xC0] ++ esc body ++ [0xC0]).get? i ≠ some 0xC0 ∧
      (([0xC0] ++ esc body ++ [0xC0]).get? i = some 0xDB →
        ([0xC0] ++ esc body ++ [0xC0]).get? (i + 1) = some 0xDC ∨
        ([0xC0] ++ esc body ++ [0xC0]).get? (i + 1) = some 0xDD) := by
  refine ⟨by simp, List.getLast?_concat _, ?_⟩
  intro i hi0 hi1
  obtain ⟨j, rfl⟩ : ∃ j, i = j + 1 := ⟨i - 1, by omega⟩
  simp only [List.singleton_append, List.cons_append, List.length_cons, List.length_append,
    List.length_nil, List.get?_cons_succ, List.nil_append] at hi1 ⊢
  have hj : j < (esc body).length := by omega
  have hint := esc_interior body j
  simp only [List.get?_eq_getElem?] at hint ⊢
  rw [List.getElem?_append_left hj]
  have hnext : ∀ c, (esc body)[j + 1]? = some c → (esc body ++ [192])[j + 1]? = some c := by
    intro c hc
    have hlt : j + 1 < (esc body).length := by
      by_contra hge
      rw [List.getElem?_eq_none (by omega)] at hc
      cases hc
    rw [List.getElem?_append_left hlt]
    exact hc
  refine ⟨hint.1, fun hdb => ?_⟩
  rcases hint.2 hdb with h | h
  · exact Or.inl (hnext _ h)
  · exact Or.inr (hnext _ h)


/-- C1 (as amended): for every destination `d`, message id `m` and payload `p`
with `|p| <= 300`, feeding the frame built by `wimod_hci_send` to
`wimod_receive_buf` in one call, from an empty reassembler with one dispatcher
registered under `(d, m)`, consumes the frame and hands exactly one packet to
`wimod_process_packet`; the packet is the header, the payload and the checksum,
it passes the length and the checksum test, and the dispatcher is invoked.  If
the completion of the dispatcher is not signalled yet and the `kzalloc` of the
copy succeeds, the result slot holds `payload = p` and `payload_len = |p|`, and
the completion is signalled. -/
theorem c1_decode_of_encode (kz : Int → Bool) (rets : Nat → Int) (d m : Nat)
    (p frame : List Nat) (e : wimod_hci_packet_completion)
    (hp : p.length ≤ 300)
    (hframe : (wimod_hci_send rets d m p).2.get? 30 = some frame)
    (hd : e.dst_id = d) (hm : e.msg_id = m) :
    (wimod_receive_buf kz ⟨[], false, [e]⟩ frame).packets =
      [d :: m :: p ++ [u16_not (crc_ccitt 0xffff (d :: m :: p)) &&& 0xff,
          u16_not (crc_ccitt 0xffff (d :: m :: p)) >>> 8]] ∧
    (wimod_receive_buf kz ⟨[], false, [e]⟩ frame).ret = frame.length ∧
    (wimod_receive_buf kz ⟨[], false, [e]⟩ frame).dev.rx_buf = [] ∧
    (wimod_receive_buf kz ⟨[], false, [e]⟩ frame).dev.rx_esc = false ∧
    4 ≤ (d :: m :: p ++ [u16_not (crc_ccitt 0xffff (d :: m :: p)) &&& 0xff,
            u16_not (crc_ccitt 0xffff (d :: m :: p)) >>> 8]).length ∧
    u16_not (crc_ccitt 0xffff (d :: m :: p ++
          [u16_not (crc_ccitt 0xffff (d :: m :: p)) &&& 0xff,
            u16_not (crc_ccitt 0xffff (d :: m :: p)) >>> 8])) = 0x0f47 ∧
    (wimod_process_packet kz [e] (d :: m :: p ++
          [u16_not (crc_ccitt 0xffff (d :: m :: p)) &&& 0xff,
            u16_not (crc_ccitt 0xffff (d :: m :: p)) >>> 8])).2 = [0] ∧
    (completion_done e.comp = false → kz (p.length : Int) = true →
      (wimod_receive_buf kz ⟨[], false, [e]⟩ frame).dev.packet_dispatchers =
        [{ e with payload := some p, payload_len := (p.length : Int),
                  comp := complete e.comp }]) := by
  have hf := sent_frame_eq rets d m p frame hp hframe
  subst hf
  have hlen : 4 ≤ (d :: m :: p ++ [u16_not (crc_ccitt 0xffff (d :: m :: p)) &&& 0xff,
            u16_not (crc_ccitt 0xffff (d :: m :: p)) >>> 8]).length := by
    simp only [List.length_cons, List.length_append, List.length_nil]; omega
  have hfirst := wimod_dispatch_loop_first kz (d :: m :: p ++
        [u16_not (crc_ccitt 0xffff (d :: m :: p)) &&& 0xff,
          u16_not (crc_ccitt 0xffff (d :: m :: p)) >>> 8])
    ((d :: m :: p ++ [u16_not (crc_ccitt 0xffff (d :: m :: p)) &&& 0xff,
          u16_not (crc_ccitt 0xffff (d :: m :: p)) >>> 8]).length : Int) [] e [] 0
    (by simp) (by simp [hd, hm])
  simp only [List.nil_append, List.length_nil, Nat.add_zero] at hfirst
  have hone := wimod_receive_buf_encode kz [e] d m p hp
  refine ⟨by rw [hone], by rw [hone], by rw [hone], by rw [hone], hlen, body_crc_ok d m p,
    ?_, fun hfresh halloc => ?_⟩
  · rw [wimod_process_packet_valid kz [e] _ hlen (body_crc_ok d m p), hfirst]
  · rw [hone]
    simp only
    rw [wimod_process_packet_valid kz [e] _ hlen (body_crc_ok d m p), hfirst]
    have hsz : (((d :: m :: p ++ [u16_not (crc_ccitt 0xffff (d :: m :: p)) &&& 0xff,
            u16_not (crc_ccitt 0xffff (d :: m :: p)) >>> 8]).length : Int) - 2 - 2)
        = (p.length : Int) := by
      simp only [List.length_cons, List.length_append, List.length_nil]
      push_cast
      omega
    rw [dispatch_completion_fresh kz _ _ e hfresh (by rw [hsz]; exact halloc)]
    rw [hsz]
    simp

/-- Witness of C1 for the one-octet payload `[5]` sent to `(1, 1)`. -/
theorem c1_decode_of_encode_witness :
    ([5] : List Nat).length ≤ 300 ∧
    (wimod_hci_send (fun _ => 0) 1 1 [5]).2.get? 30 =
        some [0xC0, 0x01, 0x01, 0x05, 0x65, 0xD2, 0xC0] ∧
    (wimod_receive_buf (fun _ => true) ⟨[], false, [⟨1, 1, ⟨0⟩, none, 0⟩]⟩
        [0xC0, 0x01, 0x01, 0x05, 0x65, 0xD2, 0xC0]).packets =
      [[0x01, 0x01, 0x05, 0x65, 0xD2]] ∧
    (wimod_receive_buf (fun _ => true) ⟨[], false, [⟨1, 1, ⟨0⟩, none, 0⟩]⟩
        [0xC0, 0x01, 0x01, 0x05, 0x65, 0xD2, 0xC0]).dev.packet_dispatchers =
      [⟨1, 1, ⟨1⟩, some [5], 1⟩] :=
  ⟨by decide, by decide,
    (c1_decode_of_encode (fun _ => true) (fun _ => 0) 1 1 [5]
      [0xC0, 0x01, 0x01, 0x05, 0x65, 0xD2, 0xC0] ⟨1, 1, ⟨0⟩, none, 0⟩
      (by decide) (by decide) rfl rfl).1.trans (by decide),
    (c1_decode_of_encode (fun _ => true) (fun _ => 0) 1 1 [5]
      [0xC0, 0x01, 0x01, 0x05, 0x65, 0xD2, 0xC0] ⟨1, 1, ⟨0⟩, none, 0⟩
      (by decide) (by decide) rfl rfl).2.2.2.2.2.2.2 (by decide) rfl⟩

/-- Counterexample to C1 as stated: the frame for `(1, 1, [5])` is decoded and
dispatched, but the result slot does not hold the payload when `kzalloc` fails
(first case) or when the completion of the registered dispatcher is already
signalled (second case). -/
theorem c1_counterexample :
    (wimod_hci_send (fun _ => 0) 1 1 [5]).2.get? 30 =
        some [0xC0, 0x01, 0x01, 0x05, 0x65, 0xD2, 0xC0] ∧
    (wimod_receive_buf (fun _ => false) ⟨[], false, [⟨1, 1, ⟨0⟩, none, 0⟩]⟩
        [0xC0, 0x01, 0x01, 0x05, 0x65, 0xD2, 0xC0]).dev.packet_dispatchers =
      [⟨1, 1, ⟨1⟩, none, 1⟩] ∧
    (wimod_receive_buf (fun _ => true) ⟨[], false, [⟨1, 1, ⟨1⟩, none, 0⟩]⟩
        [0xC0, 0x01, 0x01, 0x05, 0x65, 0xD2, 0xC0]).dev.packet_dispatchers =
      [⟨1, 1, ⟨1⟩, none, 0⟩] := by
  decide

/-- C2: for every `d`, `m` and payload `p` with `|p| <= 300`, the buffer that
`wimod_hci_send` hands to the transport after the 30 wake-up delimiters is
`[0xC0] ++ esc (d :: m :: p ++ [crc & 0xFF, crc >> 8]) ++ [0xC0]`, where `crc`
is the 16-bit complement of `crc_ccitt(0xFFFF, d :: m :: p)`; this is the whole
log when the wake-up writes succeed, and no other buffer than a wake-up
delimiter or this frame is ever written. -/
theorem c2_frame_layout (rets : Nat → Int) (d m : Nat) (p : List Nat)
    (hp : p.length ≤ 300) :
    ((∀ k < 30, rets k = 0) →
      wimod_hci_send rets d m p =
        (rets 30, List.replicate 30 [0xC0] ++
          [[0xC0] ++ esc (d :: m :: p ++
            [u16_not (crc_ccitt 0xFFFF (d :: m :: p)) &&& 0xFF,
              u16_not (crc_ccitt 0xFFFF (d :: m :: p)) >>> 8]) ++ [0xC0]])) ∧
    (∀ k buf, (wimod_hci_send rets d m p).2.get? k = some buf →
      (k < 30 ∧ buf = [0xC0]) ∨
      (k = 30 ∧ buf = [0xC0] ++ esc (d :: m :: p ++
            [u16_not (crc_ccitt 0xFFFF (d :: m :: p)) &&& 0xFF,
              u16_not (crc_ccitt 0xFFFF (d :: m :: p)) >>> 8]) ++ [0xC0])) := by
  refine ⟨fun hw => ?_, fun k buf h => ?_⟩
  · rw [wimod_hci_send_ok rets d m p hp hw, encode_eq]
  · have := wimod_hci_send_log rets d m p hp k buf h
    rw [encode_eq] at this
    exact this

/-- Witness of C2: the ping request `(0x01, 0x01, [])` is the frame
`C0 01 01 16 07 C0`. -/
theorem c2_frame_layout_witness :
    ([] : List Nat).length ≤ 300 ∧
    wimod_hci_send (fun _ => 0) 1 1 [] =
      (0, List.replicate 30 [0xC0] ++ [[0xC0, 0x01, 0x01, 0x16, 0x07, 0xC0]]) :=
  ⟨by decide,
    ((c2_frame_layout (fun _ => 0) 1 1 [] (by decide)).1 (fun _ _ => rfl)).trans (by decide)⟩

/-- C3: for every `d`, `m` and payload `p`, the octets `d :: m :: p` followed by
the two little-endian octets of the complemented `crc_ccitt(0xFFFF, d :: m :: p)`
have the complemented CRC 0x0F47 from the initial value 0xFFFF, so that they
pass both tests of `wimod_process_packet` and reach the dispatcher walk; in
particular the octets `01 01 16 07` of the frame for `(0x01, 0x01, [])`. -/
theorem c3_checksum_residual (d m : Nat) (p : List Nat) :
    u16_not (crc_ccitt 0xFFFF (d :: m :: p ++
        [u16_not (crc_ccitt 0xFFFF (d :: m :: p)) &&& 0xFF,
          u16_not (crc_ccitt 0xFFFF (d :: m :: p)) >>> 8])) = 0x0F47 ∧
    (∀ (kz : Int → Bool) (reg : List wimod_hci_packet_completion),
      wimod_process_packet kz reg (d :: m :: p ++
        [u16_not (crc_ccitt 0xFFFF (d :: m :: p)) &&& 0xFF,
          u16_not (crc_ccitt 0xFFFF (d :: m :: p)) >>> 8]) =
      wimod_dispatch_loop kz (d :: m :: p ++
        [u16_not (crc_ccitt 0xFFFF (d :: m :: p)) &&& 0xFF,
          u16_not (crc_ccitt 0xFFFF (d :: m :: p)) >>> 8])
        ((p.length : Int) + 4) 0 reg) ∧
    ((wimod_hci_send (fun _ => 0) 0x01 0x01 []).2.get? 30 =
        some [0xC0, 0x01, 0x01, 0x16, 0x07, 0xC0] ∧
      u16_not (crc_ccitt 0xFFFF [0x01, 0x01, 0x16, 0x07]) = 0x0F47) := by
  refine ⟨body_crc_ok d m p, fun kz reg => ?_, by decide, by decide⟩
  rw [wimod_process_packet_valid kz reg _
    (by simp only [List.length_cons, List.length_append, List.length_nil]; omega)
    (body_crc_ok d m p)]
  congr 1
  simp only [List.length_cons, List.length_append, List.length_nil]
  push_cast
  omega

/-- C4: for every payload of at most 300 octets, in particular one that contains
0xC0 or 0xDB, the frame built by `wimod_hci_send` starts and ends with 0xC0 and
has neither a raw 0xC0 nor a raw 0xDB at any other position: no 0xC0 occurs
there at all, and every 0xDB there is the introducer of an escape pair that
`slip_write_data` writes, followed by 0xDC or 0xDD, never an octet that stands
for itself. -/
theorem c4_frame_interior (rets : Nat → Int) (d m : Nat) (p frame : List Nat)
    (hp : p.length ≤ 300)
    (hframe : (wimod_hci_send rets d m p).2.get? 30 = some frame) :
    frame.head? = some 0xC0 ∧ frame.getLast? = some 0xC0 ∧
    ∀ i, 0 < i → i + 1 < frame.length →
      frame.get? i ≠ some 0xC0 ∧
      (frame.get? i = some 0xDB →
        frame.get? (i + 1) = some 0xDC ∨ frame.get? (i + 1) = some 0xDD) := by
  have hf := sent_frame_eq rets d m p frame hp hframe
  subst hf
  rw [encode_eq]
  exact framed_interior _

/-- Witness of C4 on the frame for `(1, 1, [0xC0])`, at the position of the
escape octet. -/
theorem c4_frame_interior_witness :
    ([0xC0] : List Nat).length ≤ 300 ∧
    (wimod_hci_send (fun _ => 0) 1 1 [0xC0]).2.get? 30 =
        some [0xC0, 0x01, 0x01, 0xDB, 0xDC, 0xC4, 0x43, 0xC0] ∧
    ([0xC0, 0x01, 0x01, 0xDB, 0xDC, 0xC4, 0x43, 0xC0] : List Nat).get? 3 ≠ some 0xC0 ∧
    (([0xC0, 0x01, 0x01, 0xDB, 0xDC, 0xC4, 0x43, 0xC0] : List Nat).get? 4 = some 0xDC ∨
      ([0xC0, 0x01, 0x01, 0xDB, 0xDC, 0xC4, 0x43, 0xC0] : List Nat).get? 4 = some 0xDD) :=
  ⟨by decide, by decide,
    ((c4_frame_interior (fun _ => 0) 1 1 [0xC0] [0xC0, 0x01, 0x01, 0xDB, 0xDC, 0xC4, 0x43, 0xC0]
      (by decide) (by decide)).2.2 3 (by decide) (by decide)).1,
    ((c4_frame_interior (fun _ => 0) 1 1 [0xC0] [0xC0, 0x01, 0x01, 0xDB, 0xDC, 0xC4, 0x43, 0xC0]
      (by decide) (by decide)).2.2 3 (by decide) (by decide)).2 (by decide)⟩

/-- C5: `wimod_hci_send` returns `-EINVAL` and passes nothing to the transport
(no wake-up delimiter, no frame) whenever `payload_len > 300`; when
`payload_len <= 300` the length check does not fail: the first wake-up
delimiter is written and the value returned is the one of a transport write. -/
theorem c5_payload_too_large (rets : Nat → Int) (d m : Nat) (p : List Nat) :
    (p.length > 300 → wimod_hci_send rets d m p = (-EINVAL, [])) ∧
    (p.length ≤ 300 →
      (wimod_hci_send rets d m p).2.head? = some [0xC0] ∧
      ∃ k, k ≤ 30 ∧ (wimod_hci_send rets d m p).1 = rets k) := by
  constructor
  · intro h
    unfold wimod_hci_send
    rw [if_pos (by simp only [WIMOD_HCI_PAYLOAD_MAX]; omega)]
  · intro hp
    unfold wimod_hci_send
    rw [if_neg (by simp only [WIMOD_HCI_PAYLOAD_MAX]; omega)]
    rw [wimod_hci_send_buf_eq d m p hp]
    rcases hw : wimod_hci_send_wakeup rets 0 30 [] with ⟨o, log⟩
    cases o with
    | some ret =>
      obtain ⟨j, hj1, hj2, hj3⟩ := wimod_hci_send_wakeup_fail rets 30 0 [] ret log hw
      simp only
      refine ⟨?_, j, by omega, ?_⟩
      · rw [hj3]
        simp [List.replicate_succ, SLIP_END]
      · rw [hj2]
        simp
    | none =>
      have hlog := wimod_hci_send_wakeup_none rets 30 0 [] log hw
      simp only
      refine ⟨?_, 30, le_refl 30, rfl⟩
      rw [hlog]
      simp [List.replicate_succ, SLIP_END]

/-- Witness of C5: 301 octets are rejected before anything is written, 300
octets are not. -/
theorem c5_payload_too_large_witness :
    wimod_hci_send (fun _ => 0) 1 1 (List.replicate 301 0) = (-EINVAL, []) ∧
    (wimod_hci_send (fun _ => 0) 1 1 (List.replicate 300 0)).2.head? = some [0xC0] :=
  ⟨(c5_payload_too_large (fun _ => 0) 1 1 (List.replicate 301 0)).1
      (by rw [List.length_replicate]; decide),
    ((c5_payload_too_large (fun _ => 0) 1 1 (List.replicate 300 0)).2
      (by rw [List.length_replicate])).1⟩

/-- C6: `slip_write_data(buf, buf_len, data, data_len)` returns `-ENOMEM` if and
only if the escaped length of `data` (`data_len` plus the number of 0xC0 and
0xDB octets in `data`) exceeds `buf_len`; otherwise it returns that escaped
length, and that many octets, the escaped form of `data`, are stored at the
start of `buf`. -/
theorem c6_slip_write_data (buf_len : Int) (data : List Nat) :
    ((slip_write_data buf_len data).1 = -ENOMEM ↔
      buf_len < ((data.length + data.countP (fun b => b = 0xC0 ∨ b = 0xDB) : Nat) : Int)) ∧
    (¬ buf_len < ((data.length + data.countP (fun b => b = 0xC0 ∨ b = 0xDB) : Nat) : Int) →
      slip_write_data buf_len data =
        (((data.length + data.countP (fun b => b = 0xC0 ∨ b = 0xDB) : Nat) : Int), esc data) ∧
      (esc data).length = data.length + data.countP (fun b => b = 0xC0 ∨ b = 0xDB)) := by
  rw [← esc_length]
  constructor
  · constructor
    · intro h
      by_contra hfit
      rw [slip_write_data_ok buf_len data (by omega)] at h
      simp only [ENOMEM] at h
      omega
    · exact slip_write_data_nomem buf_len data
  · intro hfit
    exact ⟨slip_write_data_ok buf_len data (by omega), rfl⟩

/-- Witness of C6: three octets with one delimiter and one escape octet need five
octets of room. -/
theorem c6_slip_write_data_witness :
    (slip_write_data 4 [0xC0, 0x01, 0xDB]).1 = -ENOMEM ∧
    slip_write_data 5 [0xC0, 0x01, 0xDB] = (5, [0xDB, 0xDC, 0x01, 0xDB, 0xDD]) :=
  ⟨(c6_slip_write_data 4 [0xC0, 0x01, 0xDB]).1.2 (by decide),
    ((c6_slip_write_data 5 [0xC0, 0x01, 0xDB]).2 (by decide)).1⟩

/-- C7: `wimod_process_packet` invokes no dispatcher and leaves every pending
request as it was whenever the packet has fewer than 4 octets or the complement
of `crc_ccitt(0xFFFF, packet)` differs from 0x0F47; no error reaches a caller:
the call of `wimod_receive_buf` that closes such a packet consumes the
delimiter, returns the count as usual and goes on with an empty buffer. -/
theorem c7_silent_discard (kz : Int → Bool) (reg : List wimod_hci_packet_completion)
    (data : List Nat)
    (h : data.length < 4 ∨ u16_not (crc_ccitt 0xffff data) ≠ 0x0f47) :
    wimod_process_packet kz reg data = (reg, []) ∧
    (data ≠ [] → data.length < 610 →
      wimod_receive_buf kz ⟨data, false, reg⟩ [0xC0] = ⟨⟨[], false, reg⟩, 1, [data]⟩) := by
  refine ⟨wimod_process_packet_drop kz reg data h, fun hne hlen => ?_⟩
  unfold wimod_receive_buf
  rw [wimod_receive_loop_end kz data reg 0 [] [] [] (by simpa using hlen) (by simpa using hne)]
  simp [wimod_receive_loop, wimod_process_packet_drop kz reg data h]

/-- Witness of C7: a three-octet packet and a four-octet packet with a wrong
checksum, with a dispatcher registered under their first two octets. -/
theorem c7_silent_discard_witness :
    wimod_process_packet (fun _ => true) [⟨1, 2, ⟨0⟩, none, 0⟩] [1, 2, 3] =
      ([⟨1, 2, ⟨0⟩, none, 0⟩], []) ∧
    wimod_process_packet (fun _ => true) [⟨1, 2, ⟨0⟩, none, 0⟩] [1, 2, 3, 4] =
      ([⟨1, 2, ⟨0⟩, none, 0⟩], []) :=
  ⟨(c7_silent_discard (fun _ => true) [⟨1, 2, ⟨0⟩, none, 0⟩] [1, 2, 3]
      (Or.inl (by decide))).1,
    (c7_silent_discard (fun _ => true) [⟨1, 2, ⟨0⟩, none, 0⟩] [1, 2, 3, 4]
      (Or.inr (by decide))).1⟩

/-- C8: for every frame built by `wimod_hci_send` and every way of cutting it
into consecutive chunks (two, ten, one octet at a time, or any other), feeding
the chunks to `wimod_receive_buf` in order from an empty reassembler, the octets
reported as not consumed being resubmitted in front of the next chunk, ends in
the same device state and hands `wimod_process_packet` the same packets as
feeding the whole frame in one call: exactly one packet, the header, payload
and checksum, with nothing left pending and `rx_len = 0`, `rx_esc = false`. -/
theorem c8_chunked_delivery (kz : Int → Bool) (rets : Nat → Int) (d m : Nat)
    (p frame : List Nat) (reg : List wimod_hci_packet_completion)
    (chunks : List (List Nat))
    (hp : p.length ≤ 300)
    (hframe : (wimod_hci_send rets d m p).2.get? 30 = some frame)
    (hchunks : chunks.flatten = frame) :
    wimod_feed_chunks kz ⟨[], false, reg⟩ [] [] chunks =
      ((wimod_receive_buf kz ⟨[], false, reg⟩ frame).dev, [],
        (wimod_receive_buf kz ⟨[], false, reg⟩ frame).packets) ∧
    (wimod_receive_buf kz ⟨[], false, reg⟩ frame).packets =
      [d :: m :: p ++ [u16_not (crc_ccitt 0xffff (d :: m :: p)) &&& 0xff,
          u16_not (crc_ccitt 0xffff (d :: m :: p)) >>> 8]] ∧
    (wimod_receive_buf kz ⟨[], false, reg⟩ frame).ret = frame.length ∧
    (wimod_receive_buf kz ⟨[], false, reg⟩ frame).dev.rx_buf = [] ∧
    (wimod_receive_buf kz ⟨[], false, reg⟩ frame).dev.rx_esc = false := by
  have hf := sent_frame_eq rets d m p frame hp hframe
  subst hf
  have hone := wimod_receive_buf_encode kz reg d m p hp
  refine ⟨?_, by rw [hone], by rw [hone], by rw [hone], by rw [hone]⟩
  have hfeed := wimod_feed_chunks_eq kz chunks ⟨[], false, reg⟩ [] []
    (by simp [wimod_receive_buf, wimod_receive_loop])
  simp only [List.nil_append] at hfeed
  rw [hfeed, hchunks, hone]
  simp

/-- Witness of C8: the frame for `(1, 1, [5])` delivered one octet at a time. -/
theorem c8_chunked_delivery_witness :
    ([5] : List Nat).length ≤ 300 ∧
    (wimod_hci_send (fun _ => 0) 1 1 [5]).2.get? 30 =
        some [0xC0, 0x01, 0x01, 0x05, 0x65, 0xD2, 0xC0] ∧
    [[0xC0], [0x01], [0x01], [0x05], [0x65], [0xD2], [0xC0]].flatten =
        [0xC0, 0x01, 0x01, 0x05, 0x65, 0xD2, 0xC0] ∧
    wimod_feed_chunks (fun _ => true) ⟨[], false, [⟨1, 1, ⟨0⟩, none, 0⟩]⟩ [] []
        [[0xC0], [0x01], [0x01], [0x05], [0x65], [0xD2], [0xC0]] =
      ((wimod_receive_buf (fun _ => true) ⟨[], false, [⟨1, 1, ⟨0⟩, none, 0⟩]⟩
          [0xC0, 0x01, 0x01, 0x05, 0x65, 0xD2, 0xC0]).dev, [],
        (wimod_receive_buf (fun _ => true) ⟨[], false, [⟨1, 1, ⟨0⟩, none, 0⟩]⟩
          [0xC0, 0x01, 0x01, 0x05, 0x65, 0xD2, 0xC0]).packets) :=
  ⟨by decide, by decide, by decide,
    (c8_chunked_delivery (fun _ => true) (fun _ => 0) 1 1 [5]
      [0xC0, 0x01, 0x01, 0x05, 0x65, 0xD2, 0xC0] [⟨1, 1, ⟨0⟩, none, 0⟩]
      [[0xC0], [0x01], [0x01], [0x05], [0x65], [0xD2], [0xC0]]
      (by decide) (by decide) (by decide)).1⟩

/-- C9 (as amended): for every dispatcher list and every checksum-valid packet
of at least 4 octets, `wimod_process_packet` invokes no dispatcher when no
entry is registered under the first two octets of the packet, and otherwise invokes
exactly one, the earliest registered entry with that key, every other entry
being left as it was; an entry registered under another key is never invoked
and keeps its result slot and completion. -/
theorem c9_keyed_dispatch (kz : Int → Bool) (reg : List wimod_hci_packet_completion)
    (data : List Nat) (hlen : 4 ≤ data.length)
    (hcrc : u16_not (crc_ccitt 0xffff data) = 0x0f47) :
    ((∀ e ∈ reg, ¬ (some e.dst_id = data.get? 0 ∧ some e.msg_id = data.get? 1)) →
      wimod_process_packet kz reg data = (reg, [])) ∧
    (∀ pre e post, reg = pre ++ e :: post →
      (∀ x ∈ pre, ¬ (some x.dst_id = data.get? 0 ∧ some x.msg_id = data.get? 1)) →
      (some e.dst_id = data.get? 0 ∧ some e.msg_id = data.get? 1) →
      wimod_process_packet kz reg data =
        (pre ++ wimod_hci_packet_dispatch_completion kz data ((data.length : Int) - 2) e
          :: post, [pre.length])) ∧
    (∀ i x, reg.get? i = some x →
      ¬ (some x.dst_id = data.get? 0 ∧ some x.msg_id = data.get? 1) →
      (wimod_process_packet kz reg data).1.get? i = some x ∧
      i ∉ (wimod_process_packet kz reg data).2) := by
  rw [wimod_process_packet_valid kz reg data hlen hcrc]
  refine ⟨fun h => wimod_dispatch_loop_none kz data _ reg 0 h, ?_, ?_⟩
  · intro pre e post hreg hpre he
    subst hreg
    rw [wimod_dispatch_loop_first kz data _ pre e post 0 hpre he]
    simp
  · intro i x hi hx
    have := wimod_dispatch_loop_other kz data (data.length : Int) reg 0 i x hi hx
    simpa using this

/-- Witness of C9: the packet `01 01 05 65 D2` with dispatchers registered under
`(2, 1)`, `(1, 1)` and `(1, 1)`: only the second entry is invoked. -/
theorem c9_keyed_dispatch_witness :
    4 ≤ ([0x01, 0x01, 0x05, 0x65, 0xD2] : List Nat).length ∧
    u16_not (crc_ccitt 0xffff [0x01, 0x01, 0x05, 0x65, 0xD2]) = 0x0f47 ∧
    wimod_process_packet (fun _ => true)
        [⟨2, 1, ⟨0⟩, none, 0⟩, ⟨1, 1, ⟨0⟩, none, 0⟩, ⟨1, 1, ⟨0⟩, none, 0⟩]
        [0x01, 0x01, 0x05, 0x65, 0xD2] =
      ([⟨2, 1, ⟨0⟩, none, 0⟩, ⟨1, 1, ⟨1⟩, some [5], 1⟩, ⟨1, 1, ⟨0⟩, none, 0⟩], [1]) :=
  ⟨by decide, by decide,
    ((c9_keyed_dispatch (fun _ => true)
      [⟨2, 1, ⟨0⟩, none, 0⟩, ⟨1, 1, ⟨0⟩, none, 0⟩, ⟨1, 1, ⟨0⟩, none, 0⟩]
      [0x01, 0x01, 0x05, 0x65, 0xD2] (by decide) (by decide)).2.1
        [⟨2, 1, ⟨0⟩, none, 0⟩] ⟨1, 1, ⟨0⟩, none, 0⟩ [⟨1, 1, ⟨0⟩, none, 0⟩] rfl
        (by decide) (by decide)).trans (by decide)⟩

/-- Counterexample to C9 as stated: the two-octet packet `00 00` is
checksum-valid and a dispatcher is registered under `(0, 0)`, its first two
octets, yet `wimod_process_packet` invokes no dispatcher (the packet is
shorter than 4 octets). -/
theorem c9_counterexample :
    u16_not (crc_ccitt 0xffff [0x00, 0x00]) = 0x0f47 ∧
    (some (0 : Nat) = ([0x00, 0x00] : List Nat).get? 0 ∧
      some (0 : Nat) = ([0x00, 0x00] : List Nat).get? 1) ∧
    wimod_process_packet (fun _ => true) [⟨0, 0, ⟨0⟩, none, 0⟩] [0x00, 0x00] =
      ([⟨0, 0, ⟨0⟩, none, 0⟩], []) ∧
    (wimod_receive_buf (fun _ => true) ⟨[], false, [⟨0, 0, ⟨0⟩, none, 0⟩]⟩
        [0xC0, 0x00, 0x00, 0xC0]).packets = [[0x00, 0x00]] := by
  decide

/-- C10 (as amended): for every checksum-valid packet of `n >= 4` octets
delivered to the earliest dispatcher registered under its first two octets,
whose completion is not signalled yet, and provided the `kzalloc` of the
`n - 4` octets of the copy succeeds, the result slot receives
`payload_len = n - 4` and `payload` equal to octets `2 .. n-3` of the packet:
the packet without its 2-octet header and its 2-octet checksum trailer, nothing
else changed; the completion is signalled and no other entry is touched. -/
theorem c10_payload_copy (kz : Int → Bool) (pre post : List wimod_hci_packet_completion)
    (e : wimod_hci_packet_completion) (data : List Nat)
    (hlen : 4 ≤ data.length) (hcrc : u16_not (crc_ccitt 0xffff data) = 0x0f47)
    (hpre : ∀ x ∈ pre, ¬ (some x.dst_id = data.get? 0 ∧ some x.msg_id = data.get? 1))
    (he : some e.dst_id = data.get? 0 ∧ some e.msg_id = data.get? 1)
    (hfresh : completion_done e.comp = false)
    (halloc : kz ((data.length : Int) - 4) = true) :
    wimod_process_packet kz (pre ++ e :: post) data =
      (pre ++ { e with payload_len := (data.length : Int) - 4,
                       payload := some ((data.drop 2).take (data.length - 4)),
                       comp := complete e.comp } :: post, [pre.length]) ∧
    data = data.take 2 ++ (data.drop 2).take (data.length - 4) ++ data.drop (data.length - 2) ∧
    ((data.drop 2).take (data.length - 4)).length = data.length - 4 := by
  have hsz : (data.length : Int) - 2 - 2 = (data.length : Int) - 4 := by omega
  have hnat : ((data.length : Int) - 4).toNat = data.length - 4 := by omega
  refine ⟨?_, ?_, ?_⟩
  · rw [wimod_process_packet_valid kz _ data hlen hcrc]
    rw [wimod_dispatch_loop_first kz data _ pre e post 0 hpre he]
    rw [dispatch_completion_fresh kz data _ e hfresh (by rw [hsz]; exact halloc)]
    rw [hsz, hnat]
    simp
  · have h1 : data.drop (data.length - 2) = (data.drop 2).drop (data.length - 4) := by
      rw [List.drop_drop]
      congr 1
      omega
    rw [h1, List.append_assoc, List.take_append_drop, List.take_append_drop]
  · simp only [List.length_take, List.length_drop]
    omega

/-- Witness of C10 on the packet `01 01 05 65 D2`. -/
theorem c10_payload_copy_witness :
    4 ≤ ([0x01, 0x01, 0x05, 0x65, 0xD2] : List Nat).length ∧
    u16_not (crc_ccitt 0xffff [0x01, 0x01, 0x05, 0x65, 0xD2]) = 0x0f47 ∧
    wimod_process_packet (fun _ => true) [⟨1, 1, ⟨0⟩, none, 0⟩]
        [0x01, 0x01, 0x05, 0x65, 0xD2] =
      ([⟨1, 1, ⟨1⟩, some [5], 1⟩], [0]) :=
  ⟨by decide, by decide,
    ((c10_payload_copy (fun _ => true) [] [] ⟨1, 1, ⟨0⟩, none, 0⟩
      [0x01, 0x01, 0x05, 0x65, 0xD2] (by decide) (by decide) (by decide) (by decide)
      (by decide) rfl).1).trans (by decide)⟩

/-- Counterexample to C10 as stated: the checksum-valid packet `01 01 05 65 D2`
of 5 octets is delivered to a matching dispatcher whose completion is not
signalled, yet `payload` stays NULL instead of holding octet 2 of the packet,
because `kzalloc` failed; `payload_len` is 1 and the completion is signalled. -/
theorem c10_counterexample :
    4 ≤ ([0x01, 0x01, 0x05, 0x65, 0xD2] : List Nat).length ∧
    u16_not (crc_ccitt 0xffff [0x01, 0x01, 0x05, 0x65, 0xD2]) = 0x0f47 ∧
    completion_done (⟨0⟩ : completion) = false ∧
    wimod_process_packet (fun _ => false) [⟨1, 1, ⟨0⟩, none, 0⟩]
        [0x01, 0x01, 0x05, 0x65, 0xD2] =
      ([⟨1, 1, ⟨1⟩, none, 1⟩], [0]) := by
  decide

end Wimod

/-! ### Text drivers: `mm002_receive_buf` and `usi_receive_buf` -/

theorem strends_append (pre lit : List Nat) : strends (pre ++ lit) lit = true := by
  simp [strends]

theorem strstarts_iff (str pfx : List Nat) :
    strstarts str pfx = true ↔ str.take pfx.length = pfx := by
  simp [strstarts]

namespace Mm002

/-- The buffer that `mm002_receive_buf` scans when it does not return early. -/
theorem mm002_receive_buf_scan (m : mm002_device) (data : List Nat)
    (hidle : Wimod.completion_done m.resp_recv_comp = false)
    (hroom : m.rx_buf.length ≠ 4095) :
    mm002_receive_buf m data =
      mm002_scan m.resp_recv_comp
        (m.rx_buf ++ data.take (min data.length (4095 - m.rx_buf.length)))
        (min data.length (4095 - m.rx_buf.length))
        (if min data.length (4095 - m.rx_buf.length) > 0 then
          [(m.rx_buf.length, min data.length (4095 - m.rx_buf.length))] else []) := by
  unfold mm002_receive_buf
  simp only [hidle, RX_BUF_SIZE]
  rw [if_neg (by simp), if_neg hroom]
  by_cases hi : min data.length (4095 - m.rx_buf.length) > 0
  · simp only [if_pos hi]
  · simp only [if_neg hi]
    have h0 : min data.length (4095 - m.rx_buf.length) = 0 := by omega
    rw [h0]
    simp

/-- The scan of a buffer that ends with a terminal token and is not a reset
banner. -/
theorem mm002_scan_tail (comp : Wimod.completion) (B : List Nat) (len : Nat)
    (w1 : List (Nat × Nat))
    (htail : (∃ pre, B = pre ++ OK_TAIL) ∨ (∃ pre, B = pre ++ ERROR_TAIL))
    (hbanner : ¬ (16 < B.length ∧ B.take 16 = RESET_BANNER)) :
    (mm002_scan comp B len w1).dev =
      ⟨if B.take 2 = CRLF then (B.take (B.length - 2)).drop 2 else B.take (B.length - 2),
        Wimod.complete comp⟩ ∧
    (mm002_scan comp B len w1).ret = len ∧
    (mm002_scan comp B len w1).resets = [] := by
  have hlen : 6 ≤ B.length := by
    rcases htail with ⟨pre, h⟩ | ⟨pre, h⟩ <;> rw [h] <;> simp [OK_TAIL, ERROR_TAIL]
  have hnul : ¬ (B.length > 2 ∧ strends B CRLF = true ∧ B.length = 3 ∧ B.get? 0 = some 0) := by
    intro h
    omega
  have hban : ¬ (B.length > 16 ∧ B.get? (B.length - 1) = some 10 ∧
      strstarts B RESET_BANNER = true) := by
    intro h
    apply hbanner
    refine ⟨h.1, ?_⟩
    have := (strstarts_iff B RESET_BANNER).mp h.2.2
    simpa [RESET_BANNER] using this
  have hok : (B.length ≥ 6 ∧ strends B OK_TAIL = true) ∨
      (B.length ≥ 9 ∧ strends B ERROR_TAIL = true) := by
    rcases htail with ⟨pre, h⟩ | ⟨pre, h⟩
    · left
      exact ⟨hlen, by rw [h]; exact strends_append pre OK_TAIL⟩
    · right
      refine ⟨by rw [h]; simp [ERROR_TAIL], by rw [h]; exact strends_append pre ERROR_TAIL⟩
  have htake : (B.take (B.length - 2)).take 2 = B.take 2 := by
    rw [List.take_take]
    congr 1
    omega
  unfold mm002_scan
  simp only [if_neg hnul, if_neg hban, if_pos hok]
  refine ⟨?_, trivial, trivial⟩
  simp only [strstarts, CRLF, List.length_cons, List.length_nil, htake, decide_eq_true_eq]

/-- The scan of a reset banner. -/
theorem mm002_scan_banner (comp : Wimod.completion) (v : List Nat) (len : Nat)
    (w1 : List (Nat × Nat)) :
    mm002_scan comp (RESET_BANNER ++ v ++ [10]) len w1 =
      ⟨⟨[], comp⟩, len, [v], w1 ++ [(16 + v.length, 1)]⟩ := by
  have hlen : (RESET_BANNER ++ v ++ [10]).length = 17 + v.length := by
    simp [RESET_BANNER]; omega
  have hnul : ¬ ((RESET_BANNER ++ v ++ [10]).length > 2 ∧
      strends (RESET_BANNER ++ v ++ [10]) CRLF = true ∧
      (RESET_BANNER ++ v ++ [10]).length = 3 ∧
      (RESET_BANNER ++ v ++ [10]).get? 0 = some 0) := by
    intro h
    omega
  have hban : (RESET_BANNER ++ v ++ [10]).length > 16 ∧
      (RESET_BANNER ++ v ++ [10]).get? ((RESET_BANNER ++ v ++ [10]).length - 1) = some 10 ∧
      strstarts (RESET_BANNER ++ v ++ [10]) RESET_BANNER = true := by
    refine ⟨by omega, ?_, ?_⟩
    · rw [hlen]
      have : 17 + v.length - 1 = (RESET_BANNER ++ v).length := by simp [RESET_BANNER]; omega
      rw [this, List.get?_eq_getElem?, List.getElem?_append_right (le_refl _)]
      simp
    · rw [strstarts_iff, List.append_assoc, List.take_left]
  have hres : ((RESET_BANNER ++ v ++ [10]).drop 16).take
      ((RESET_BANNER ++ v ++ [10]).length - 1 - 16) = v := by
    rw [hlen]
    have h16 : RESET_BANNER.length = 16 := by simp [RESET_BANNER]
    rw [List.append_assoc, ← h16, List.drop_left]
    have : RESET_BANNER.length + 1 + v.length - 1 - RESET_BANNER.length = v.length := by omega
    rw [show 17 + v.length - 1 - RESET_BANNER.length = v.length by rw [h16]; omega]
    rw [List.take_left]
  unfold mm002_scan
  simp only [if_neg hnul, if_pos hban]
  simp only [hres]
  simp only [hlen]
  simp

end Mm002

namespace Mm002

theorem mm002_scan_ret (comp : Wimod.completion) (buf1 : List Nat) (len : Nat)
    (w1 : List (Nat × Nat)) : (mm002_scan comp buf1 len w1).ret = len := by
  unfold mm002_scan
  simp only
  split_ifs <;> rfl

/-- A call made while a signal is pending, or with a full buffer, changes
nothing and consumes nothing. -/
theorem mm002_receive_buf_rejected (m : mm002_device) (data : List Nat)
    (h : Wimod.completion_done m.resp_recv_comp = true ∨ m.rx_buf.length = 4095) :
    mm002_receive_buf m data = ⟨m, 0, [], []⟩ := by
  unfold mm002_receive_buf
  by_cases hd : Wimod.completion_done m.resp_recv_comp = true
  · rw [if_pos hd]
  · rw [if_neg hd]
    rcases h with h | h
    · exact absurd h hd
    · rw [if_pos (by simpa [RX_BUF_SIZE] using h)]

/-- The return value of `mm002_receive_buf` when it does not return early. -/
theorem mm002_receive_buf_ret (m : mm002_device) (data : List Nat)
    (hidle : Wimod.completion_done m.resp_recv_comp = false)
    (hroom : m.rx_buf.length ≠ 4095) :
    (mm002_receive_buf m data).ret = min data.length (4095 - m.rx_buf.length) := by
  rw [mm002_receive_buf_scan m data hidle hroom, mm002_scan_ret]

/-- The bounds kept by the scan: the buffer does not grow and every store is
inside the array. -/
theorem mm002_scan_bounds (comp : Wimod.completion) (buf1 : List Nat) (len : Nat)
    (w1 : List (Nat × Nat)) (hbuf : buf1.length ≤ 4095)
    (hw : ∀ w ∈ w1, w.1 + w.2 ≤ 4096) :
    (mm002_scan comp buf1 len w1).dev.rx_buf.length ≤ buf1.length ∧
    ∀ w ∈ (mm002_scan comp buf1 len w1).writes, w.1 + w.2 ≤ 4096 := by
  unfold mm002_scan
  simp only
  split_ifs with h1 h2 h3 h4 h3 h4 h2 h3 h4 h3 h4 <;>
    simp only [List.length_take, List.length_drop, List.length_nil, List.forall_mem_append,
      List.forall_mem_singleton] <;>
    (try simp only [List.length_drop] at h2) <;>
    (try simp only [List.length_nil] at h3) <;>
    refine ⟨by omega, ?_⟩ <;>
    (try refine ⟨?_, ?_⟩) <;>
    (try refine ⟨?_, ?_⟩) <;>
    (try refine ⟨?_, ?_⟩) <;>
    (try refine ⟨?_, ?_⟩) <;>
    first
      | exact hw
      | omega

end Mm002

namespace Usi

theorem usi_scan_ret (pc tc : Wimod.completion) (buf1 : List Nat) (len : Nat)
    (w1 : List (Nat × Nat)) : (usi_scan pc tc buf1 len w1).ret = len := by
  unfold usi_scan
  split_ifs <;> rfl

/-- A call made while a signal is pending, or with a full buffer, changes
nothing and consumes nothing. -/
theorem usi_receive_buf_rejected (u : usi_device) (data : List Nat)
    (h : Wimod.completion_done u.prompt_recv_comp = true ∨
      Wimod.completion_done u.tx_event_recv_comp = true ∨ u.rx_buf.length = 4095) :
    usi_receive_buf u data = ⟨u, 0, [], [], []⟩ := by
  unfold usi_receive_buf
  by_cases hd : Wimod.completion_done u.prompt_recv_comp = true ∨
      Wimod.completion_done u.tx_event_recv_comp = true
  · rw [if_pos hd]
  · rw [if_neg hd]
    rcases h with h | h | h
    · exact absurd (Or.inl h) hd
    · exact absurd (Or.inr h) hd
    · rw [if_pos (by simpa [RX_BUF_SIZE] using h)]

/-- The buffer that `usi_receive_buf` scans when it does not return early. -/
theorem usi_receive_buf_scan (u : usi_device) (data : List Nat)
    (hidle1 : Wimod.completion_done u.prompt_recv_comp = false)
    (hidle2 : Wimod.completion_done u.tx_event_recv_comp = false)
    (hroom : u.rx_buf.length ≠ 4095) :
    usi_receive_buf u data =
      usi_scan u.prompt_recv_comp u.tx_event_recv_comp
        (u.rx_buf ++ data.take (min data.length (4095 - u.rx_buf.length)))
        (min data.length (4095 - u.rx_buf.length))
        (if min data.length (4095 - u.rx_buf.length) > 0 then
          [(u.rx_buf.length, min data.length (4095 - u.rx_buf.length))] else []) := by
  unfold usi_receive_buf
  simp only [hidle1, hidle2, RX_BUF_SIZE]
  rw [if_neg (by simp), if_neg hroom]
  by_cases hi : min data.length (4095 - u.rx_buf.length) > 0
  · simp only [if_pos hi]
  · simp only [if_neg hi]
    have h0 : min data.length (4095 - u.rx_buf.length) = 0 := by omega
    rw [h0]
    simp

/-- The return value of `usi_receive_buf` when it does not return early. -/
theorem usi_receive_buf_ret (u : usi_device) (data : List Nat)
    (hidle1 : Wimod.completion_done u.prompt_recv_comp = false)
    (hidle2 : Wimod.completion_done u.tx_event_recv_comp = false)
    (hroom : u.rx_buf.length ≠ 4095) :
    (usi_receive_buf u data).ret = min data.length (4095 - u.rx_buf.length) := by
  rw [usi_receive_buf_scan u data hidle1 hidle2 hroom, usi_scan_ret]

/-- The bounds kept by the scan: the buffer does not grow and every store is
inside the array. -/
theorem usi_scan_bounds (pc tc : Wimod.completion) (buf1 : List Nat) (len : Nat)
    (w1 : List (Nat × Nat)) (hbuf : buf1.length ≤ 4095)
    (hw : ∀ w ∈ w1, w.1 + w.2 ≤ 4096) :
    (usi_scan pc tc buf1 len w1).dev.rx_buf.length ≤ buf1.length ∧
    ∀ w ∈ (usi_scan pc tc buf1 len w1).writes, w.1 + w.2 ≤ 4096 := by
  unfold usi_scan
  split_ifs with h1 h2 h3 <;>
    simp only [List.length_take, List.length_drop, List.length_nil, List.length_set,
      List.forall_mem_append, List.forall_mem_singleton] <;>
    refine ⟨by omega, ?_⟩ <;>
    (try refine ⟨?_, ?_⟩) <;>
    first
      | exact hw
      | omega

end Usi

namespace Wimod

/-! ### The synchronous request: `wimod_hci_devmgmt_send_sync` -/

theorem dispatch_completion_key (kz : Int → Bool) (data : List Nat) (len : Int)
    (e : wimod_hci_packet_completion) :
    (wimod_hci_packet_dispatch_completion kz data len e).dst_id = e.dst_id ∧
    (wimod_hci_packet_dispatch_completion kz data len e).msg_id = e.msg_id := by
  unfold wimod_hci_packet_dispatch_completion
  split <;> exact ⟨rfl, rfl⟩

/-- The walk over a list with one more entry at its end: the entries in front
fare as they do without it. -/
theorem wimod_dispatch_loop_snoc (kz : Int → Bool) (data : List Nat) (len : Int)
    (e : wimod_hci_packet_completion) :
    ∀ (reg : List wimod_hci_packet_completion) (idx : Nat),
      ∃ e2, (wimod_dispatch_loop kz data len idx (reg ++ [e])).1 =
          (wimod_dispatch_loop kz data len idx reg).1 ++ [e2] ∧
        e2.dst_id = e.dst_id ∧ e2.msg_id = e.msg_id ∧
        (¬ (some e.dst_id = data.get? 0 ∧ some e.msg_id = data.get? 1) → e2 = e) := by
  intro reg
  induction reg with
  | nil =>
    intro idx
    simp only [List.nil_append, wimod_dispatch_loop]
    by_cases he : some e.dst_id = data.get? 0 ∧ some e.msg_id = data.get? 1
    · rw [if_pos he]
      exact ⟨_, rfl, (dispatch_completion_key kz data (len - 2) e).1,
        (dispatch_completion_key kz data (len - 2) e).2, fun h => absurd he h⟩
    · rw [if_neg he]
      exact ⟨e, rfl, rfl, rfl, fun _ => rfl⟩
  | cons x xs ih =>
    intro idx
    simp only [List.cons_append, wimod_dispatch_loop]
    by_cases hx : some x.dst_id = data.get? 0 ∧ some x.msg_id = data.get? 1
    · rw [if_pos hx, if_pos hx]
      exact ⟨e, rfl, rfl, rfl, fun _ => rfl⟩
    · rw [if_neg hx, if_neg hx]
      obtain ⟨e2, h1, h2, h3, h4⟩ := ih (idx + 1)
      exact ⟨e2, congrArg (List.cons x) h1, h2, h3, h4⟩

theorem wimod_dispatch_loop_keys (kz : Int → Bool) (data : List Nat) (len : Int) :
    ∀ (reg : List wimod_hci_packet_completion) (idx : Nat),
      (wimod_dispatch_loop kz data len idx reg).1.map (fun e => (e.dst_id, e.msg_id)) =
        reg.map (fun e => (e.dst_id, e.msg_id)) := by
  intro reg
  induction reg with
  | nil => intro idx; rfl
  | cons x xs ih =>
    intro idx
    simp only [wimod_dispatch_loop]
    split
    · simp only [List.map_cons, (dispatch_completion_key kz data (len - 2) x).1,
        (dispatch_completion_key kz data (len - 2) x).2]
    · simp only [List.map_cons, ih (idx + 1)]

theorem wimod_process_packet_keys (kz : Int → Bool) (reg : List wimod_hci_packet_completion)
    (pkt : List Nat) :
    (wimod_process_packet kz reg pkt).1.map (fun e => (e.dst_id, e.msg_id)) =
      reg.map (fun e => (e.dst_id, e.msg_id)) := by
  unfold wimod_process_packet
  simp only
  split
  · rfl
  · split
    · rfl
    · exact wimod_dispatch_loop_keys kz pkt _ reg 0

theorem wimod_process_packet_snoc (kz : Int → Bool) (reg : List wimod_hci_packet_completion)
    (e : wimod_hci_packet_completion) (pkt : List Nat) :
    ∃ e2, (wimod_process_packet kz (reg ++ [e]) pkt).1 =
        (wimod_process_packet kz reg pkt).1 ++ [e2] ∧
      e2.dst_id = e.dst_id ∧ e2.msg_id = e.msg_id ∧
      (¬ (some e.dst_id = pkt.get? 0 ∧ some e.msg_id = pkt.get? 1) → e2 = e) := by
  unfold wimod_process_packet
  simp only
  split
  · exact ⟨e, rfl, rfl, rfl, fun _ => rfl⟩
  · split
    · exact ⟨e, rfl, rfl, rfl, fun _ => rfl⟩
    · exact wimod_dispatch_loop_snoc kz pkt _ e reg 0

theorem wimod_process_packet_miss (kz : Int → Bool) (reg : List wimod_hci_packet_completion)
    (pkt : List Nat)
    (h : ∀ e ∈ reg, ¬ (some e.dst_id = pkt.get? 0 ∧ some e.msg_id = pkt.get? 1)) :
    (wimod_process_packet kz reg pkt).1 = reg := by
  unfold wimod_process_packet
  simp only
  split
  · rfl
  · split
    · rfl
    · rw [wimod_dispatch_loop_none kz pkt _ reg 0 h]

theorem wimod_rx_keys (kz : Int → Bool) (rx : List (List Nat)) :
    ∀ reg : List wimod_hci_packet_completion,
      (wimod_rx kz reg rx).map (fun e => (e.dst_id, e.msg_id)) =
        reg.map (fun e => (e.dst_id, e.msg_id)) := by
  induction rx with
  | nil => intro reg; rfl
  | cons pkt pkts ih =>
    intro reg
    simp only [wimod_rx, List.foldl_cons]
    have := ih (wimod_process_packet kz reg pkt).1
    simp only [wimod_rx] at this
    rw [this, wimod_process_packet_keys]

theorem wimod_rx_miss (kz : Int → Bool) (rx : List (List Nat)) :
    ∀ reg : List wimod_hci_packet_completion,
      (∀ pkt ∈ rx, ∀ e ∈ reg, ¬ (some e.dst_id = pkt.get? 0 ∧ some e.msg_id = pkt.get? 1)) →
      wimod_rx kz reg rx = reg := by
  induction rx with
  | nil => intro reg _; rfl
  | cons pkt pkts ih =>
    intro reg h
    simp only [wimod_rx, List.foldl_cons]
    rw [wimod_process_packet_miss kz reg pkt (h pkt (List.mem_cons_self pkt pkts))]
    have := ih reg (fun p hp => h p (List.mem_cons_of_mem pkt hp))
    simpa only [wimod_rx] using this

/-- The receive path seen from the entries registered before a request: they
fare as they do without the entry of the request, which stays last. -/
theorem wimod_rx_snoc (kz : Int → Bool) (rx : List (List Nat)) :
    ∀ (reg : List wimod_hci_packet_completion) (e : wimod_hci_packet_completion),
      ∃ e2, wimod_rx kz (reg ++ [e]) rx = wimod_rx kz reg rx ++ [e2] ∧
        e2.dst_id = e.dst_id ∧ e2.msg_id = e.msg_id ∧
        ((∀ pkt ∈ rx, ¬ (some e.dst_id = pkt.get? 0 ∧ some e.msg_id = pkt.get? 1)) →
          e2 = e) := by
  induction rx with
  | nil => intro reg e; exact ⟨e, rfl, rfl, rfl, fun _ => rfl⟩
  | cons pkt pkts ih =>
    intro reg e
    obtain ⟨e1, h1, hd1, hm1, hs1⟩ := wimod_process_packet_snoc kz reg e pkt
    obtain ⟨e2, h2, hd2, hm2, hs2⟩ := ih (wimod_process_packet kz reg pkt).1 e1
    refine ⟨e2, ?_, hd2.trans hd1, hm2.trans hm1, fun hmiss => ?_⟩
    · simp only [wimod_rx, List.foldl_cons] at h2 ⊢
      rw [h1, h2]
    · have he1 : e1 = e := hs1 (hmiss pkt (List.mem_cons_self pkt pkts))
      subst he1
      exact hs2 (fun p hp => hmiss p (List.mem_cons_of_mem pkt hp))

theorem wimod_rx_length (kz : Int → Bool) (rx : List (List Nat))
    (reg : List wimod_hci_packet_completion) : (wimod_rx kz reg rx).length = reg.length := by
  have := congrArg List.length (wimod_rx_keys kz rx reg)
  simpa using this

/-- The dispatcher list after `wimod_hci_devmgmt_send_sync`, whatever the exit:
the list before the call when the arguments are rejected, and otherwise the
list before the call as the receive path has left it meanwhile. -/
theorem wimod_hci_devmgmt_send_sync_registry (kz : Int → Bool) (rets : Nat → Int)
    (rx : List (List Nat)) (reg : List wimod_hci_packet_completion)
    (req_msg_id : Nat) (req_payload : List Nat) (rsp_msg_id : Nat)
    (rsp_payload rsp_payload_len : Bool) :
    (wimod_hci_devmgmt_send_sync kz rets rx reg req_msg_id req_payload rsp_msg_id
        rsp_payload rsp_payload_len).packet_dispatchers =
      if rsp_payload = true ∧ rsp_payload_len = false then reg else wimod_rx kz reg rx := by
  unfold wimod_hci_devmgmt_send_sync
  by_cases hargs : rsp_payload = true ∧ rsp_payload_len = false
  · rw [if_pos hargs, if_pos hargs]
  · rw [if_neg hargs, if_neg hargs]
    obtain ⟨e2, h2, _, _, _⟩ := wimod_rx_snoc kz rx reg ⟨DEVMGMT_ID, rsp_msg_id, ⟨0⟩, none, 0⟩
    have herase : wimod_hci_remove_dispatcher
        (wimod_rx kz (wimod_hci_add_dispatcher reg ⟨DEVMGMT_ID, rsp_msg_id, ⟨0⟩, none, 0⟩) rx)
        reg.length = wimod_rx kz reg rx := by
      unfold wimod_hci_remove_dispatcher wimod_hci_add_dispatcher
      rw [h2, ← wimod_rx_length kz rx reg]
      rw [List.eraseIdx_append_of_length_le (le_refl _)]
      simp
    simp only [herase]
    split_ifs <;> try rfl
    split <;> (try split_ifs) <;> rfl

end Wimod

namespace Wimod

/-! ### Overflow, bounds and redelivery of `wimod_receive_buf` -/

/-- The iteration on a plain octet outside an escape sequence. -/
theorem wimod_receive_step_plain (kz : Int → Bool) (w : wimod_device) (run : List Nat)
    (b : Nat) (hesc : w.rx_esc = false) (h1 : b ≠ 0xC0) (h2 : b ≠ 0xDB) :
    wimod_receive_step kz w run b = (w, 0, [], run ++ [b]) := by
  unfold wimod_receive_step
  simp [hesc, SLIP_END, SLIP_ESC, h1, h2]

/-- Plain octets that fill the room left in `rx_buf` are never consumed, and
nothing behind them is looked at. -/
theorem wimod_receive_loop_stuck (kz : Int → Bool) (g : List Nat) :
    ∀ (w : wimod_device) (len : Nat) (pk : List (List Nat)) (run rest : List Nat),
      w.rx_esc = false → (∀ b ∈ g, b ≠ 0xC0 ∧ b ≠ 0xDB) →
      610 ≤ w.rx_buf.length + run.length + g.length →
      wimod_receive_loop kz w len pk run (g ++ rest) = ⟨w, len, pk⟩ := by
  have hmax : WIMOD_HCI_PACKET_MAX = 610 := by decide
  induction g with
  | nil =>
    intro w len pk run rest _ _ hfull
    simp only [List.length_nil, Nat.add_zero] at hfull
    cases rest with
    | nil => simp [wimod_receive_loop]
    | cons b bs =>
      simp only [List.nil_append]
      rw [wimod_receive_loop_cons, if_pos (by rw [hmax]; omega)]
  | cons b bs ih =>
    intro w len pk run rest hesc hplain hfull
    simp only [List.length_cons] at hfull
    simp only [List.cons_append]
    rw [wimod_receive_loop_cons]
    by_cases hstop : ¬ (run.length < WIMOD_HCI_PACKET_MAX - w.rx_buf.length)
    · rw [if_pos hstop]
    · rw [if_neg hstop]
      have hb := hplain b (List.mem_cons_self b bs)
      rw [wimod_receive_step_plain kz w run b hesc hb.1 hb.2]
      simp only [Nat.add_zero, List.append_nil]
      exact ih w len pk (run ++ [b]) rest hesc
        (fun c hc => hplain c (List.mem_cons_of_mem b hc))
        (by simp only [List.length_append, List.length_cons, List.length_nil]; omega)

/-- A reassembler that has been handed plain octets beyond the room of `rx_buf`
consumes nothing any more, whatever follows. -/
theorem wimod_feed_stuck (kz : Int → Bool) (w : wimod_device) (g : List Nat)
    (chunks : List (List Nat)) (hesc : w.rx_esc = false)
    (hplain : ∀ b ∈ g, b ≠ 0xC0 ∧ b ≠ 0xDB) (hfull : 610 ≤ w.rx_buf.length + g.length) :
    (∀ rest, wimod_receive_buf kz w (g ++ rest) = ⟨w, 0, []⟩) ∧
    wimod_feed_chunks kz w [] [] (g :: chunks) = (w, g ++ chunks.flatten, []) := by
  have hall : ∀ rest, wimod_receive_buf kz w (g ++ rest) = ⟨w, 0, []⟩ := by
    intro rest
    unfold wimod_receive_buf
    exact wimod_receive_loop_stuck kz g w 0 [] [] rest hesc hplain (by simpa using hfull)
  refine ⟨hall, ?_⟩
  have hfeed := wimod_feed_chunks_eq kz (g :: chunks) w [] []
    (by simp [wimod_receive_buf, wimod_receive_loop])
  simp only [List.nil_append, List.flatten_cons] at hfeed
  rw [hfeed, hall]
  simp

/-- The bounds kept by one iteration of the loop: under the loop guard the
buffer stays within the array and the stores of the iteration are inside it. -/
theorem wimod_receive_step_bounds (kz : Int → Bool) (w : wimod_device) (run : List Nat)
    (b : Nat) (hguard : run.length < 610 - w.rx_buf.length) :
    (wimod_receive_step kz w run b).1.rx_buf.length ≤ 610 ∧
    ((wimod_receive_step kz w run b).2.2.2 = run ++ [b] →
      (wimod_receive_step kz w run b).1 = w) ∧
    ∀ x ∈ wimod_receive_step_writes w run b, x.1 + x.2 ≤ 610 := by
  unfold wimod_receive_step wimod_receive_step_writes
  by_cases hesc : w.rx_esc = true
  · simp only [hesc, if_true]
    refine ⟨?_, ?_, ?_⟩
    · split_ifs <;> (try simp only [List.length_append, List.length_cons, List.length_nil]) <;>
        omega
    · intro h
      exact absurd (congrArg List.length h) (by simp)
    · split_ifs <;> simp
      omega
  · by_cases hplain : b ≠ SLIP_END ∧ b ≠ SLIP_ESC
    · simp only [hesc, if_pos hplain, Bool.false_eq_true, if_false]
      refine ⟨by omega, fun _ => trivial, by simp⟩
    · simp only [hesc, if_neg hplain, Bool.false_eq_true, if_false, run_append_eq]
      refine ⟨?_, ?_, ?_⟩
      · split_ifs <;> simp only [List.length_append, List.length_nil] <;> omega
      · split_ifs <;> simp
      · split_ifs <;> simp
        omega

/-- The bounds kept by a run of the loop. -/
theorem wimod_receive_loop_bounds (kz : Int → Bool) (rest : List Nat) :
    ∀ (w : wimod_device) (len : Nat) (pk : List (List Nat)) (run : List Nat),
      w.rx_buf.length ≤ 610 →
      (wimod_receive_loop kz w len pk run rest).dev.rx_buf.length ≤ 610 ∧
      ∀ x ∈ wimod_receive_writes kz w run rest, x.1 + x.2 ≤ 610 := by
  have hmax : WIMOD_HCI_PACKET_MAX = 610 := by decide
  induction rest with
  | nil =>
    intro w len pk run hw
    simp [wimod_receive_loop, wimod_receive_writes, hw]
  | cons b bs ih =>
    intro w len pk run hw
    rw [wimod_receive_loop_cons, wimod_receive_writes]
    by_cases hstop : ¬ (run.length < WIMOD_HCI_PACKET_MAX - w.rx_buf.length)
    · rw [if_pos hstop, if_pos hstop]
      simp [hw]
    · rw [if_neg hstop, if_neg hstop]
      have hstep := wimod_receive_step_bounds kz w run b (by rw [hmax] at hstop; omega)
      have hrec := ih (wimod_receive_step kz w run b).1
        (len + (wimod_receive_step kz w run b).2.1)
        (pk ++ (wimod_receive_step kz w run b).2.2.1)
        (wimod_receive_step kz w run b).2.2.2 hstep.1
      refine ⟨hrec.1, ?_⟩
      intro x hx
      rcases List.mem_append.mp hx with hx | hx
      · exact hstep.2.2 x hx
      · exact hrec.2 x hx

/-- The bounds kept by a sequence of calls. -/
theorem wimod_run_bounds (kz : Int → Bool) (chunks : List (List Nat)) :
    ∀ w : wimod_device, w.rx_buf.length ≤ 610 →
      (wimod_run kz w chunks).1.rx_buf.length ≤ 610 ∧
      ∀ x ∈ (wimod_run kz w chunks).2, x.1 + x.2 ≤ 610 := by
  induction chunks with
  | nil => intro w hw; simp [wimod_run, hw]
  | cons c cs ih =>
    intro w hw
    simp only [wimod_run]
    have hcall := wimod_receive_loop_bounds kz c w 0 [] [] hw
    have hrec := ih (wimod_receive_buf kz w c).dev (by unfold wimod_receive_buf; exact hcall.1)
    refine ⟨hrec.1, ?_⟩
    intro x hx
    rcases List.mem_append.mp hx with hx | hx
    · exact hcall.2 x hx
    · exact hrec.2 x hx

/-- Redelivery lemma for the loop: either nothing was consumed and nothing
changed, or the octets consumed alone produce the same result. -/
theorem wimod_receive_loop_take (kz : Int → Bool) (rest : List Nat) :
    ∀ (w : wimod_device) (len : Nat) (pk : List (List Nat)) (run : List Nat),
      ((wimod_receive_loop kz w len pk run rest).ret = len ∧
        wimod_receive_loop kz w len pk run rest = ⟨w, len, pk⟩) ∨
      (len + run.length + 1 ≤ (wimod_receive_loop kz w len pk run rest).ret ∧
        wimod_receive_loop kz w len pk run
          (rest.take ((wimod_receive_loop kz w len pk run rest).ret - len - run.length)) =
          wimod_receive_loop kz w len pk run rest) := by
  induction rest with
  | nil => intro w len pk run; left; simp [wimod_receive_loop]
  | cons b bs ih =>
    intro w len pk run
    rw [wimod_receive_loop_cons]
    by_cases hstop : ¬ (run.length < WIMOD_HCI_PACKET_MAX - w.rx_buf.length)
    · rw [if_pos hstop]
      left
      exact ⟨rfl, rfl⟩
    · rw [if_neg hstop]
      rcases wimod_receive_step_cases kz w run b with ⟨hesc, hb1, hb2, hs⟩ | ⟨hc, hr⟩
      · rw [hs]
        simp only [Nat.add_zero, List.append_nil]
        rcases ih w len pk (run ++ [b]) with ⟨h1, h2⟩ | ⟨h1, h2⟩
        · left
          exact ⟨h1, h2⟩
        · right
          simp only [List.length_append, List.length_cons, List.length_nil] at h1 h2
          refine ⟨by omega, ?_⟩
          have hk : (wimod_receive_loop kz w len pk (run ++ [b]) bs).ret - len - run.length =
              ((wimod_receive_loop kz w len pk (run ++ [b]) bs).ret - len
                - (run.length + 1)) + 1 := by omega
          rw [hk, List.take_succ_cons, wimod_receive_loop_cons, if_neg hstop, hs]
          simp only [Nat.add_zero, List.append_nil]
          exact h2
      · rw [hc, hr]
        right
        have hge := (wimod_receive_loop_ret kz bs (wimod_receive_step kz w run b).1
          (len + (run.length + 1)) (pk ++ (wimod_receive_step kz w run b).2.2.1) []).1
        refine ⟨by omega, ?_⟩
        have hk : (wimod_receive_loop kz (wimod_receive_step kz w run b).1
            (len + (run.length + 1)) (pk ++ (wimod_receive_step kz w run b).2.2.1) [] bs).ret
              - len - run.length =
            ((wimod_receive_loop kz (wimod_receive_step kz w run b).1
              (len + (run.length + 1)) (pk ++ (wimod_receive_step kz w run b).2.2.1) [] bs).ret
              - (len + (run.length + 1)) - 0) + 1 := by omega
        rw [hk, List.take_succ_cons, wimod_receive_loop_cons, if_neg hstop, hc, hr]
        rcases ih (wimod_receive_step kz w run b).1 (len + (run.length + 1))
            (pk ++ (wimod_receive_step kz w run b).2.2.1) [] with ⟨h1, h2⟩ | ⟨_, h2⟩
        · rw [h1]
          simp only [Nat.sub_self, List.take_zero, wimod_receive_loop]
          rw [h2]
        · simp only [List.length_nil] at h2
          exact h2

/-- Redelivery lemma for `wimod_receive_buf`. -/
theorem wimod_receive_buf_take (kz : Int → Bool) (w : wimod_device) (data : List Nat) :
    (wimod_receive_buf kz w data).ret ≤ data.length ∧
    wimod_receive_buf kz w (data.take (wimod_receive_buf kz w data).ret) =
      wimod_receive_buf kz w data := by
  unfold wimod_receive_buf
  have hret := (wimod_receive_loop_ret kz data w 0 [] []).2
  refine ⟨by simpa using hret, ?_⟩
  rcases wimod_receive_loop_take kz data w 0 [] [] with ⟨h1, h2⟩ | ⟨_, h2⟩
  · rw [h1]
    simp only [List.take_zero, wimod_receive_loop]
    rw [h2]
  · simpa using h2

end Wimod

namespace Mm002

/-- The bounds kept by one call of `mm002_receive_buf`. -/
theorem mm002_receive_buf_bounds (m : mm002_device) (data : List Nat)
    (h : m.rx_buf.length ≤ 4095) :
    (mm002_receive_buf m data).dev.rx_buf.length ≤ 4095 ∧
    ∀ x ∈ (mm002_receive_buf m data).writes, x.1 + x.2 ≤ 4096 := by
  by_cases hrej : Wimod.completion_done m.resp_recv_comp = true ∨ m.rx_buf.length = 4095
  · rw [mm002_receive_buf_rejected m data hrej]
    simp [h]
  · have hidle : Wimod.completion_done m.resp_recv_comp = false := by
      cases hd : Wimod.completion_done m.resp_recv_comp
      · rfl
      · exact absurd (Or.inl hd) hrej
    have hroom : m.rx_buf.length ≠ 4095 := fun hr => hrej (Or.inr hr)
    rw [mm002_receive_buf_scan m data hidle hroom]
    have hlen : (m.rx_buf ++ data.take (min data.length (4095 - m.rx_buf.length))).length
        ≤ 4095 := by
      simp only [List.length_append, List.length_take]
      omega
    have hb := mm002_scan_bounds m.resp_recv_comp
      (m.rx_buf ++ data.take (min data.length (4095 - m.rx_buf.length)))
      (min data.length (4095 - m.rx_buf.length))
      (if min data.length (4095 - m.rx_buf.length) > 0 then
        [(m.rx_buf.length, min data.length (4095 - m.rx_buf.length))] else []) hlen
      (by
        split_ifs
        · simp only [List.forall_mem_singleton]
          omega
        · simp)
    exact ⟨le_trans hb.1 hlen, hb.2⟩

/-- The bounds kept by a sequence of deliveries and hand-offs. -/
theorem mm002_run_bounds (events : List link_event) :
    ∀ m : mm002_device, m.rx_buf.length ≤ 4095 →
      (mm002_run m events).1.rx_buf.length ≤ 4095 ∧
      ∀ x ∈ (mm002_run m events).2, x.1 + x.2 ≤ 4096 := by
  induction events with
  | nil => intro m hm; simp [mm002_run, hm]
  | cons e es ih =>
    intro m hm
    cases e with
    | receive chunk =>
      simp only [mm002_run]
      have hcall := mm002_receive_buf_bounds m chunk hm
      have hrec := ih (mm002_receive_buf m chunk).dev hcall.1
      refine ⟨hrec.1, ?_⟩
      intro x hx
      rcases List.mem_append.mp hx with hx | hx
      · exact hcall.2 x hx
      · exact hrec.2 x hx
    | hand_off =>
      simp only [mm002_run]
      exact ih (mm002_hand_off m) (by simp [mm002_hand_off])

/-- Redelivery lemma for `mm002_receive_buf`. -/
theorem mm002_receive_buf_take (m : mm002_device) (data : List Nat) :
    (mm002_receive_buf m data).ret ≤ data.length ∧
    mm002_receive_buf m (data.take (mm002_receive_buf m data).ret) =
      mm002_receive_buf m data := by
  by_cases hrej : Wimod.completion_done m.resp_recv_comp = true ∨ m.rx_buf.length = 4095
  · rw [mm002_receive_buf_rejected m data hrej]
    exact ⟨Nat.zero_le _, mm002_receive_buf_rejected m _ hrej⟩
  · have hidle : Wimod.completion_done m.resp_recv_comp = false := by
      cases hd : Wimod.completion_done m.resp_recv_comp
      · rfl
      · exact absurd (Or.inl hd) hrej
    have hroom : m.rx_buf.length ≠ 4095 := fun hr => hrej (Or.inr hr)
    rw [mm002_receive_buf_ret m data hidle hroom]
    refine ⟨Nat.min_le_left _ _, ?_⟩
    rw [mm002_receive_buf_scan m _ hidle hroom, mm002_receive_buf_scan m data hidle hroom]
    have hk : min (data.take (min data.length (4095 - m.rx_buf.length))).length
        (4095 - m.rx_buf.length) = min data.length (4095 - m.rx_buf.length) := by
      simp only [List.length_take]
      omega
    rw [hk, List.take_take, Nat.min_self]

end Mm002

namespace Usi

/-- The bounds kept by one call of `usi_receive_buf`. -/
theorem usi_receive_buf_bounds (u : usi_device) (data : List Nat)
    (h : u.rx_buf.length ≤ 4095) :
    (usi_receive_buf u data).dev.rx_buf.length ≤ 4095 ∧
    ∀ x ∈ (usi_receive_buf u data).writes, x.1 + x.2 ≤ 4096 := by
  by_cases hrej : Wimod.completion_done u.prompt_recv_comp = true ∨
      Wimod.completion_done u.tx_event_recv_comp = true ∨ u.rx_buf.length = 4095
  · rw [usi_receive_buf_rejected u data hrej]
    simp [h]
  · have hidle1 : Wimod.completion_done u.prompt_recv_comp = false := by
      cases hd : Wimod.completion_done u.prompt_recv_comp
      · rfl
      · exact absurd (Or.inl hd) hrej
    have hidle2 : Wimod.completion_done u.tx_event_recv_comp = false := by
      cases hd : Wimod.completion_done u.tx_event_recv_comp
      · rfl
      · exact absurd (Or.inr (Or.inl hd)) hrej
    have hroom : u.rx_buf.length ≠ 4095 := fun hr => hrej (Or.inr (Or.inr hr))
    rw [usi_receive_buf_scan u data hidle1 hidle2 hroom]
    have hlen : (u.rx_buf ++ data.take (min data.length (4095 - u.rx_buf.length))).length
        ≤ 4095 := by
      simp only [List.length_append, List.length_take]
      omega
    have hb := usi_scan_bounds u.prompt_recv_comp u.tx_event_recv_comp
      (u.rx_buf ++ data.take (min data.length (4095 - u.rx_buf.length)))
      (min data.length (4095 - u.rx_buf.length))
      (if min data.length (4095 - u.rx_buf.length) > 0 then
        [(u.rx_buf.length, min data.length (4095 - u.rx_buf.length))] else []) hlen
      (by
        split_ifs
        · simp only [List.forall_mem_singleton]
          omega
        · simp)
    exact ⟨le_trans hb.1 hlen, hb.2⟩

/-- The bounds kept by a sequence of deliveries and hand-offs. -/
theorem usi_run_bounds (events : List link_event) :
    ∀ u : usi_device, u.rx_buf.length ≤ 4095 →
      (usi_run u events).1.rx_buf.length ≤ 4095 ∧
      ∀ x ∈ (usi_run u events).2, x.1 + x.2 ≤ 4096 := by
  induction events with
  | nil => intro u hu; simp [usi_run, hu]
  | cons e es ih =>
    intro u hu
    cases e with
    | receive chunk =>
      simp only [usi_run]
      have hcall := usi_receive_buf_bounds u chunk hu
      have hrec := ih (usi_receive_buf u chunk).dev hcall.1
      refine ⟨hrec.1, ?_⟩
      intro x hx
      rcases List.mem_append.mp hx with hx | hx
      · exact hcall.2 x hx
      · exact hrec.2 x hx
    | hand_off =>
      simp only [usi_run]
      exact ih (usi_hand_off u) (by simp [usi_hand_off])

/-- Redelivery lemma for `usi_receive_buf`. -/
theorem usi_receive_buf_take (u : usi_device) (data : List Nat) :
    (usi_receive_buf u data).ret ≤ data.length ∧
    usi_receive_buf u (data.take (usi_receive_buf u data).ret) =
      usi_receive_buf u data := by
  by_cases hrej : Wimod.completion_done u.prompt_recv_comp = true ∨
      Wimod.completion_done u.tx_event_recv_comp = true ∨ u.rx_buf.length = 4095
  · rw [usi_receive_buf_rejected u data hrej]
    exact ⟨Nat.zero_le _, usi_receive_buf_rejected u _ hrej⟩
  · have hidle1 : Wimod.completion_done u.prompt_recv_comp = false := by
      cases hd : Wimod.completion_done u.prompt_recv_comp
      · rfl
      · exact absurd (Or.inl hd) hrej
    have hidle2 : Wimod.completion_done u.tx_event_recv_comp = false := by
      cases hd : Wimod.completion_done u.tx_event_recv_comp
      · rfl
      · exact absurd (Or.inr (Or.inl hd)) hrej
    have hroom : u.rx_buf.length ≠ 4095 := fun hr => hrej (Or.inr (Or.inr hr))
    rw [usi_receive_buf_ret u data hidle1 hidle2 hroom]
    refine ⟨Nat.min_le_left _ _, ?_⟩
    rw [usi_receive_buf_scan u _ hidle1 hidle2 hroom,
      usi_receive_buf_scan u data hidle1 hidle2 hroom]
    have hk : min (data.take (min data.length (4095 - u.rx_buf.length))).length
        (4095 - u.rx_buf.length) = min data.length (4095 - u.rx_buf.length) := by
      simp only [List.length_take]
      omega
    rw [hk, List.take_take, Nat.min_self]

end Usi

namespace Wimod

/-- C11: for every call of `wimod_hci_devmgmt_send_sync` and every outcome
(arguments rejected, transport write failed, wait timed out, response received
with a good or a bad status, even a NULL payload), the call leaves no entry of
its own behind: the dispatcher list after the call is the list before the
call, as the receive path has left the other entries meanwhile; it has the same
keys in the same order, and it equals the list before the call when no packet
for another entry has arrived.  When the arguments are accepted, the write
succeeds and no packet with the key `(DEVMGMT_ID, rsp_msg_id)` arrives, the
call returns `-ETIMEDOUT`. -/
theorem c11_registry_restored (kz : Int → Bool) (rets : Nat → Int)
    (rx : List (List Nat)) (reg : List wimod_hci_packet_completion)
    (req_msg_id : Nat) (req_payload : List Nat) (rsp_msg_id : Nat)
    (rsp_payload rsp_payload_len : Bool) :
    ((wimod_hci_devmgmt_send_sync kz rets rx reg req_msg_id req_payload rsp_msg_id
        rsp_payload rsp_payload_len).packet_dispatchers =
      if rsp_payload = true ∧ rsp_payload_len = false then reg else wimod_rx kz reg rx) ∧
    ((wimod_hci_devmgmt_send_sync kz rets rx reg req_msg_id req_payload rsp_msg_id
        rsp_payload rsp_payload_len).packet_dispatchers.map (fun e => (e.dst_id, e.msg_id)) =
      reg.map (fun e => (e.dst_id, e.msg_id))) ∧
    ((∀ pkt ∈ rx, ∀ e ∈ reg, ¬ (some e.dst_id = pkt.get? 0 ∧ some e.msg_id = pkt.get? 1)) →
      (wimod_hci_devmgmt_send_sync kz rets rx reg req_msg_id req_payload rsp_msg_id
        rsp_payload rsp_payload_len).packet_dispatchers = reg) ∧
    (¬ (rsp_payload = true ∧ rsp_payload_len = false) →
      (wimod_hci_send rets DEVMGMT_ID req_msg_id req_payload).1 = 0 →
      (∀ pkt ∈ rx, ¬ (some DEVMGMT_ID = pkt.get? 0 ∧ some rsp_msg_id = pkt.get? 1)) →
      (wimod_hci_devmgmt_send_sync kz rets rx reg req_msg_id req_payload rsp_msg_id
        rsp_payload rsp_payload_len).ret = some (-ETIMEDOUT)) := by
  have hreg := wimod_hci_devmgmt_send_sync_registry kz rets rx reg req_msg_id req_payload
    rsp_msg_id rsp_payload rsp_payload_len
  refine ⟨hreg, ?_, ?_, ?_⟩
  · rw [hreg]
    split
    · rfl
    · exact wimod_rx_keys kz rx reg
  · intro hmiss
    rw [hreg]
    split
    · rfl
    · exact wimod_rx_miss kz rx reg hmiss
  · intro hargs hsend hmiss
    obtain ⟨e2, h2, _, _, hsame⟩ :=
      wimod_rx_snoc kz rx reg ⟨DEVMGMT_ID, rsp_msg_id, ⟨0⟩, none, 0⟩
    have he2 := hsame hmiss
    subst he2
    have hget : (wimod_rx kz (wimod_hci_add_dispatcher reg
        ⟨DEVMGMT_ID, rsp_msg_id, ⟨0⟩, none, 0⟩) rx).getD reg.length
        ⟨DEVMGMT_ID, rsp_msg_id, ⟨0⟩, none, 0⟩ = ⟨DEVMGMT_ID, rsp_msg_id, ⟨0⟩, none, 0⟩ := by
      unfold wimod_hci_add_dispatcher
      rw [h2, ← wimod_rx_length kz rx reg]
      simp [List.getD_eq_getElem?_getD]
    unfold wimod_hci_devmgmt_send_sync
    rw [if_neg hargs]
    simp only [hget, hsend]
    rw [if_neg (by simp)]
    rw [if_pos (by simp [wait_for_completion_timeout])]

/-- Witness of C11: a ping on an idle link with no answer, next to another
pending request, and a call whose arguments are rejected. -/
theorem c11_registry_restored_witness :
    (wimod_hci_devmgmt_send_sync (fun _ => true) (fun _ => 0) [] [⟨1, 4, ⟨0⟩, none, 0⟩]
        0x01 [] 0x02 false false).ret = some (-ETIMEDOUT) ∧
    (wimod_hci_devmgmt_send_sync (fun _ => true) (fun _ => 0) [] [⟨1, 4, ⟨0⟩, none, 0⟩]
        0x01 [] 0x02 false false).packet_dispatchers = [⟨1, 4, ⟨0⟩, none, 0⟩] ∧
    (wimod_hci_devmgmt_send_sync (fun _ => true) (fun _ => 0) [] [⟨1, 4, ⟨0⟩, none, 0⟩]
        0x01 [] 0x02 true false).packet_dispatchers = [⟨1, 4, ⟨0⟩, none, 0⟩] :=
  ⟨(c11_registry_restored (fun _ => true) (fun _ => 0) [] [⟨1, 4, ⟨0⟩, none, 0⟩]
        0x01 [] 0x02 false false).2.2.2 (by decide) (by decide) (by decide),
    (c11_registry_restored (fun _ => true) (fun _ => 0) [] [⟨1, 4, ⟨0⟩, none, 0⟩]
        0x01 [] 0x02 false false).2.2.1 (by decide),
    (c11_registry_restored (fun _ => true) (fun _ => 0) [] [⟨1, 4, ⟨0⟩, none, 0⟩]
        0x01 [] 0x02 true false).2.2.1 (by decide)⟩

end Wimod

namespace Mm002

/-- C12: for every buffer content `B` of `mm002_receive_buf` (the buffer after
the chunk has been appended) that ends with "\r\nOK\r\n" or "\r\nERROR\r\n" and
is not consumed by the reset-banner rule, the response completion is signalled
and the delivered frame `rx_buf[0 .. rx_len)` is `B` without its last two
octets and, when `B` begins with "\r\n", without its first two octets as well;
nothing else is added, dropped or reordered, and no reset is reported. -/
theorem c12_response_frame (m : mm002_device) (data B : List Nat)
    (hidle : Wimod.completion_done m.resp_recv_comp = false)
    (hroom : m.rx_buf.length ≠ 4095)
    (hB : B = m.rx_buf ++ data.take (min data.length (4095 - m.rx_buf.length)))
    (htail : (∃ pre, B = pre ++ [13, 10, 79, 75, 13, 10]) ∨
      (∃ pre, B = pre ++ [13, 10, 69, 82, 82, 79, 82, 13, 10]))
    (hbanner : ¬ (16 < B.length ∧ B.take 16 = RESET_BANNER)) :
    (mm002_receive_buf m data).dev.resp_recv_comp = Wimod.complete m.resp_recv_comp ∧
    (mm002_receive_buf m data).dev.rx_buf =
      (if B.take 2 = [13, 10] then (B.take (B.length - 2)).drop 2
        else B.take (B.length - 2)) ∧
    (mm002_receive_buf m data).resets = [] := by
  rw [mm002_receive_buf_scan m data hidle hroom, ← hB]
  have h := mm002_scan_tail m.resp_recv_comp B (min data.length (4095 - m.rx_buf.length))
    (if min data.length (4095 - m.rx_buf.length) > 0 then
      [(m.rx_buf.length, min data.length (4095 - m.rx_buf.length))] else []) htail hbanner
  refine ⟨by rw [h.1], by rw [h.1]; rfl, h.2.2⟩

/-- Witness of C12: the response "\r\n+V\r\nOK\r\n" delivered in one chunk to an
idle reassembler gives the frame "+V\r\nOK". -/
theorem c12_response_frame_witness :
    Wimod.completion_done (⟨0⟩ : Wimod.completion) = false ∧
    (mm002_receive_buf ⟨[], ⟨0⟩⟩ [13, 10, 43, 86, 13, 10, 79, 75, 13, 10]).dev.rx_buf =
      [43, 86, 13, 10, 79, 75] ∧
    (mm002_receive_buf ⟨[], ⟨0⟩⟩ [13, 10, 43, 86, 13, 10, 79, 75, 13, 10]).dev.resp_recv_comp =
      ⟨1⟩ :=
  ⟨by decide,
    (c12_response_frame ⟨[], ⟨0⟩⟩ [13, 10, 43, 86, 13, 10, 79, 75, 13, 10]
      [13, 10, 43, 86, 13, 10, 79, 75, 13, 10] (by decide) (by decide) (by decide)
      (Or.inl ⟨[13, 10, 43, 86], by decide⟩) (by decide)).2.1.trans (by decide),
    (c12_response_frame ⟨[], ⟨0⟩⟩ [13, 10, 43, 86, 13, 10, 79, 75, 13, 10]
      [13, 10, 43, 86, 13, 10, 79, 75, 13, 10] (by decide) (by decide) (by decide)
      (Or.inl ⟨[13, 10, 43, 86], by decide⟩) (by decide)).1.trans (by decide)⟩

/-- C13 (as amended): from an empty, idle reassembler, the delivery of the 9
octets "foo\r\nOK\r\n" signals the response completion at once and leaves the
frame "foo\r\nOK" (the buffer without its trailing "\r\n"); the delivery of
"\r\n" that follows is refused while the frame is unclaimed (it returns 0 and
changes nothing), and after the hand-off it is stored without any frame being
emitted. -/
theorem c13_foo_ok_scenario :
    mm002_receive_buf ⟨[], ⟨0⟩⟩ [102, 111, 111, 13, 10, 79, 75, 13, 10] =
      ⟨⟨[102, 111, 111, 13, 10, 79, 75], ⟨1⟩⟩, 9, [], [(0, 9), (7, 1)]⟩ ∧
    mm002_receive_buf ⟨[102, 111, 111, 13, 10, 79, 75], ⟨1⟩⟩ [13, 10] =
      ⟨⟨[102, 111, 111, 13, 10, 79, 75], ⟨1⟩⟩, 0, [], []⟩ ∧
    mm002_receive_buf (mm002_hand_off ⟨[102, 111, 111, 13, 10, 79, 75], ⟨1⟩⟩) [13, 10] =
      ⟨⟨[13, 10], ⟨0⟩⟩, 2, [], [(0, 2)]⟩ := by
  decide

/-- Counterexample to C13 as stated: after the first delivery alone the
completion is signalled, so a frame is emitted before the second delivery, and
that frame is not "foo"; the second delivery signals nothing. -/
theorem c13_counterexample :
    Wimod.completion_done
      (mm002_receive_buf ⟨[], ⟨0⟩⟩
        [102, 111, 111, 13, 10, 79, 75, 13, 10]).dev.resp_recv_comp = true ∧
    (mm002_receive_buf ⟨[], ⟨0⟩⟩ [102, 111, 111, 13, 10, 79, 75, 13, 10]).dev.rx_buf ≠
      [102, 111, 111] ∧
    (mm002_receive_buf
      (mm002_receive_buf ⟨[], ⟨0⟩⟩ [102, 111, 111, 13, 10, 79, 75, 13, 10]).dev
      [13, 10]).dev =
      (mm002_receive_buf ⟨[], ⟨0⟩⟩ [102, 111, 111, 13, 10, 79, 75, 13, 10]).dev := by
  decide

/-- C14: for every buffer content of `mm002_receive_buf` that begins with the 16
octets "\r\n+DEBUG: START,", is longer than 16 octets and ends with '\n', the
call passes the octets `v` between that beginning and the final '\n' to
`mm002_handle_reset` (as a C string they read as `v` when none of them is
NUL), does not signal the response completion, which stays not signalled for a
command that waits, and leaves `rx_len = 0`. -/
theorem c14_reset_banner (m : mm002_device) (data v : List Nat)
    (hidle : Wimod.completion_done m.resp_recv_comp = false)
    (hroom : m.rx_buf.length ≠ 4095)
    (hB : m.rx_buf ++ data.take (min data.length (4095 - m.rx_buf.length)) =
      [13, 10, 43, 68, 69, 66, 85, 71, 58, 32, 83, 84, 65, 82, 84, 44] ++ v ++ [10]) :
    (mm002_receive_buf m data).resets = [v] ∧
    ((∀ c ∈ v, c ≠ 0) → cstr v = v) ∧
    (mm002_receive_buf m data).dev.resp_recv_comp = m.resp_recv_comp ∧
    Wimod.completion_done (mm002_receive_buf m data).dev.resp_recv_comp = false ∧
    (mm002_receive_buf m data).dev.rx_buf = [] := by
  rw [mm002_receive_buf_scan m data hidle hroom, hB]
  have h := mm002_scan_banner m.resp_recv_comp v (min data.length (4095 - m.rx_buf.length))
    (if min data.length (4095 - m.rx_buf.length) > 0 then
      [(m.rx_buf.length, min data.length (4095 - m.rx_buf.length))] else [])
  simp only [RESET_BANNER] at h
  rw [h]
  refine ⟨rfl, fun hv => ?_, rfl, hidle, rfl⟩
  unfold cstr
  rw [List.takeWhile_eq_self_iff]
  intro c hc
  simpa using hv c hc

/-- Witness of C14: the banner "\r\n+DEBUG: START,v1.0\n" in one chunk. -/
theorem c14_reset_banner_witness :
    Wimod.completion_done (⟨0⟩ : Wimod.completion) = false ∧
    (mm002_receive_buf ⟨[], ⟨0⟩⟩
      [13, 10, 43, 68, 69, 66, 85, 71, 58, 32, 83, 84, 65, 82, 84, 44,
        118, 49, 46, 48, 10]).resets = [[118, 49, 46, 48]] ∧
    (mm002_receive_buf ⟨[], ⟨0⟩⟩
      [13, 10, 43, 68, 69, 66, 85, 71, 58, 32, 83, 84, 65, 82, 84, 44,
        118, 49, 46, 48, 10]).dev.rx_buf = [] :=
  ⟨by decide,
    (c14_reset_banner ⟨[], ⟨0⟩⟩
      [13, 10, 43, 68, 69, 66, 85, 71, 58, 32, 83, 84, 65, 82, 84, 44, 118, 49, 46, 48, 10]
      [118, 49, 46, 48] (by decide) (by decide) (by decide)).1,
    (c14_reset_banner ⟨[], ⟨0⟩⟩
      [13, 10, 43, 68, 69, 66, 85, 71, 58, 32, 83, 84, 65, 82, 84, 44, 118, 49, 46, 48, 10]
      [118, 49, 46, 48] (by decide) (by decide) (by decide)).2.2.2.2⟩

end Mm002

namespace Mm002

/-- C15 (failing input): a frame is completed and signalled, the command that
waits for it is woken, which consumes the signal, and a chunk arrives before
the command has copied the frame and re-armed the completion (mm002.c:38-44,
usi.c:50-62): `mm002_receive_buf` and `usi_receive_buf` do not return 0, they
append the chunk to the unclaimed frame, over its terminating NUL. -/
theorem c15_unclaimed_frame_extended :
    mm002_receive_buf ⟨[], ⟨0⟩⟩ [102, 111, 111, 13, 10, 79, 75, 13, 10] =
      ⟨⟨[102, 111, 111, 13, 10, 79, 75], ⟨1⟩⟩, 9, [], [(0, 9), (7, 1)]⟩ ∧
    Wimod.wait_for_completion_timeout ⟨1⟩ = (⟨0⟩, true) ∧
    mm002_receive_buf ⟨[102, 111, 111, 13, 10, 79, 75], ⟨0⟩⟩ [120] =
      ⟨⟨[102, 111, 111, 13, 10, 79, 75, 120], ⟨0⟩⟩, 1, [], [(7, 1)]⟩ ∧
    Usi.usi_receive_buf ⟨[], ⟨0⟩, ⟨0⟩⟩ [79, 75, 13, 10, 13, 35, 32] =
      ⟨⟨[79, 75, 13, 10], ⟨1⟩, ⟨0⟩⟩, 7, [], [], [(0, 7), (4, 1)]⟩ ∧
    Usi.usi_receive_buf ⟨[79, 75, 13, 10], ⟨0⟩, ⟨0⟩⟩ [120] =
      ⟨⟨[79, 75, 13, 10, 120], ⟨0⟩, ⟨0⟩⟩, 1, [], [], [(4, 1)]⟩ := by
  decide

/-- C16 (as amended): when the assembly buffer is already at capacity
(`rx_len = 4095`), `mm002_receive_buf` and `usi_receive_buf` append none of
the octets of the chunk, signal no completion and return 0.  A chunk that
does not fit entirely (`rx_len < 4095 < rx_len + count`), arriving when no
signal is pending, is cut and not dropped: its first `4095 - rx_len` octets
are appended and counted in the return value, and the buffer so filled is
scanned for the terminal patterns as usual. -/
theorem c16_overflow (m : mm002_device) (u : Usi.usi_device) (data : List Nat) :
    (m.rx_buf.length = 4095 → mm002_receive_buf m data = ⟨m, 0, [], []⟩) ∧
    (u.rx_buf.length = 4095 → Usi.usi_receive_buf u data = ⟨u, 0, [], [], []⟩) ∧
    (Wimod.completion_done m.resp_recv_comp = false → m.rx_buf.length < 4095 →
      4095 < m.rx_buf.length + data.length →
      (mm002_receive_buf m data).ret = 4095 - m.rx_buf.length ∧
      mm002_receive_buf m data =
        mm002_scan m.resp_recv_comp (m.rx_buf ++ data.take (4095 - m.rx_buf.length))
          (4095 - m.rx_buf.length) [(m.rx_buf.length, 4095 - m.rx_buf.length)]) ∧
    (Wimod.completion_done u.prompt_recv_comp = false →
      Wimod.completion_done u.tx_event_recv_comp = false → u.rx_buf.length < 4095 →
      4095 < u.rx_buf.length + data.length →
      (Usi.usi_receive_buf u data).ret = 4095 - u.rx_buf.length ∧
      Usi.usi_receive_buf u data =
        Usi.usi_scan u.prompt_recv_comp u.tx_event_recv_comp
          (u.rx_buf ++ data.take (4095 - u.rx_buf.length))
          (4095 - u.rx_buf.length) [(u.rx_buf.length, 4095 - u.rx_buf.length)]) := by
  refine ⟨fun h => mm002_receive_buf_rejected m data (Or.inr h),
    fun h => Usi.usi_receive_buf_rejected u data (Or.inr (Or.inr h)), ?_, ?_⟩
  · intro hidle hlt hover
    have hmin : min data.length (4095 - m.rx_buf.length) = 4095 - m.rx_buf.length := by omega
    have hscan := mm002_receive_buf_scan m data hidle (by omega)
    rw [hmin] at hscan
    rw [if_pos (by omega)] at hscan
    exact ⟨by rw [hscan, mm002_scan_ret], hscan⟩
  · intro hidle1 hidle2 hlt hover
    have hmin : min data.length (4095 - u.rx_buf.length) = 4095 - u.rx_buf.length := by omega
    have hscan := Usi.usi_receive_buf_scan u data hidle1 hidle2 (by omega)
    rw [hmin] at hscan
    rw [if_pos (by omega)] at hscan
    exact ⟨by rw [hscan, Usi.usi_scan_ret], hscan⟩

/-- Witness of C16: with 4094 octets in the buffer, a chunk of two octets is cut
to its first octet. -/
theorem c16_overflow_witness :
    (List.replicate 4094 65).length < 4095 ∧
    4095 < (List.replicate 4094 65).length + [66, 67].length ∧
    (mm002_receive_buf ⟨List.replicate 4094 65, ⟨0⟩⟩ [66, 67]).ret = 1 :=
  ⟨by rw [List.length_replicate]; decide, by rw [List.length_replicate]; decide,
    (((c16_overflow ⟨List.replicate 4094 65, ⟨0⟩⟩ ⟨[], ⟨0⟩, ⟨0⟩⟩ [66, 67]).2.2.1 (by decide)
      (by simp only [List.length_replicate]; decide)
      (by simp only [List.length_replicate]; decide)).1).trans
      (by simp only [List.length_replicate])⟩

/-- A chunk that overflows the buffer and carries a terminal token in the part
that fits: the part is appended and the frame is completed. -/
theorem mm002_overflow_completes (pre : List Nat) (hlen : pre.length = 4089)
    (hban : pre.take 16 ≠ RESET_BANNER) (hcrlf : pre.take 2 ≠ CRLF) :
    (mm002_receive_buf ⟨pre, ⟨0⟩⟩ [13, 10, 79, 75, 13, 10, 88]).ret = 6 ∧
    (mm002_receive_buf ⟨pre, ⟨0⟩⟩ [13, 10, 79, 75, 13, 10, 88]).dev =
      ⟨pre ++ [13, 10, 79, 75], ⟨1⟩⟩ := by
  have hscan := mm002_receive_buf_scan ⟨pre, ⟨0⟩⟩
    [13, 10, 79, 75, 13, 10, 88] rfl (by simp only [hlen]; decide)
  simp only [hlen, List.length_cons, List.length_nil] at hscan
  have hmin : min (0 + 1 + 1 + 1 + 1 + 1 + 1 + 1) (4095 - 4089) = 6 := by decide
  rw [hmin] at hscan
  have htake : List.take 6 [13, 10, 79, 75, 13, 10, 88] = OK_TAIL := by decide
  rw [htake] at hscan
  have hdev := mm002_scan_tail ⟨0⟩ (pre ++ OK_TAIL) 6
    (if 6 > 0 then [(4089, 6)] else []) (Or.inl ⟨_, rfl⟩)
    (by
      intro h
      apply hban
      have h2 := h.2
      rwa [List.take_append_of_le_length (by omega)] at h2)
  refine ⟨by rw [hscan, mm002_scan_ret], ?_⟩
  rw [hscan, hdev.1]
  rw [List.take_append_of_le_length (by omega), if_neg hcrlf]
  have hl : (pre ++ OK_TAIL).length - 2 = pre.length + 4 := by
    simp only [List.length_append, OK_TAIL, List.length_cons, List.length_nil]
    omega
  rw [hl, List.take_append_eq_append_take]
  simp [OK_TAIL, Wimod.complete]

/-- Counterexample to C16 as stated: 4089 octets are in the buffer and the chunk
"\r\nOK\r\nX" of 7 octets would make it exceed 4095, yet `mm002_receive_buf`
appends the first 6 octets of the chunk, returns 6 and signals the response
completion. -/
theorem c16_counterexample :
    4095 < (List.replicate 4089 65).length + [13, 10, 79, 75, 13, 10, 88].length ∧
    (mm002_receive_buf ⟨List.replicate 4089 65, ⟨0⟩⟩ [13, 10, 79, 75, 13, 10, 88]).ret = 6 ∧
    (mm002_receive_buf ⟨List.replicate 4089 65, ⟨0⟩⟩ [13, 10, 79, 75, 13, 10, 88]).dev =
      ⟨List.replicate 4089 65 ++ [13, 10, 79, 75], ⟨1⟩⟩ := by
  have h := mm002_overflow_completes (List.replicate 4089 65) (List.length_replicate _ _)
    (by rw [List.take_replicate]; decide) (by rw [List.take_replicate]; decide)
  exact ⟨by rw [List.length_replicate]; decide, h.1, h.2⟩

end Mm002

namespace Wimod

/-- C17 (corrected): `wimod_receive_buf` has no recovery from overflow.  Outside
an escape sequence, once plain octets (neither 0xC0 nor 0xDB) fill the room left
in `rx_buf` (`rx_len` plus their number reaches 610), the call returns 0 and
changes nothing, whatever follows these octets in the chunk; and a caller that
resubmits the unconsumed octets in front of every later chunk keeps the same
device and never sees a packet handed to `wimod_process_packet`. -/
theorem c17_overflow_stuck (kz : Int → Bool) (w : wimod_device) (g : List Nat)
    (chunks : List (List Nat)) (hesc : w.rx_esc = false)
    (hplain : ∀ b ∈ g, b ≠ 0xC0 ∧ b ≠ 0xDB) (hfull : 610 ≤ w.rx_buf.length + g.length) :
    (∀ rest, wimod_receive_buf kz w (g ++ rest) = ⟨w, 0, []⟩) ∧
    (wimod_feed_chunks kz w [] [] (g :: chunks)).1 = w ∧
    (wimod_feed_chunks kz w [] [] (g :: chunks)).2.1 = g ++ chunks.flatten ∧
    (wimod_feed_chunks kz w [] [] (g :: chunks)).2.2 = [] := by
  have h := wimod_feed_stuck kz w g chunks hesc hplain hfull
  refine ⟨h.1, ?_, ?_, ?_⟩ <;> rw [h.2]

/-- Witness of C17: 610 octets 0x41 handed to an empty reassembler, then the
encoded ping frame. -/
theorem c17_overflow_stuck_witness :
    (∀ b ∈ List.replicate 610 0x41, b ≠ 0xC0 ∧ b ≠ 0xDB) ∧
    (wimod_feed_chunks (fun _ => true) ⟨[], false, []⟩ [] []
      [List.replicate 610 0x41, [0xC0, 0x01, 0x01, 0x16, 0x07, 0xC0]]).2.2 = [] :=
  ⟨fun b hb => by rw [List.eq_of_mem_replicate hb]; decide,
    (c17_overflow_stuck (fun _ => true) ⟨[], false, []⟩ (List.replicate 610 0x41)
      [[0xC0, 0x01, 0x01, 0x16, 0x07, 0xC0]] rfl
      (fun b hb => by rw [List.eq_of_mem_replicate hb]; decide)
      (by simp only [List.length_nil, List.length_replicate, Nat.zero_add, le_refl])).2.2.2⟩

/-- Counterexample to C17 as stated: the encoded ping frame `C0 01 01 16 07 C0`
handed to an empty reassembler gives the packet `01 01 16 07` to
`wimod_process_packet`; handed after 611 octets 0x41 without a delimiter, with
the unconsumed octets resubmitted, it gives no packet, and the 617 octets remain
unconsumed. -/
theorem c17_counterexample :
    (wimod_feed_chunks (fun _ => true) ⟨[], false, []⟩ [] []
      [[0xC0, 0x01, 0x01, 0x16, 0x07, 0xC0]]).2.2 = [[0x01, 0x01, 0x16, 0x07]] ∧
    (wimod_feed_chunks (fun _ => true) ⟨[], false, []⟩ [] []
      [List.replicate 611 0x41, [0xC0, 0x01, 0x01, 0x16, 0x07, 0xC0]]).2.2 = [] ∧
    (wimod_feed_chunks (fun _ => true) ⟨[], false, []⟩ [] []
      [List.replicate 611 0x41, [0xC0, 0x01, 0x01, 0x16, 0x07, 0xC0]]).2.1.length = 617 := by
  have h := (wimod_feed_stuck (fun _ => true) ⟨[], false, []⟩ (List.replicate 611 0x41)
    [[0xC0, 0x01, 0x01, 0x16, 0x07, 0xC0]] rfl
    (fun b hb => by rw [List.eq_of_mem_replicate hb]; decide)
    (by simp only [List.length_nil, List.length_replicate, Nat.zero_add]; decide)).2
  refine ⟨by decide, ?_, ?_⟩
  · rw [h]
  · rw [h]
    simp only [List.length_append, List.length_replicate]
    rfl

end Wimod

/-- C18: along every sequence of receive calls with arbitrary chunks, and of
command hand-offs for the text drivers, started with the assembly length within
bounds, the length stays within bounds (at most 610 for `wimod_receive_buf`, at
most 4095 for `mm002_receive_buf` and `usi_receive_buf`) and every store into
`rx_buf` (copied octets, unescaped octets, NUL terminators) lies inside the
array of 610, respectively 4096, octets. -/
theorem c18_rx_len_in_bounds (kz : Int → Bool) (w : Wimod.wimod_device)
    (chunks : List (List Nat)) (m : Mm002.mm002_device) (u : Usi.usi_device)
    (em eu : List link_event) (hw : w.rx_buf.length ≤ 610)
    (hm : m.rx_buf.length ≤ 4095) (hu : u.rx_buf.length ≤ 4095) :
    ((Wimod.wimod_run kz w chunks).1.rx_buf.length ≤ 610 ∧
      ∀ x ∈ (Wimod.wimod_run kz w chunks).2, x.1 + x.2 ≤ 610) ∧
    ((Mm002.mm002_run m em).1.rx_buf.length ≤ 4095 ∧
      ∀ x ∈ (Mm002.mm002_run m em).2, x.1 + x.2 ≤ 4096) ∧
    ((Usi.usi_run u eu).1.rx_buf.length ≤ 4095 ∧
      ∀ x ∈ (Usi.usi_run u eu).2, x.1 + x.2 ≤ 4096) :=
  ⟨Wimod.wimod_run_bounds kz chunks w hw, Mm002.mm002_run_bounds em m hm,
    Usi.usi_run_bounds eu u hu⟩

/-- Witness of C18: the three reassemblers started empty; the SLIP one is handed
an escaped frame in two chunks, the text ones a response, a hand-off and more
octets. -/
theorem c18_rx_len_in_bounds_witness :
    (Wimod.wimod_run (fun _ => true) ⟨[], false, []⟩
      [[0xC0, 0x01, 0xDB], [0xDC, 0x02, 0xC0]]).2 = [(0, 1), (1, 1), (2, 1)] ∧
    (Mm002.mm002_run ⟨[], ⟨0⟩⟩
      [link_event.receive [102, 111, 111, 13, 10, 79, 75, 13, 10], link_event.hand_off,
        link_event.receive [13, 10]]).2 = [(0, 9), (7, 1), (0, 2)] ∧
    ((Usi.usi_run ⟨[], ⟨0⟩, ⟨0⟩⟩
      [link_event.receive [79, 75, 13, 10, 13, 35, 32], link_event.hand_off,
        link_event.receive [13]]).1.rx_buf.length ≤ 4095 ∧
      ∀ x ∈ (Usi.usi_run ⟨[], ⟨0⟩, ⟨0⟩⟩
        [link_event.receive [79, 75, 13, 10, 13, 35, 32], link_event.hand_off,
          link_event.receive [13]]).2, x.1 + x.2 ≤ 4096) :=
  ⟨by decide, by decide,
    (c18_rx_len_in_bounds (fun _ => true) ⟨[], false, []⟩
      [[0xC0, 0x01, 0xDB], [0xDC, 0x02, 0xC0]] ⟨[], ⟨0⟩⟩ ⟨[], ⟨0⟩, ⟨0⟩⟩
      [link_event.receive [102, 111, 111, 13, 10, 79, 75, 13, 10], link_event.hand_off,
        link_event.receive [13, 10]]
      [link_event.receive [79, 75, 13, 10, 13, 35, 32], link_event.hand_off,
        link_event.receive [13]]
      (by decide) (by decide) (by decide)).2.2⟩

/-- C19: for each of `wimod_receive_buf`, `mm002_receive_buf` and
`usi_receive_buf`, every state and every chunk: the returned value is at most
the number of octets of the chunk, and the call on the first so many octets of
the chunk alone gives the same result (the same returned value, the same
device afterwards, the same frames given out), so the octets behind had no
effect. -/
theorem c19_redelivery (kz : Int → Bool) (w : Wimod.wimod_device)
    (m : Mm002.mm002_device) (u : Usi.usi_device) (data : List Nat) :
    ((Wimod.wimod_receive_buf kz w data).ret ≤ data.length ∧
      Wimod.wimod_receive_buf kz w (data.take (Wimod.wimod_receive_buf kz w data).ret) =
        Wimod.wimod_receive_buf kz w data) ∧
    ((Mm002.mm002_receive_buf m data).ret ≤ data.length ∧
      Mm002.mm002_receive_buf m (data.take (Mm002.mm002_receive_buf m data).ret) =
        Mm002.mm002_receive_buf m data) ∧
    ((Usi.usi_receive_buf u data).ret ≤ data.length ∧
      Usi.usi_receive_buf u (data.take (Usi.usi_receive_buf u data).ret) =
        Usi.usi_receive_buf u data) :=
  ⟨Wimod.wimod_receive_buf_take kz w data, Mm002.mm002_receive_buf_take m data,
    Usi.usi_receive_buf_take u data⟩

namespace Sx128x

/-! ### The status byte of the SX128x -/

set_option maxRecDepth 100000 in
theorem sx128x_status_table :
    ∀ status < 256,
      ((status >>> 2) &&& 7 = 3 → sx128x_status_to_errno status = -ETIMEDOUT) ∧
      ((status >>> 2) &&& 7 = 4 → sx128x_status_to_errno status = -EINVAL) ∧
      ((status >>> 2) &&& 7 = 5 → sx128x_status_to_errno status = -EOPNOTSUPP) ∧
      ((status >>> 2) &&& 7 ≠ 3 → (status >>> 2) &&& 7 ≠ 4 → (status >>> 2) &&& 7 ≠ 5 →
        sx128x_status_to_errno status = 0) := by
  decide

/-- C20 (as amended): for every status byte, `sx128x_status_to_errno` returns
`-ETIMEDOUT` when the command-status field (bits 4..2) is 3, `-EINVAL` when it
is 4, `-EOPNOTSUPP` when it is 5, and 0 for every other value of the field (0,
1, 2, 6 and 7); so a non-zero return value is always one of these three typed
reasons, and 0 is returned exactly when the field is not 3, 4 or 5. -/
theorem c20_status_to_errno (status : Nat) (h : status < 256) :
    ((status >>> 2) &&& 7 = 3 → sx128x_status_to_errno status = -ETIMEDOUT) ∧
    ((status >>> 2) &&& 7 = 4 → sx128x_status_to_errno status = -EINVAL) ∧
    ((status >>> 2) &&& 7 = 5 → sx128x_status_to_errno status = -EOPNOTSUPP) ∧
    ((status >>> 2) &&& 7 ≠ 3 → (status >>> 2) &&& 7 ≠ 4 → (status >>> 2) &&& 7 ≠ 5 →
      sx128x_status_to_errno status = 0) ∧
    (sx128x_status_to_errno status ≠ 0 →
      sx128x_status_to_errno status = -ETIMEDOUT ∨
      sx128x_status_to_errno status = -EINVAL ∨
      sx128x_status_to_errno status = -EOPNOTSUPP) := by
  obtain ⟨h3, h4, h5, h0⟩ := sx128x_status_table status h
  refine ⟨h3, h4, h5, h0, fun hne => ?_⟩
  by_cases c3 : (status >>> 2) &&& 7 = 3
  · exact Or.inl (h3 c3)
  · by_cases c4 : (status >>> 2) &&& 7 = 4
    · exact Or.inr (Or.inl (h4 c4))
    · by_cases c5 : (status >>> 2) &&& 7 = 5
      · exact Or.inr (Or.inr (h5 c5))
      · exact absurd (h0 c3 c4 c5) hne

/-- Witness of C20: the status byte 0x4C carries the field value 3 (time-out),
the status byte 0x44 the field value 1 (command processed). -/
theorem c20_status_to_errno_witness :
    (0x4C : Nat) < 256 ∧ sx128x_status_to_errno 0x4C = -ETIMEDOUT ∧
    sx128x_status_to_errno 0x44 = 0 :=
  ⟨by decide, (c20_status_to_errno 0x4C (by decide)).1 (by decide),
    (c20_status_to_errno 0x44 (by decide)).2.2.2.1 (by decide) (by decide) (by decide)⟩

/-- Counterexample to C20 as stated: in the status byte 0x04 the command-status
field (bits 4..2) is 1, which is not zero, and `sx128x_status_to_errno`
returns 0. -/
theorem c20_counterexample :
    (0x04 >>> 2) &&& 7 = 1 ∧ 0x04 &&& SX128X_STATUS_COMMAND_MASK ≠ 0 ∧
    sx128x_status_to_errno 0x04 = 0 := by
  decide

end Sx128x

namespace Wimod

/-! ### Delimiters, escapes and single fulfilment -/

/-- Delimiters on an empty buffer are consumed one by one and change nothing. -/
theorem wimod_receive_loop_delimiters (kz : Int → Bool)
    (reg : List wimod_hci_packet_completion) (n : Nat) :
    ∀ (len : Nat) (pk : List (List Nat)),
      wimod_receive_loop kz ⟨[], false, reg⟩ len pk [] (List.replicate n 0xC0) =
        ⟨⟨[], false, reg⟩, len + n, pk⟩ := by
  induction n with
  | zero => intro len pk; simp [wimod_receive_loop]
  | succ k ih =>
    intro len pk
    rw [List.replicate_succ, wimod_receive_loop_end_empty, ih]
    simp [Nat.add_assoc, Nat.add_comm 1 k]

/-- The escape flag is set only while there is room in `rx_buf`: one iteration of
the loop establishes this. -/
theorem wimod_receive_step_esc_room (kz : Int → Bool) (w : wimod_device) (run : List Nat)
    (b : Nat) (hguard : run.length < 610 - w.rx_buf.length) :
    (wimod_receive_step kz w run b).1.rx_esc = true →
      (wimod_receive_step kz w run b).1.rx_buf.length < 610 := by
  unfold wimod_receive_step
  by_cases hesc : w.rx_esc = true
  · simp [hesc]
  · by_cases hplain : b ≠ SLIP_END ∧ b ≠ SLIP_ESC
    · simp only [hesc, if_pos hplain, Bool.false_eq_true, if_false]
      exact fun h => absurd h (by simp)
    · simp only [hesc, if_neg hplain, Bool.false_eq_true, if_false]
      split_ifs <;> simp_all
      omega

/-- The same along a run of the loop. -/
theorem wimod_receive_loop_esc_room (kz : Int → Bool) (rest : List Nat) :
    ∀ (w : wimod_device) (len : Nat) (pk : List (List Nat)) (run : List Nat),
      (w.rx_esc = true → w.rx_buf.length < 610) →
      (wimod_receive_loop kz w len pk run rest).dev.rx_esc = true →
        (wimod_receive_loop kz w len pk run rest).dev.rx_buf.length < 610 := by
  have hmax : WIMOD_HCI_PACKET_MAX = 610 := by decide
  induction rest with
  | nil =>
    intro w len pk run hinv
    simpa [wimod_receive_loop] using hinv
  | cons b bs ih =>
    intro w len pk run hinv
    rw [wimod_receive_loop_cons]
    by_cases hstop : ¬ (run.length < WIMOD_HCI_PACKET_MAX - w.rx_buf.length)
    · rw [if_pos hstop]
      exact hinv
    · rw [if_neg hstop]
      exact ih _ _ _ _
        (wimod_receive_step_esc_room kz w run b (by rw [hmax] at hstop; omega))

/-- The same along a sequence of calls. -/
theorem wimod_run_esc_room (kz : Int → Bool) (chunks : List (List Nat)) :
    ∀ w : wimod_device, (w.rx_esc = true → w.rx_buf.length < 610) →
      (wimod_run kz w chunks).1.rx_esc = true →
        (wimod_run kz w chunks).1.rx_buf.length < 610 := by
  induction chunks with
  | nil => intro w hw; simpa [wimod_run] using hw
  | cons c cs ih =>
    intro w hw
    simp only [wimod_run]
    exact ih _ (by unfold wimod_receive_buf; exact wimod_receive_loop_esc_room kz c w 0 [] [] hw)

/-- The first iteration of a call made with the escape flag set and an octet
that is no substitute. -/
theorem wimod_receive_loop_unknown_escape (kz : Int → Bool) (w : wimod_device)
    (len : Nat) (pk : List (List Nat)) (b : Nat) (rest : List Nat)
    (hesc : w.rx_esc = true) (hroom : w.rx_buf.length < 610)
    (hb1 : b ≠ 0xDC) (hb2 : b ≠ 0xDD) :
    wimod_receive_loop kz w len pk [] (b :: rest) =
      wimod_receive_loop kz ⟨w.rx_buf, false, w.packet_dispatchers⟩ (len + 1) pk [] rest := by
  have hmax : WIMOD_HCI_PACKET_MAX = 610 := by decide
  rw [wimod_receive_loop_cons, if_neg (by rw [hmax]; simp only [List.length_nil]; omega)]
  unfold wimod_receive_step
  simp [hesc, SLIP_ESC_END, SLIP_ESC_ESC, hb1, hb2]

end Wimod

/-! ### Prompt, chunked responses and late frames of the text drivers -/

theorem strends_iff (buf lit : List Nat) (hlen : lit.length ≤ buf.length) :
    strends buf lit = true ↔ ∃ pre, buf = pre ++ lit := by
  constructor
  · intro h
    refine ⟨buf.take (buf.length - lit.length), ?_⟩
    have hd : buf.drop (buf.length - lit.length) = lit := by simpa [strends] using h
    conv_lhs => rw [← List.take_append_drop (buf.length - lit.length) buf]
    rw [hd]
  · rintro ⟨pre, rfl⟩
    exact strends_append pre lit

namespace Usi

/-- The prompt rule of the scan: the command completion is signalled exactly
when the buffer ends with the prompt marker. -/
theorem usi_scan_prompt (pc tc : Wimod.completion) (B : List Nat) (len : Nat)
    (w1 : List (Nat × Nat)) :
    ((∃ F, B = F ++ PROMPT) →
      (usi_scan pc tc B len w1).dev = ⟨B.take (B.length - 3), Wimod.complete pc, tc⟩) ∧
    ((¬ ∃ F, B = F ++ PROMPT) → (usi_scan pc tc B len w1).dev.prompt_recv_comp = pc) := by
  refine ⟨?_, ?_⟩
  · intro h
    have hlen : 3 ≤ B.length := by
      obtain ⟨F, rfl⟩ := h
      simp [PROMPT]
    have hp : B.length ≥ 3 ∧ strends B PROMPT = true :=
      ⟨hlen, (strends_iff B PROMPT hlen).mpr h⟩
    unfold usi_scan
    rw [if_pos hp]
  · intro h
    have hp : ¬ (B.length ≥ 3 ∧ strends B PROMPT = true) := by
      intro hp
      exact h ((strends_iff B PROMPT hp.1).mp hp.2)
    unfold usi_scan
    rw [if_neg hp]
    split_ifs <;> rfl

end Usi

namespace Mm002

/-- The device that the scan leaves does not depend on the count it returns nor
on the log of stores it extends. -/
theorem mm002_scan_dev (comp : Wimod.completion) (B : List Nat) (len1 len2 : Nat)
    (w1 w2 : List (Nat × Nat)) :
    (mm002_scan comp B len1 w1).dev = (mm002_scan comp B len2 w2).dev := by
  unfold mm002_scan
  simp only
  split_ifs <;> rfl

/-- The scan of a buffer on which no rule fires. -/
theorem mm002_scan_quiet (comp : Wimod.completion) (B : List Nat) (len : Nat)
    (w1 : List (Nat × Nat)) (hnul : B.get? 0 ≠ some 0)
    (hban : ¬ (16 < B.length ∧ B.take 16 = RESET_BANNER))
    (hok : strends B OK_TAIL = false) (herr : strends B ERROR_TAIL = false) :
    mm002_scan comp B len w1 = ⟨⟨B, comp⟩, len, [], w1⟩ := by
  have hn : ¬ (B.length > 2 ∧ strends B CRLF = true ∧ B.length = 3 ∧ B.get? 0 = some 0) :=
    fun h => hnul h.2.2.2
  have hb : ¬ (B.length > 16 ∧ B.get? (B.length - 1) = some 10 ∧
      strstarts B RESET_BANNER = true) := by
    intro h
    apply hban
    refine ⟨h.1, ?_⟩
    have := (strstarts_iff B RESET_BANNER).mp h.2.2
    simpa [RESET_BANNER] using this
  have ht : ¬ ((B.length ≥ 6 ∧ strends B OK_TAIL = true) ∨
      (B.length ≥ 9 ∧ strends B ERROR_TAIL = true)) := by
    rw [hok, herr]
    simp
  unfold mm002_scan
  simp only [if_neg hn, if_neg hb, if_neg ht]

/-- A chunk after which no rule fires is appended and consumed entirely. -/
theorem mm002_receive_buf_quiet (P c : List Nat) (hlen : (P ++ c).length ≤ 4095)
    (hP : P.length < 4095) (hnul : (P ++ c).get? 0 ≠ some 0)
    (hban : ¬ (16 < (P ++ c).length ∧ (P ++ c).take 16 = RESET_BANNER))
    (hok : strends (P ++ c) OK_TAIL = false) (herr : strends (P ++ c) ERROR_TAIL = false) :
    (mm002_receive_buf ⟨P, ⟨0⟩⟩ c).dev = ⟨P ++ c, ⟨0⟩⟩ ∧
    (mm002_receive_buf ⟨P, ⟨0⟩⟩ c).ret = c.length := by
  have hmin : min c.length (4095 - P.length) = c.length := by
    simp only [List.length_append] at hlen
    omega
  rw [mm002_receive_buf_scan ⟨P, ⟨0⟩⟩ c rfl (by simp only; omega)]
  simp only [hmin, List.take_length]
  rw [mm002_scan_quiet _ _ _ _ hnul hban hok herr]
  exact ⟨rfl, rfl⟩

/-- Chunks offered while a signal is pending are refused. -/
theorem mm002_feed_chunks_pending (chunks : List (List Nat)) :
    ∀ (m : mm002_device) (pending : List Nat),
      Wimod.completion_done m.resp_recv_comp = true →
      mm002_feed_chunks m pending chunks = (m, pending ++ chunks.flatten) := by
  induction chunks with
  | nil => intro m pending _; simp [mm002_feed_chunks]
  | cons c cs ih =>
    intro m pending hm
    simp only [mm002_feed_chunks]
    rw [mm002_receive_buf_rejected m _ (Or.inl hm)]
    simp only [List.drop_zero]
    rw [ih m _ hm]
    simp

/-- The facts about a proper beginning of a response that make it quiet. -/
theorem mm002_response_prefix_quiet (R B : List Nat) (k : Nat) (hB : B = R.take k)
    (hnul : R.head? ≠ some 0) (hban : R.take 16 ≠ RESET_BANNER) :
    B.get? 0 ≠ some 0 ∧ ¬ (16 < B.length ∧ B.take 16 = RESET_BANNER) := by
  subst hB
  refine ⟨?_, ?_⟩
  · intro h
    apply hnul
    cases R with
    | nil => simp at h
    | cons a as =>
      cases k with
      | zero => simp at h
      | succ j => simpa using h
  · rintro ⟨h1, h2⟩
    apply hban
    rw [List.take_take] at h2
    simp only [List.length_take] at h1
    have hk : min 16 k = 16 := by omega
    rw [hk] at h2
    exact h2

/-- Chunks that together bring the buffer from a proper beginning of a response
to the whole response. -/
theorem mm002_feed_chunks_response (R : List Nat) (hlen : R.length ≤ 4095)
    (hterm : (∃ pre, R = pre ++ OK_TAIL) ∨ (∃ pre, R = pre ++ ERROR_TAIL))
    (hfirst : ∀ k < R.length, strends (R.take k) OK_TAIL = false ∧
      strends (R.take k) ERROR_TAIL = false)
    (hnul : R.head? ≠ some 0) (hban : R.take 16 ≠ RESET_BANNER)
    (chunks : List (List Nat)) :
    ∀ P : List Nat, P ++ chunks.flatten = R → P.length < R.length →
      mm002_feed_chunks ⟨P, ⟨0⟩⟩ [] chunks = ((mm002_scan ⟨0⟩ R 0 []).dev, []) := by
  induction chunks with
  | nil =>
    intro P hP hlt
    simp only [List.flatten_nil, List.append_nil] at hP
    rw [hP] at hlt
    exact absurd hlt (Nat.lt_irrefl _)
  | cons c cs ih =>
    intro P hP hlt
    simp only [List.flatten_cons] at hP
    simp only [mm002_feed_chunks, List.nil_append]
    have hPc : P ++ c = R.take (P ++ c).length := by
      rw [← hP, ← List.append_assoc, List.take_left]
    by_cases hlast : (P ++ c).length < R.length
    · have hq := mm002_response_prefix_quiet R (P ++ c) (P ++ c).length hPc hnul hban
      have hf := hfirst (P ++ c).length hlast
      rw [← hPc] at hf
      have hstep := mm002_receive_buf_quiet P c (by omega) (by omega) hq.1 hq.2 hf.1 hf.2
      rw [hstep.1, hstep.2, List.drop_length]
      exact ih (P ++ c) (by rw [List.append_assoc]; exact hP) hlast
    · have hfull : P ++ c = R := by
        have hle : (P ++ c).length ≤ R.length := by
          have hR := congrArg List.length hP
          simp only [List.length_append] at hR ⊢
          omega
        rw [hPc, List.take_of_length_le (by omega)]
      have hrest : cs.flatten = [] := by
        have h2 := hP
        rw [← List.append_assoc, hfull] at h2
        exact List.append_right_eq_self.mp h2
      have hbanner : ¬ (16 < R.length ∧ R.take 16 = RESET_BANNER) := fun h => hban h.2
      have hmin : min c.length (4095 - P.length) = c.length := by
        rw [← hfull, List.length_append] at hlen
        omega
      have hscan := mm002_receive_buf_scan ⟨P, ⟨0⟩⟩ c rfl (by simp only; omega)
      simp only [hmin, List.take_length, hfull] at hscan
      rw [hscan, mm002_scan_ret, List.drop_length]
      have hdone : Wimod.completion_done
          (mm002_scan ⟨0⟩ R c.length
            (if c.length > 0 then [(P.length, c.length)] else [])).dev.resp_recv_comp = true := by
        rw [(mm002_scan_tail ⟨0⟩ R _ _ hterm hbanner).1]
        rfl
      rw [mm002_feed_chunks_pending cs _ [] hdone, hrest]
      rw [mm002_scan_dev ⟨0⟩ R c.length 0 _ []]
      rfl

/-- Chunks that leave the buffer at a proper beginning of a response. -/
theorem mm002_feed_chunks_quiet (R : List Nat) (hlen : R.length ≤ 4095)
    (hfirst : ∀ k < R.length, strends (R.take k) OK_TAIL = false ∧
      strends (R.take k) ERROR_TAIL = false)
    (hnul : R.head? ≠ some 0) (hban : R.take 16 ≠ RESET_BANNER)
    (chunks : List (List Nat)) :
    ∀ P tail : List Nat, P ++ chunks.flatten ++ tail = R → tail ≠ [] →
      mm002_feed_chunks ⟨P, ⟨0⟩⟩ [] chunks = (⟨P ++ chunks.flatten, ⟨0⟩⟩, []) := by
  induction chunks with
  | nil => intro P tail _ _; simp [mm002_feed_chunks]
  | cons c cs ih =>
    intro P tail hP htail
    simp only [List.flatten_cons] at hP ⊢
    simp only [mm002_feed_chunks, List.nil_append]
    have hP2 : (P ++ c) ++ (cs.flatten ++ tail) = R := by
      rw [← hP]
      simp only [List.append_assoc]
    have hPc : P ++ c = R.take (P ++ c).length := by
      rw [← hP2, List.take_left]
    have hR := congrArg List.length hP2
    have htl : 0 < tail.length := List.length_pos.mpr htail
    simp only [List.length_append] at hR
    have hq := mm002_response_prefix_quiet R (P ++ c) (P ++ c).length hPc hnul hban
    have hf := hfirst (P ++ c).length (by simp only [List.length_append]; omega)
    rw [← hPc] at hf
    have hstep := mm002_receive_buf_quiet P c (by simp only [List.length_append]; omega)
      (by omega) hq.1 hq.2 hf.1 hf.2
    rw [hstep.1, hstep.2, List.drop_length]
    rw [ih (P ++ c) tail (by rw [← hP]; simp only [List.append_assoc]) htail,
      List.append_assoc]

end Mm002

namespace Rn2483

/-! ### The line reassembler of `rn2483_receive_buf` -/

theorem getLast?_append_singleton (xs : List Nat) (b : Nat) :
    (xs ++ [b]).getLast? = some b := by
  simp

/-- The line cut at a line end is the buffer and the run without the carriage
return. -/
theorem line_eq_dropLast (buf run : List Nat) (h : (buf ++ run).getLast? = some 13) :
    (if run.length > 1 then buf ++ run.take (run.length - 1) else buf).take
        ((buf.length : Int) + (run.length : Int) - 1).toNat = (buf ++ run).dropLast := by
  have hne : buf ++ run ≠ [] := by
    intro h0
    rw [h0] at h
    simp at h
  have hidx : ((buf.length : Int) + (run.length : Int) - 1).toNat =
      buf.length + run.length - 1 := by omega
  rw [hidx]
  rcases List.eq_nil_or_concat run with hrun | ⟨ys, y, hrun⟩
  · subst hrun
    simp only [List.length_nil, List.append_nil, Nat.add_zero]
    rw [if_neg (by decide), List.dropLast_eq_take]
  · rw [List.concat_eq_append] at hrun
    subst hrun
    by_cases hys : ys = []
    · subst hys
      simp [List.dropLast_concat]
    · have hl : 0 < ys.length := List.length_pos.mpr hys
      simp only [List.length_append, List.length_cons, List.length_nil]
      rw [if_pos (by omega)]
      rw [← List.append_assoc, List.dropLast_concat]
      have h1 : ys.length + 1 - 1 = ys.length := by omega
      rw [h1, List.take_left]
      rw [List.take_of_length_le (by simp only [List.length_append]; omega)]

/-- The loop of `rn2483_receive_buf`: the flag stays right, the lines handed over
and those still to come from the octets left are the lines of the input, and
the call consumes something. -/
theorem rn2483_receive_loop_lines (size : Nat) (buf : List Nat) (data : List Nat) :
    ∀ (saw_cr : Bool) (run : List Nat),
      saw_cr = decide ((buf ++ run).getLast? = some 13) →
      (rn2483_receive_loop size buf saw_cr run data).dev.saw_cr =
        decide ((buffered (rn2483_receive_loop size buf saw_cr run data).dev).getLast? =
          some 13) ∧
      (∀ ys, (rn2483_receive_loop size buf saw_cr run data).lines ++
          crlf_lines (buffered (rn2483_receive_loop size buf saw_cr run data).dev)
            ((run ++ data).drop (rn2483_receive_loop size buf saw_cr run data).ret ++ ys) =
        crlf_lines (buf ++ run) (data ++ ys)) ∧
      (rn2483_receive_loop size buf saw_cr run data).ret ≤ (run ++ data).length ∧
      (run ++ data ≠ [] → 0 < (rn2483_receive_loop size buf saw_cr run data).ret) := by
  induction data with
  | nil =>
    intro saw_cr run hcr
    simp only [rn2483_receive_loop, List.append_nil, List.drop_length, List.nil_append,
      buffered]
    refine ⟨hcr, fun _ => trivial, le_refl _, ?_⟩
    intro h
    exact List.length_pos.mpr h
  | cons b rest ih =>
    intro saw_cr run hcr
    rw [rn2483_receive_loop]
    by_cases hb : b = 13
    · rw [if_pos hb]
      have h := ih true (run ++ [b]) (by rw [← List.append_assoc, hb]; simp)
      have hcl : ∀ ys, crlf_lines (buf ++ run) (b :: rest ++ ys) =
          crlf_lines (buf ++ (run ++ [b])) (rest ++ ys) := by
        intro ys
        rw [List.cons_append, crlf_lines, if_neg (by rw [hb]; simp), List.append_assoc]
      simp only [List.append_assoc, List.singleton_append] at h ⊢
      refine ⟨h.1, fun ys => ?_, h.2.2.1, fun _ => h.2.2.2 (by simp)⟩
      rw [hcl ys]
      exact h.2.1 ys
    · rw [if_neg hb]
      by_cases hline : b = 10 ∧ saw_cr = true
      · rw [if_pos hline]
        have hlast : (buf ++ run).getLast? = some 13 := by
          have := hline.2
          rw [hcr] at this
          simpa using this
        have hcl : ∀ ys, crlf_lines (buf ++ run) (b :: rest ++ ys) =
            (buf ++ run).dropLast :: crlf_lines [] (rest ++ ys) := by
          intro ys
          rw [List.cons_append, crlf_lines, if_pos ⟨hline.1, hlast⟩]
        simp only [buffered, line_eq_dropLast buf run hlast]
        refine ⟨by simp, fun ys => ?_, ?_, fun _ => Nat.succ_pos _⟩
        · rw [hcl ys]
          simp
        · simp
      · rw [if_neg hline]
        have h := ih false (run ++ [b]) (by
          rw [← List.append_assoc, getLast?_append_singleton]
          simp [hb])
        have hcl : ∀ ys, crlf_lines (buf ++ run) (b :: rest ++ ys) =
            crlf_lines (buf ++ (run ++ [b])) (rest ++ ys) := by
          intro ys
          rw [List.cons_append, crlf_lines, if_neg, List.append_assoc]
          intro hc
          apply hline
          refine ⟨hc.1, ?_⟩
          rw [hcr]
          simpa using hc.2
        simp only [List.append_assoc, List.singleton_append] at h ⊢
        refine ⟨h.1, fun ys => ?_, h.2.2.1, fun _ => h.2.2.2 (by simp)⟩
        rw [hcl ys]
        exact h.2.1 ys

/-- The stores of the loop of `rn2483_receive_buf` are inside the allocation. -/
theorem rn2483_receive_loop_writes (size : Nat) (buf : List Nat) (data : List Nat) :
    ∀ (saw_cr : Bool) (run : List Nat),
      (saw_cr = true → buf ++ run ≠ []) →
      buf.length + run.length + data.length ≤ size →
      ∀ w ∈ (rn2483_receive_loop size buf saw_cr run data).writes,
        0 ≤ w.2.1 ∧ w.2.1 + (w.2.2 : Int) ≤ (w.1 : Int) := by
  induction data with
  | nil =>
    intro saw_cr run _ hsize w hw
    simp only [rn2483_receive_loop, List.mem_singleton] at hw
    subst hw
    simp only [List.length_nil] at hsize
    constructor <;> simp only <;> omega
  | cons b rest ih =>
    intro saw_cr run hcr hsize
    simp only [List.length_cons] at hsize
    rw [rn2483_receive_loop]
    by_cases hb : b = 13
    · rw [if_pos hb]
      exact ih true (run ++ [b]) (by simp)
        (by simp only [List.length_append, List.length_cons, List.length_nil]; omega)
    · rw [if_neg hb]
      by_cases hline : b = 10 ∧ saw_cr = true
      · rw [if_pos hline]
        have hpos : 0 < buf.length + run.length := by
          have := List.length_pos.mpr (hcr hline.2)
          simpa using this
        intro w hw
        simp only [List.mem_append, List.mem_singleton] at hw
        rcases hw with hw | hw
        · split_ifs at hw with hi
          · simp only [List.mem_singleton] at hw
            subst hw
            constructor <;> simp only <;> omega
          · simp at hw
        · subst hw
          constructor <;> simp only <;> omega
      · rw [if_neg hline]
        exact ih false (run ++ [b]) (by simp)
          (by simp only [List.length_append, List.length_cons, List.length_nil]; omega)

end Rn2483

namespace Rn2483

/-- One call of `rn2483_receive_buf`: the flag stays right, the lines handed over
and those still to come from the octets left are the lines of the input, and
the call consumes something when the allocation succeeds. -/
theorem rn2483_receive_buf_lines (kmalloc : Nat → Bool) (r : rn2483_device)
    (data : List Nat) (hr : r.saw_cr = decide ((buffered r).getLast? = some 13)) :
    (rn2483_receive_buf kmalloc r data).dev.saw_cr =
      decide ((buffered (rn2483_receive_buf kmalloc r data).dev).getLast? = some 13) ∧
    (∀ ys, (rn2483_receive_buf kmalloc r data).lines ++
        crlf_lines (buffered (rn2483_receive_buf kmalloc r data).dev)
          (data.drop (rn2483_receive_buf kmalloc r data).ret ++ ys) =
      crlf_lines (buffered r) (data ++ ys)) ∧
    (rn2483_receive_buf kmalloc r data).ret ≤ data.length ∧
    ((∀ n, kmalloc n = true) → data ≠ [] → 0 < (rn2483_receive_buf kmalloc r data).ret) := by
  obtain ⟨buf, saw_cr⟩ := r
  cases buf with
  | none =>
    simp only [buffered] at hr
    simp only [rn2483_receive_buf, buffered]
    by_cases hk : kmalloc data.length = true
    · rw [if_pos hk]
      have h := rn2483_receive_loop_lines data.length [] data saw_cr [] (by simpa using hr)
      simp only [List.nil_append] at h
      exact ⟨h.1, h.2.1, h.2.2.1, fun _ hd => h.2.2.2 hd⟩
    · rw [if_neg hk]
      refine ⟨by simpa [buffered] using hr, by simp [buffered], Nat.zero_le _, ?_⟩
      intro hall
      exact absurd (hall _) hk
  | some sb =>
    obtain ⟨size, b⟩ := sb
    simp only [buffered] at hr
    simp only [rn2483_receive_buf, buffered]
    by_cases hk : kmalloc (b.length + data.length) = true
    · rw [if_pos hk]
      have h := rn2483_receive_loop_lines (b.length + data.length) b data saw_cr []
        (by simpa using hr)
      simp only [List.nil_append, List.append_nil] at h
      exact ⟨h.1, h.2.1, h.2.2.1, fun _ hd => h.2.2.2 hd⟩
    · rw [if_neg hk]
      refine ⟨by simpa [buffered] using hr, by simp [buffered], Nat.zero_le _, ?_⟩
      intro hall
      exact absurd (hall _) hk

/-- The stores of one call of `rn2483_receive_buf` are inside the allocation. -/
theorem rn2483_receive_buf_writes (kmalloc : Nat → Bool) (r : rn2483_device)
    (data : List Nat) (hr : r.saw_cr = decide ((buffered r).getLast? = some 13)) :
    ∀ w ∈ (rn2483_receive_buf kmalloc r data).writes,
      0 ≤ w.2.1 ∧ w.2.1 + (w.2.2 : Int) ≤ (w.1 : Int) := by
  obtain ⟨buf, saw_cr⟩ := r
  cases buf with
  | none =>
    simp only [buffered] at hr
    simp only [rn2483_receive_buf]
    by_cases hk : kmalloc data.length = true
    · rw [if_pos hk]
      exact rn2483_receive_loop_writes data.length [] data saw_cr []
        (by intro h; rw [h] at hr; simp at hr) (by simp)
    · rw [if_neg hk]
      simp
  | some sb =>
    obtain ⟨size, b⟩ := sb
    simp only [buffered] at hr
    simp only [rn2483_receive_buf]
    by_cases hk : kmalloc (b.length + data.length) = true
    · rw [if_pos hk]
      exact rn2483_receive_loop_writes (b.length + data.length) b data saw_cr []
        (by
          intro h hnil
          rw [h] at hr
          simp only [List.append_nil] at hnil
          rw [hnil] at hr
          simp at hr)
        (by simp)
    · rw [if_neg hk]
      simp

/-- The repeated offer of the octets left: the same facts for all the calls
together. -/
theorem rn2483_drain_lines (kmalloc : Nat → Bool) (fuel : Nat) :
    ∀ (r : rn2483_device) (data : List Nat),
      r.saw_cr = decide ((buffered r).getLast? = some 13) →
      (rn2483_drain kmalloc fuel r data).1.saw_cr =
        decide ((buffered (rn2483_drain kmalloc fuel r data).1).getLast? = some 13) ∧
      (∀ ys, (rn2483_drain kmalloc fuel r data).2.2.1 ++
          crlf_lines (buffered (rn2483_drain kmalloc fuel r data).1)
            ((rn2483_drain kmalloc fuel r data).2.1 ++ ys) =
        crlf_lines (buffered r) (data ++ ys)) ∧
      ((∀ n, kmalloc n = true) → data.length < fuel →
        (rn2483_drain kmalloc fuel r data).2.1 = []) ∧
      ∀ w ∈ (rn2483_drain kmalloc fuel r data).2.2.2,
        0 ≤ w.2.1 ∧ w.2.1 + (w.2.2 : Int) ≤ (w.1 : Int) := by
  induction fuel with
  | zero =>
    intro r data hr
    simp only [rn2483_drain]
    refine ⟨hr, fun _ => rfl, ?_, by simp⟩
    intro _ h
    exact absurd h (Nat.not_lt_zero _)
  | succ n ih =>
    intro r data hr
    rw [rn2483_drain]
    by_cases hd : data = []
    · rw [if_pos hd, hd]
      refine ⟨hr, fun _ => rfl, fun _ _ => rfl, by simp⟩
    · rw [if_neg hd]
      have hcall := rn2483_receive_buf_lines kmalloc r data hr
      have hw := rn2483_receive_buf_writes kmalloc r data hr
      by_cases hz : (rn2483_receive_buf kmalloc r data).ret = 0
      · rw [if_pos hz]
        rw [hz, List.drop_zero] at hcall
        refine ⟨hcall.1, hcall.2.1, ?_, hw⟩
        intro hall _
        have := hcall.2.2.2 hall hd
        omega
      · rw [if_neg hz]
        have hrec := ih (rn2483_receive_buf kmalloc r data).dev
          (data.drop (rn2483_receive_buf kmalloc r data).ret) hcall.1
        refine ⟨hrec.1, ?_, ?_, ?_⟩
        · intro ys
          simp only
          rw [List.append_assoc, hrec.2.1 ys, hcall.2.1 ys]
        · intro hall hlt
          apply hrec.2.2.1 hall
          simp only [List.length_drop]
          omega
        · intro w hmem
          simp only [List.mem_append] at hmem
          rcases hmem with hmem | hmem
          · exact hw w hmem
          · exact hrec.2.2.2 w hmem

/-- The delivery in chunks: the same facts for the whole stream. -/
theorem rn2483_feed_chunks_lines (kmalloc : Nat → Bool) (chunks : List (List Nat)) :
    ∀ (r : rn2483_device) (pending : List Nat),
      r.saw_cr = decide ((buffered r).getLast? = some 13) →
      (rn2483_feed_chunks kmalloc r pending chunks).2.2.1 ++
          crlf_lines (buffered (rn2483_feed_chunks kmalloc r pending chunks).1)
            (rn2483_feed_chunks kmalloc r pending chunks).2.1 =
        crlf_lines (buffered r) (pending ++ chunks.flatten) ∧
      ((∀ n, kmalloc n = true) → pending = [] →
        (rn2483_feed_chunks kmalloc r pending chunks).2.1 = []) ∧
      ∀ w ∈ (rn2483_feed_chunks kmalloc r pending chunks).2.2.2,
        0 ≤ w.2.1 ∧ w.2.1 + (w.2.2 : Int) ≤ (w.1 : Int) := by
  induction chunks with
  | nil =>
    intro r pending _
    simp [rn2483_feed_chunks]
  | cons c cs ih =>
    intro r pending hr
    simp only [rn2483_feed_chunks, List.flatten_cons]
    have hd := rn2483_drain_lines kmalloc ((pending ++ c).length + 1) r (pending ++ c) hr
    have hrec := ih (rn2483_drain kmalloc ((pending ++ c).length + 1) r (pending ++ c)).1
      (rn2483_drain kmalloc ((pending ++ c).length + 1) r (pending ++ c)).2.1 hd.1
    refine ⟨?_, ?_, ?_⟩
    · rw [List.append_assoc, hrec.1, hd.2.1 cs.flatten, List.append_assoc]
    · intro hall _
      exact hrec.2.1 hall (hd.2.2.1 hall (Nat.lt_succ_self _))
    · intro w hmem
      simp only [List.mem_append] at hmem
      rcases hmem with hmem | hmem
      · exact hd.2.2.2 w hmem
      · exact hrec.2.2 w hmem

end Rn2483

namespace Usi

/-- C21: for every call of `usi_receive_buf` that is not rejected as busy or
full, with `B` the buffer after the chunk has been appended: the command
completion `prompt_recv_comp` is signalled if and only if `B` ends with the
three octets "\r# " of the prompt marker; the frame delivered then is `B` with
exactly those three octets removed, and the other completion is left alone. -/
theorem c21_prompt (u : usi_device) (data B : List Nat)
    (hidle1 : Wimod.completion_done u.prompt_recv_comp = false)
    (hidle2 : Wimod.completion_done u.tx_event_recv_comp = false)
    (hroom : u.rx_buf.length ≠ 4095)
    (hB : B = u.rx_buf ++ data.take (min data.length (4095 - u.rx_buf.length))) :
    ((usi_receive_buf u data).dev.prompt_recv_comp = Wimod.complete u.prompt_recv_comp ↔
      ∃ F, B = F ++ [13, 35, 32]) ∧
    ((¬ ∃ F, B = F ++ [13, 35, 32]) →
      (usi_receive_buf u data).dev.prompt_recv_comp = u.prompt_recv_comp) ∧
    (∀ F, B = F ++ [13, 35, 32] →
      (usi_receive_buf u data).dev = ⟨F, Wimod.complete u.prompt_recv_comp,
        u.tx_event_recv_comp⟩) := by
  rw [usi_receive_buf_scan u data hidle1 hidle2 hroom, ← hB]
  have h := usi_scan_prompt u.prompt_recv_comp u.tx_event_recv_comp B
    (min data.length (4095 - u.rx_buf.length))
    (if min data.length (4095 - u.rx_buf.length) > 0 then
      [(u.rx_buf.length, min data.length (4095 - u.rx_buf.length))] else [])
  simp only [PROMPT] at h
  refine ⟨⟨?_, ?_⟩, h.2, ?_⟩
  · intro hc
    by_contra hno
    rw [h.2 hno] at hc
    have hd := congrArg Wimod.completion.done hc
    simp [Wimod.complete] at hd
  · intro hF
    rw [h.1 hF]
  · intro F hF
    rw [h.1 ⟨F, hF⟩, hF]
    simp

/-- Witness of C21: the response "OK\r\n" and the prompt in one chunk. -/
theorem c21_prompt_witness :
    (usi_receive_buf ⟨[], ⟨0⟩, ⟨0⟩⟩ [79, 75, 13, 10, 13, 35, 32]).dev =
      ⟨[79, 75, 13, 10], ⟨1⟩, ⟨0⟩⟩ :=
  (c21_prompt ⟨[], ⟨0⟩, ⟨0⟩⟩ [79, 75, 13, 10, 13, 35, 32] [79, 75, 13, 10, 13, 35, 32]
    (by decide) (by decide) (by decide) (by decide)).2.2 [79, 75, 13, 10] (by decide)

end Usi

namespace Mm002

/-- C22 (as amended): for every complete text response `R` (it fits the buffer,
ends with "\r\nOK\r\n" or "\r\nERROR\r\n" and with no such token earlier) that
begins neither with a NUL nor with the reset banner, and every split of `R`
into consecutive chunks, of whatever sizes, the chunks handed to
`mm002_receive_buf` from an empty idle reassembler leave the same frame, with the completion signalled
once, as `R` handed in a single call, every octet being consumed; and as long
as a part of `R` is still to come no frame is emitted, the completion is not
signalled. -/
theorem c22_chunked_response (R : List Nat) (chunks : List (List Nat))
    (hchunks : chunks.flatten = R)
    (hterm : (∃ pre, R = pre ++ [13, 10, 79, 75, 13, 10]) ∨
      (∃ pre, R = pre ++ [13, 10, 69, 82, 82, 79, 82, 13, 10]))
    (hfirst : ∀ k < R.length, strends (R.take k) OK_TAIL = false ∧
      strends (R.take k) ERROR_TAIL = false)
    (hnul : R.head? ≠ some 0) (hban : R.take 16 ≠ RESET_BANNER)
    (hlen : R.length ≤ 4095) :
    mm002_feed_chunks ⟨[], ⟨0⟩⟩ [] chunks = ((mm002_receive_buf ⟨[], ⟨0⟩⟩ R).dev, []) ∧
    (mm002_receive_buf ⟨[], ⟨0⟩⟩ R).dev =
      ⟨if R.take 2 = [13, 10] then (R.take (R.length - 2)).drop 2 else R.take (R.length - 2),
        ⟨1⟩⟩ ∧
    (mm002_receive_buf ⟨[], ⟨0⟩⟩ R).ret = R.length ∧
    (∀ pre post : List (List Nat), chunks = pre ++ post → post.flatten ≠ [] →
      mm002_feed_chunks ⟨[], ⟨0⟩⟩ [] pre = (⟨pre.flatten, ⟨0⟩⟩, [])) := by
  have hpos : 0 < R.length := by
    rcases hterm with ⟨pre, h⟩ | ⟨pre, h⟩ <;> rw [h] <;> simp
  have hbanner : ¬ (16 < R.length ∧ R.take 16 = RESET_BANNER) := fun h => hban h.2
  have hone : mm002_receive_buf ⟨[], ⟨0⟩⟩ R =
      mm002_scan ⟨0⟩ R R.length (if R.length > 0 then [(0, R.length)] else []) := by
    have h := mm002_receive_buf_scan ⟨[], ⟨0⟩⟩ R rfl (by decide)
    have hmin : min R.length (4095 - 0) = R.length := by omega
    simpa [hmin] using h
  refine ⟨?_, ?_, ?_, ?_⟩
  · rw [mm002_feed_chunks_response R hlen hterm hfirst hnul hban chunks []
      (by simpa using hchunks) (by simpa using hpos), hone]
    rw [mm002_scan_dev ⟨0⟩ R 0 R.length [] _]
  · rw [hone, (mm002_scan_tail ⟨0⟩ R _ _ hterm hbanner).1]
    rfl
  · rw [hone, mm002_scan_ret]
  · intro pre post hsplit hpost
    have h := mm002_feed_chunks_quiet R hlen hfirst hnul hban pre [] post.flatten
      (by rw [← hchunks, hsplit]; simp) hpost
    simpa using h

/-- Witness of C22: the response "\r\nfoo\r\nOK\r\n" handed one octet at a time. -/
theorem c22_chunked_response_witness :
    mm002_feed_chunks ⟨[], ⟨0⟩⟩ [] [[13], [10], [102], [111], [111], [13], [10], [79], [75],
        [13], [10]] =
      ((mm002_receive_buf ⟨[], ⟨0⟩⟩ [13, 10, 102, 111, 111, 13, 10, 79, 75, 13, 10]).dev, []) ∧
    (mm002_receive_buf ⟨[], ⟨0⟩⟩ [13, 10, 102, 111, 111, 13, 10, 79, 75, 13, 10]).dev =
      ⟨[102, 111, 111, 13, 10, 79, 75], ⟨1⟩⟩ :=
  ⟨(c22_chunked_response [13, 10, 102, 111, 111, 13, 10, 79, 75, 13, 10]
      [[13], [10], [102], [111], [111], [13], [10], [79], [75], [13], [10]]
      (by decide) (Or.inl ⟨[13, 10, 102, 111, 111], by decide⟩) (by decide) (by decide)
      (by decide) (by decide)).1,
    (c22_chunked_response [13, 10, 102, 111, 111, 13, 10, 79, 75, 13, 10]
      [[13], [10], [102], [111], [111], [13], [10], [79], [75], [13], [10]]
      (by decide) (Or.inl ⟨[13, 10, 102, 111, 111], by decide⟩) (by decide) (by decide)
      (by decide) (by decide)).2.1.trans (by decide)⟩

/-- Counterexample to C22 as stated.  The response "\0\r\nOK\r\n" ends with its
only terminal token; handed in one call it leaves the frame "\0\r\nOK", handed
as "\0\r\n" then "OK\r\n" it leaves the frame "OK", because the leading NUL is
dropped only from a buffer of exactly three octets (mm002.c:126-131).  The
octets "\r\n+DEBUG: START,v\n\r\nfoo\r\nOK\r\n", which begin with the reset
banner, give no frame in one call (the whole buffer is taken as a banner) and
the frame "foo\r\nOK" when the second chunk starts behind the banner line. -/
theorem c22_counterexample :
    [[0, 13, 10], [79, 75, 13, 10]].flatten = [0, 13, 10, 79, 75, 13, 10] ∧
    (∀ k < 7, strends (([0, 13, 10, 79, 75, 13, 10] : List Nat).take k) OK_TAIL = false ∧
      strends (([0, 13, 10, 79, 75, 13, 10] : List Nat).take k) ERROR_TAIL = false) ∧
    (mm002_receive_buf ⟨[], ⟨0⟩⟩ [0, 13, 10, 79, 75, 13, 10]).dev =
      ⟨[0, 13, 10, 79, 75], ⟨1⟩⟩ ∧
    mm002_feed_chunks ⟨[], ⟨0⟩⟩ [] [[0, 13, 10], [79, 75, 13, 10]] =
      (⟨[79, 75], ⟨1⟩⟩, []) ∧
    (mm002_receive_buf ⟨[], ⟨0⟩⟩
        [13, 10, 43, 68, 69, 66, 85, 71, 58, 32, 83, 84, 65, 82, 84, 44, 118, 10,
          13, 10, 102, 111, 111, 13, 10, 79, 75, 13, 10]).dev = ⟨[], ⟨0⟩⟩ ∧
    mm002_feed_chunks ⟨[], ⟨0⟩⟩ []
        [[13, 10, 43, 68, 69, 66, 85, 71, 58, 32, 83, 84, 65, 82, 84, 44, 118, 10],
          [13, 10, 102, 111, 111, 13, 10, 79, 75, 13, 10]] =
      (⟨[102, 111, 111, 13, 10, 79, 75], ⟨1⟩⟩, []) := by
  decide

/-- Calls of `mm002_receive_buf` made while a signal is pending change nothing. -/
theorem mm002_rx_pending (rx : List (List Nat)) (m : mm002_device)
    (h : Wimod.completion_done m.resp_recv_comp = true) :
    rx.foldl (fun d chunk => (mm002_receive_buf d chunk).dev) m = m := by
  induction rx with
  | nil => rfl
  | cons c cs ih =>
    simp only [List.foldl_cons]
    rw [mm002_receive_buf_rejected m c (Or.inl h)]
    exact ih

/-- A command sent while a signal is pending gets the frame in the buffer. -/
theorem mm002_send_command_pending (kstrdup : Bool) (rx : List (List Nat))
    (m : mm002_device) (cmd : List Nat) (data : Bool)
    (h : Wimod.completion_done m.resp_recv_comp = true) :
    mm002_send_command kstrdup rx m cmd data =
      ⟨⟨[], ⟨0⟩⟩, 0, if data = true ∧ kstrdup = true then some (cstr m.rx_buf) else none,
        cstr cmd ++ CRLF⟩ := by
  have hdone : m.resp_recv_comp.done ≠ 0 := by
    simpa [Wimod.completion_done] using h
  unfold mm002_send_command
  simp only [mm002_rx_pending rx m h, Wimod.wait_for_completion_timeout, if_neg hdone,
    Wimod.reinit_completion]
  rw [if_neg (by simp)]

/-- C23 (as amended): `mm002_send_command` takes the frame whose signal is
pending, whenever it was completed.  A command that finds no signal within
its wait returns `-ETIMEDOUT` and leaves the reassembler as it was; a frame
completed afterwards stays in the buffer with its signal pending, and the
next `mm002_send_command` returns at once with that earlier frame as the
response to its own command, whatever arrives while it waits, and re-arms. -/
theorem c23_late_frame (kstrdup : Bool) (rx : List (List Nat)) (m : mm002_device)
    (cmd : List Nat) (data : Bool) :
    (Wimod.completion_done m.resp_recv_comp = false →
      mm002_send_command kstrdup [] m cmd data = ⟨m, -ETIMEDOUT, none, cstr cmd ++ CRLF⟩) ∧
    (Wimod.completion_done m.resp_recv_comp = true →
      mm002_send_command kstrdup rx m cmd data =
        ⟨⟨[], ⟨0⟩⟩, 0, if data = true ∧ kstrdup = true then some (cstr m.rx_buf) else none,
          cstr cmd ++ CRLF⟩) := by
  refine ⟨?_, mm002_send_command_pending kstrdup rx m cmd data⟩
  intro h
  have hdone : m.resp_recv_comp.done = 0 := by
    simpa [Wimod.completion_done] using h
  unfold mm002_send_command
  simp only [List.foldl_nil, Wimod.wait_for_completion_timeout, if_pos hdone]
  rfl

/-- Witness of C23: the command "AT" sent while the frame "+V\r\nOK" waits. -/
theorem c23_late_frame_witness :
    mm002_send_command true [[13, 10, 79, 75, 13, 10]] ⟨[43, 86, 13, 10, 79, 75], ⟨1⟩⟩
        [65, 84] true =
      ⟨⟨[], ⟨0⟩⟩, 0, some [43, 86, 13, 10, 79, 75], [65, 84, 13, 10]⟩ :=
  ((c23_late_frame true [[13, 10, 79, 75, 13, 10]] ⟨[43, 86, 13, 10, 79, 75], ⟨1⟩⟩
    [65, 84] true).2 (by decide)).trans (by decide)

/-- Counterexample to C23 as stated: the command "AT+DEBUG=MVER" times out; its
response "\r\n+DEBUG: MVER,1\r\nOK\r\n" is completed by `mm002_receive_buf`
afterwards; the next command, "AT", whose own response "\r\nOK\r\n" arrives
while it waits, returns 0 with the earlier frame "+DEBUG: MVER,1\r\nOK". -/
theorem c23_counterexample :
    mm002_send_command true [] ⟨[], ⟨0⟩⟩
        [65, 84, 43, 68, 69, 66, 85, 71, 61, 77, 86, 69, 82] true =
      ⟨⟨[], ⟨0⟩⟩, -ETIMEDOUT, none,
        [65, 84, 43, 68, 69, 66, 85, 71, 61, 77, 86, 69, 82, 13, 10]⟩ ∧
    (mm002_receive_buf ⟨[], ⟨0⟩⟩
        [13, 10, 43, 68, 69, 66, 85, 71, 58, 32, 77, 86, 69, 82, 44, 49, 13, 10, 79, 75,
          13, 10]).dev =
      ⟨[43, 68, 69, 66, 85, 71, 58, 32, 77, 86, 69, 82, 44, 49, 13, 10, 79, 75], ⟨1⟩⟩ ∧
    mm002_send_command true [[13, 10, 79, 75, 13, 10]]
        ⟨[43, 68, 69, 66, 85, 71, 58, 32, 77, 86, 69, 82, 44, 49, 13, 10, 79, 75], ⟨1⟩⟩
        [65, 84] true =
      ⟨⟨[], ⟨0⟩⟩, 0,
        some [43, 68, 69, 66, 85, 71, 58, 32, 77, 86, 69, 82, 44, 49, 13, 10, 79, 75],
        [65, 84, 13, 10]⟩ := by
  decide

end Mm002

namespace Wimod

/-- C24: for every `n` (so for every `n >= 1`), `n` delimiter octets 0xC0 handed to
`wimod_receive_buf` in a state with `rx_len = 0` and `rx_esc = false` are all
consumed (the call returns `n`), no packet is handed to `wimod_process_packet`
and the state of the reassembler, the dispatcher list included, is unchanged. -/
theorem c24_idle_delimiters (kz : Int → Bool) (reg : List wimod_hci_packet_completion)
    (n : Nat) :
    wimod_receive_buf kz ⟨[], false, reg⟩ (List.replicate n 0xC0) =
      ⟨⟨[], false, reg⟩, n, []⟩ := by
  unfold wimod_receive_buf
  rw [wimod_receive_loop_delimiters]
  simp

/-- C25: the result slot of a pending request is fulfilled at most once.  When
`wimod_hci_packet_dispatch_completion` is invoked for a request whose completion
is signalled and not yet consumed, the request is left as it is: `payload` and
`payload_len` keep their values and the completion is not signalled again.  So
a second delivery after any first one changes nothing. -/
theorem c25_fulfilled_once (kz : Int → Bool) (data : List Nat) (len : Int)
    (e : wimod_hci_packet_completion) (h : completion_done e.comp = true) :
    wimod_hci_packet_dispatch_completion kz data len e = e ∧
    ∀ (data0 : List Nat) (len0 : Int) (e0 : wimod_hci_packet_completion),
      wimod_hci_packet_dispatch_completion kz data len
          (wimod_hci_packet_dispatch_completion kz data0 len0 e0) =
        wimod_hci_packet_dispatch_completion kz data0 len0 e0 := by
  have hkeep : ∀ x : wimod_hci_packet_completion, completion_done x.comp = true →
      wimod_hci_packet_dispatch_completion kz data len x = x := by
    intro x hx
    unfold wimod_hci_packet_dispatch_completion
    rw [if_pos hx]
  refine ⟨hkeep e h, ?_⟩
  intro data0 len0 e0
  apply hkeep
  unfold wimod_hci_packet_dispatch_completion
  by_cases h0 : completion_done e0.comp = true
  · rw [if_pos h0]
    exact h0
  · rw [if_neg h0]
    simp [completion_done, complete]

/-- Witness of C25: a request that holds the payload `07` with its completion
signalled is handed a second packet. -/
theorem c25_fulfilled_once_witness :
    wimod_hci_packet_dispatch_completion (fun _ => true) [1, 2, 8, 9, 0x10, 0x20] 6
        ⟨1, 2, ⟨1⟩, some [7], 1⟩ = ⟨1, 2, ⟨1⟩, some [7], 1⟩ :=
  (c25_fulfilled_once (fun _ => true) [1, 2, 8, 9, 0x10, 0x20] 6
    ⟨1, 2, ⟨1⟩, some [7], 1⟩ (by decide)).1

/-- C26: for every `d`, `m` and payload `p` of at most 300 octets, each of the
`slip_write_data` calls of `wimod_hci_send` gets the room it needs and returns
the number of octets stored, not `-ENOMEM`; the assembled frame has at most
610 octets, and the store of the closing delimiter, which is not checked, is
at an index below 610, the size of the buffer. -/
theorem c26_send_in_bounds (d m : Nat) (p : List Nat) (hp : p.length ≤ 300) :
    slip_write_data ((WIMOD_HCI_PACKET_MAX : Int) - 1) [d] =
      (((esc [d]).length : Int), esc [d]) ∧
    slip_write_data ((WIMOD_HCI_PACKET_MAX : Int) - ((1 + (esc [d]).length : Nat) : Int)) [m] =
      (((esc [m]).length : Int), esc [m]) ∧
    slip_write_data ((WIMOD_HCI_PACKET_MAX : Int) -
        ((1 + (esc [d]).length + (esc [m]).length : Nat) : Int)) p =
      (((esc p).length : Int), esc p) ∧
    slip_write_data ((WIMOD_HCI_PACKET_MAX : Int) -
        ((1 + (esc [d]).length + (esc [m]).length + (esc p).length : Nat) : Int))
        [u16_not (crc_ccitt 0xffff (d :: m :: p)) &&& 0xff,
          u16_not (crc_ccitt 0xffff (d :: m :: p)) >>> 8] =
      (((esc [u16_not (crc_ccitt 0xffff (d :: m :: p)) &&& 0xff,
          u16_not (crc_ccitt 0xffff (d :: m :: p)) >>> 8]).length : Int),
        esc [u16_not (crc_ccitt 0xffff (d :: m :: p)) &&& 0xff,
          u16_not (crc_ccitt 0xffff (d :: m :: p)) >>> 8]) ∧
    wimod_hci_send_buf d m p = .ok (encode d m p) ∧
    (encode d m p).length ≤ 610 ∧
    (encode d m p).length =
      1 + (esc [d]).length + (esc [m]).length + (esc p).length +
        (esc [u16_not (crc_ccitt 0xffff (d :: m :: p)) &&& 0xff,
          u16_not (crc_ccitt 0xffff (d :: m :: p)) >>> 8]).length + 1 ∧
    1 + (esc [d]).length + (esc [m]).length + (esc p).length +
        (esc [u16_not (crc_ccitt 0xffff (d :: m :: p)) &&& 0xff,
          u16_not (crc_ccitt 0xffff (d :: m :: p)) >>> 8]).length < 610 := by
  have hmax : (WIMOD_HCI_PACKET_MAX : Int) = 610 := by decide
  have h1 := esc_length_le [d]
  have h2 := esc_length_le [m]
  have h3 := esc_length_le p
  have h4 := esc_length_le [u16_not (crc_ccitt 0xffff (d :: m :: p)) &&& 0xff,
    u16_not (crc_ccitt 0xffff (d :: m :: p)) >>> 8]
  simp only [List.length_cons, List.length_nil] at h1 h2 h4
  have hlen : (encode d m p).length =
      1 + (esc [d]).length + (esc [m]).length + (esc p).length +
        (esc [u16_not (crc_ccitt 0xffff (d :: m :: p)) &&& 0xff,
          u16_not (crc_ccitt 0xffff (d :: m :: p)) >>> 8]).length + 1 := by
    rw [encode_eq]
    have hsplit : d :: m :: p ++ [u16_not (crc_ccitt 0xffff (d :: m :: p)) &&& 0xff,
        u16_not (crc_ccitt 0xffff (d :: m :: p)) >>> 8] =
        [d] ++ ([m] ++ (p ++ [u16_not (crc_ccitt 0xffff (d :: m :: p)) &&& 0xff,
          u16_not (crc_ccitt 0xffff (d :: m :: p)) >>> 8])) := by simp
    rw [hsplit, esc_append, esc_append, esc_append]
    simp only [List.length_append, List.length_cons, List.length_nil]
    omega
  refine ⟨?_, ?_, ?_, ?_, wimod_hci_send_buf_eq d m p hp, ?_, hlen, ?_⟩
  · exact slip_write_data_ok _ _ (by rw [hmax]; omega)
  · exact slip_write_data_ok _ _ (by rw [hmax]; omega)
  · exact slip_write_data_ok _ _ (by rw [hmax]; omega)
  · exact slip_write_data_ok _ _ (by rw [hmax]; omega)
  · rw [hlen]; omega
  · omega

/-- Witness of C26: the payload of 300 delimiter octets with `d = m = 0xC0`. -/
theorem c26_send_in_bounds_witness :
    (List.replicate 300 0xC0).length ≤ 300 ∧
    (encode 0xC0 0xC0 (List.replicate 300 0xC0)).length ≤ 610 :=
  ⟨by rw [List.length_replicate],
    (c26_send_in_bounds 0xC0 0xC0 (List.replicate 300 0xC0)
      (by rw [List.length_replicate])).2.2.2.2.2.1⟩

/-- C27: for every octet sequence `xs` with `1 <= |xs| <= 609`, the escaped form of
`xs`, as `slip_write_data` stores it, followed by one delimiter and handed to
`wimod_receive_buf` in one call from an empty reassembler is consumed entirely;
`wimod_process_packet` is handed exactly one packet, equal to `xs`, and the
call ends with `rx_len = 0` and `rx_esc = false`. -/
theorem c27_slip_decode (kz : Int → Bool) (reg : List wimod_hci_packet_completion)
    (xs : List Nat) (h1 : 1 ≤ xs.length) (h2 : xs.length ≤ 609) :
    (slip_write_data (2 * (xs.length : Int)) xs).2 = esc xs ∧
    wimod_receive_buf kz ⟨[], false, reg⟩ (esc xs ++ [0xC0]) =
      ⟨⟨[], false, (wimod_process_packet kz reg xs).1⟩, (esc xs ++ [0xC0]).length, [xs]⟩ := by
  refine ⟨?_, ?_⟩
  · rw [slip_write_data_ok _ _ (by have := esc_length_le xs; omega)]
  · unfold wimod_receive_buf
    have h := wimod_receive_loop_esc kz xs [] reg 0 [] [] []
      (by simp only [List.length_nil]; omega)
      (by
        intro hnil
        simp only [List.nil_append] at hnil
        rw [hnil] at h1
        simp at h1)
    rw [h]
    simp [wimod_receive_loop]

/-- Witness of C27: the three octets `C0 01 DB`. -/
theorem c27_slip_decode_witness :
    wimod_receive_buf (fun _ => true) ⟨[], false, []⟩ [0xDB, 0xDC, 0x01, 0xDB, 0xDD, 0xC0] =
      ⟨⟨[], false, []⟩, 6, [[0xC0, 0x01, 0xDB]]⟩ :=
  ((c27_slip_decode (fun _ => true) [] [0xC0, 0x01, 0xDB] (by decide) (by decide)).2).trans
    (by decide)

/-- C28: in `wimod_receive_buf`, when the escape flag is set and the next octet is
neither 0xDC nor 0xDD, that octet is consumed, nothing is appended to the
buffer and the flag is cleared, and the call goes on from there; a delimiter
0xC0 right after an escape octet, in the next call or in the same chunk,
does not close the frame: no packet is processed and `rx_len` is unchanged.
The room `rx_len < 610` is there whenever the flag is set in a state reached
from an empty reassembler. -/
theorem c28_unknown_escape (kz : Int → Bool) (w : wimod_device) (b : Nat) (rest : List Nat)
    (hesc : w.rx_esc = true) (hroom : w.rx_buf.length < 610)
    (hb1 : b ≠ 0xDC) (hb2 : b ≠ 0xDD) :
    wimod_receive_buf kz w (b :: rest) =
      wimod_receive_loop kz ⟨w.rx_buf, false, w.packet_dispatchers⟩ 1 [] [] rest ∧
    wimod_receive_buf kz w [b] = ⟨⟨w.rx_buf, false, w.packet_dispatchers⟩, 1, []⟩ ∧
    wimod_receive_buf kz w [0xC0] = ⟨⟨w.rx_buf, false, w.packet_dispatchers⟩, 1, []⟩ ∧
    wimod_receive_buf kz ⟨w.rx_buf, false, w.packet_dispatchers⟩ [0xDB, 0xC0] =
      ⟨⟨w.rx_buf, false, w.packet_dispatchers⟩, 2, []⟩ ∧
    (∀ (reg : List wimod_hci_packet_completion) (chunks : List (List Nat)),
      (wimod_run kz ⟨[], false, reg⟩ chunks).1.rx_esc = true →
        (wimod_run kz ⟨[], false, reg⟩ chunks).1.rx_buf.length < 610) := by
  refine ⟨?_, ?_, ?_, ?_, ?_⟩
  · unfold wimod_receive_buf
    rw [wimod_receive_loop_unknown_escape kz w 0 [] b rest hesc hroom hb1 hb2]
  · unfold wimod_receive_buf
    rw [wimod_receive_loop_unknown_escape kz w 0 [] b [] hesc hroom hb1 hb2]
    simp [wimod_receive_loop]
  · unfold wimod_receive_buf
    rw [wimod_receive_loop_unknown_escape kz w 0 [] 0xC0 [] hesc hroom (by decide) (by decide)]
    simp [wimod_receive_loop]
  · unfold wimod_receive_buf
    rw [wimod_receive_loop_pair kz w.rx_buf w.packet_dispatchers 0 [] [] 0xC0 []
      (by simpa using hroom)]
    simp [wimod_receive_loop]
  · intro reg chunks
    exact wimod_run_esc_room kz chunks ⟨[], false, reg⟩ (by simp)

/-- Witness of C28: the buffer holds `01` and the escape flag is set when the
delimiter arrives. -/
theorem c28_unknown_escape_witness :
    wimod_receive_buf (fun _ => true) ⟨[0x01], true, []⟩ [0xC0] =
      ⟨⟨[0x01], false, []⟩, 1, []⟩ :=
  (c28_unknown_escape (fun _ => true) ⟨[0x01], true, []⟩ 0xC0 [] rfl (by decide)
    (by decide) (by decide)).2.1

end Wimod

namespace Usi

/-- A response that `usi_cmd_ok` accepts through its second test is cut inside
the string. -/
theorem usi_cmd_ok_cut_long (resp : List Nat) (h : usi_cmd_ok resp = true)
    (hne : resp ≠ [79, 75, 13, 10]) :
    ∃ i : Nat, usi_cmd_ok_cut resp = some (i : Int) ∧ i + 6 = resp.length := by
  unfold usi_cmd_ok_cut
  rw [if_pos h]
  simp only [usi_cmd_ok, decide_eq_true_eq] at h
  rcases h with ⟨_, h⟩ | ⟨h, _⟩
  · exact absurd h hne
  · exact ⟨resp.length - 6, by congr 1; omega, by omega⟩

/-- C29 (failing input): the response "OK\r\n" is what `usi_receive_buf` delivers
for the octets "OK\r\n\r# "; `usi_cmd_ok` accepts it by its first test, and the
store `resp[strlen(resp) - 6] = 0` of the callers is then at index -2, two
octets in front of the response buffer. -/
theorem c29_short_ok_cut :
    (usi_receive_buf ⟨[], ⟨0⟩, ⟨0⟩⟩ [79, 75, 13, 10, 13, 35, 32]).dev.rx_buf =
      [79, 75, 13, 10] ∧
    usi_cmd_ok [79, 75, 13, 10] = true ∧
    usi_cmd_ok_cut [79, 75, 13, 10] = some (-2) := by
  decide

end Usi

namespace Rn2483

/-- The lines in the words of the specification, one segment at a time: a
segment without a pair "\r\n" inside, followed by the pair, is the first
line. -/
theorem crlf_lines_segment (l rest : List Nat) :
    ∀ acc : List Nat, (∀ l1 l2, l = l1 ++ 10 :: l2 → (acc ++ l1).getLast? ≠ some 13) →
      crlf_lines acc (l ++ 13 :: 10 :: rest) = (acc ++ l) :: crlf_lines [] rest := by
  induction l with
  | nil =>
    intro acc _
    simp only [List.nil_append, List.append_nil]
    rw [crlf_lines, if_neg (by simp), crlf_lines, if_pos (by simp)]
    simp
  | cons b bs ih =>
    intro acc h
    rw [List.cons_append, crlf_lines, if_neg]
    · rw [ih (acc ++ [b])]
      · simp
      · intro l1 l2 hl
        have := h (b :: l1) l2 (by rw [hl]; rfl)
        simpa using this
    · intro hc
      have := h [] bs (by rw [hc.1]; rfl)
      exact this (by simpa using hc.2)

/-- A stream without a pair "\r\n" has no line. -/
theorem crlf_lines_none (l : List Nat) :
    ∀ acc : List Nat, (∀ l1 l2, l = l1 ++ 10 :: l2 → (acc ++ l1).getLast? ≠ some 13) →
      crlf_lines acc l = [] := by
  induction l with
  | nil => intro acc _; rfl
  | cons b bs ih =>
    intro acc h
    rw [crlf_lines, if_neg]
    · apply ih (acc ++ [b])
      intro l1 l2 hl
      have := h (b :: l1) l2 (by rw [hl]; rfl)
      simpa using this
    · intro hc
      have := h [] bs (by rw [hc.1]; rfl)
      exact this (by simpa using hc.2)

/-- C30: for every byte stream and every split of it into chunks, offered to
`rn2483_receive_buf` from the initial state with the octets reported as not
consumed offered again: the lines handed to `rn2483_receive_line`, followed by
the lines still to come from the octets not yet consumed, are the segments of
the stream that precede each successive pair "\r\n", in order and without the
pair; when every allocation succeeds every octet is consumed and the lines
handed over are exactly these segments, also when the carriage return ends one
chunk and the line feed begins the next; and every store into the line buffer
is inside its allocation, whether allocations succeed or not. -/
theorem c30_lines (kmalloc : Nat → Bool) (chunks : List (List Nat)) :
    (rn2483_feed_chunks kmalloc ⟨none, false⟩ [] chunks).2.2.1 ++
        crlf_lines (buffered (rn2483_feed_chunks kmalloc ⟨none, false⟩ [] chunks).1)
          (rn2483_feed_chunks kmalloc ⟨none, false⟩ [] chunks).2.1 =
      crlf_lines [] chunks.flatten ∧
    ((∀ n, kmalloc n = true) →
      (rn2483_feed_chunks kmalloc ⟨none, false⟩ [] chunks).2.1 = [] ∧
      (rn2483_feed_chunks kmalloc ⟨none, false⟩ [] chunks).2.2.1 =
        crlf_lines [] chunks.flatten) ∧
    (∀ w ∈ (rn2483_feed_chunks kmalloc ⟨none, false⟩ [] chunks).2.2.2,
      0 ≤ w.2.1 ∧ w.2.1 + (w.2.2 : Int) ≤ (w.1 : Int)) ∧
    (∀ l rest : List Nat, (∀ l1 l2, l = l1 ++ 10 :: l2 → l1.getLast? ≠ some 13) →
      crlf_lines [] (l ++ 13 :: 10 :: rest) = l :: crlf_lines [] rest) ∧
    (∀ l : List Nat, (∀ l1 l2, l = l1 ++ 10 :: l2 → l1.getLast? ≠ some 13) →
      crlf_lines [] l = []) := by
  have h := rn2483_feed_chunks_lines kmalloc chunks ⟨none, false⟩ [] (by simp [buffered])
  have hinit : buffered ⟨none, false⟩ = [] := rfl
  rw [hinit, List.nil_append] at h
  refine ⟨h.1, ?_, h.2.2, ?_, ?_⟩
  · intro hall
    have hp := h.2.1 hall rfl
    refine ⟨hp, ?_⟩
    have h1 := h.1
    rw [hp] at h1
    simpa [crlf_lines] using h1
  · intro l rest hl
    have := crlf_lines_segment l rest [] (by simpa using hl)
    simpa using this
  · intro l hl
    exact crlf_lines_none l [] (by simpa using hl)

/-- Witness of C30: the stream "ab\r\nc\r\n" with the first carriage return at the
end of the first chunk and its line feed at the start of the second. -/
theorem c30_lines_witness :
    (rn2483_feed_chunks (fun _ => true) ⟨none, false⟩ [] [[97, 98, 13], [10, 99, 13, 10]]).2.2.1 =
      [[97, 98], [99]] :=
  (((c30_lines (fun _ => true) [[97, 98, 13], [10, 99, 13, 10]]).2.1 (fun _ => rfl)).2).trans
    (by decide)

end Rn2483
